import Mathlib

/-!
# Workflow DAG and scheduler: a shallow embedding

Embedding of `backend/internal/workflow/dag.go`,
`backend/internal/workflow/scheduler.go`, the snapshot builder and the `Execute` handler
of `backend/internal/api/handlers/workflow.go`, and the `Replay` handler of
`backend/internal/api/handlers/execution.go`.

Modelling conventions.

* A Go `map[string]V` is a finite partial function `String → Option V`.  Reading a
  missing key yields the zero value (`GoMap.getD`).  Go iterates over a map in an
  unspecified order, so every function that ranges over a map takes the iteration
  order as an explicit argument; `IsIterOrder m order` says that `order` lists the
  keys of `m`, each once.
* A nil-pointer dereference is a runtime panic; it is the `Outcome.fault` result.
  A returned Go `error` is `Outcome.err`.
* Recursion and unbounded loops carry a fuel argument and return `none` when the
  fuel runs out; the theorems show that enough fuel always yields a result.
* Goroutines are modelled by an interleaving small-step semantics whose atomic
  steps are the critical sections and channel operations of the source.  A send on the
  event channel blocks when its buffer of 100 events is full and panics when the
  channel is closed.
* Go `int` and `int64` sums wrap at 64 bits (`wrapInt64`); timestamps are counted in
  milliseconds; floating-point fields are left out.
-/

namespace AgentWorkflow

/-! ## Go maps -/

/-- Go map with string keys. -/
abbrev GoMap (V : Type) := String → Option V

/-- The map produced by `make(map[string]V)`. -/
def GoMap.empty {V : Type} : GoMap V := fun _ => none

/-- Assignment `m[k] = v`. -/
def GoMap.set {V : Type} (m : GoMap V) (k : String) (v : V) : GoMap V :=
  fun k2 => if k2 = k then some v else m k2

/-- Read `m[k]`, the zero value `dflt` being returned for a missing key. -/
def GoMap.getD {V : Type} (m : GoMap V) (k : String) (dflt : V) : V :=
  (m k).getD dflt

/-- The list `order` is a possible iteration order of the map `m`. -/
def IsIterOrder {V : Type} (m : GoMap V) (order : List String) : Prop :=
  order.Nodup ∧ ∀ k, k ∈ order ↔ (m k).isSome = true

/-- Result of a Go call that may return an error or panic. -/
inductive Outcome (α : Type) where
  | ok (a : α)
  | err (msg : String)
  | fault
  deriving DecidableEq, Repr

/-! ## store/models.go -/

/-- Type `store.NodeConfig` (UI position and data are not read by the engine). -/
structure NodeConfig where
  ID : String
  AgentID : String
  deriving DecidableEq, Repr

/-- Type `store.EdgeConfig`. -/
structure EdgeConfig where
  ID : String
  Source : String
  Target : String
  deriving DecidableEq, Repr

/-- Type `store.Workflow` (only the fields read by `NewDAG`). -/
structure Workflow where
  Nodes : List NodeConfig
  Edges : List EdgeConfig
  deriving DecidableEq, Repr

/-! ## workflow/dag.go -/

/-- Type `workflow.Node` (`AgentName`, `Position`, `InputMap` and `Config` are not read
by the code embedded here; a `uuid.UUID` is kept as its string). -/
structure Node where
  ID : String
  AgentID : String
  DependsOn : List String
  Downstream : List String
  deriving DecidableEq, Repr

/-- Type `workflow.Edge`. -/
structure Edge where
  ID : String
  Source : String
  Target : String
  deriving DecidableEq, Repr

/-- Type `workflow.DAG`. -/
structure DAG where
  Nodes : GoMap Node
  Edges : List Edge
  InDegrees : GoMap Int
  OutEdges : GoMap (List String)

/-- The DAG allocated at the top of `NewDAG`. -/
def DAG.empty : DAG :=
  { Nodes := GoMap.empty, Edges := [], InDegrees := GoMap.empty, OutEdges := GoMap.empty }

/-- One iteration of the "Add nodes" loop of `NewDAG`. -/
def addNode (dag : DAG) (nodeConfig : NodeConfig) : DAG :=
  { dag with
    Nodes := dag.Nodes.set nodeConfig.ID
      { ID := nodeConfig.ID, AgentID := nodeConfig.AgentID, DependsOn := [], Downstream := [] }
    InDegrees := dag.InDegrees.set nodeConfig.ID 0
    OutEdges := dag.OutEdges.set nodeConfig.ID [] }

/-- One iteration of the "Add edges" loop of `NewDAG`.  `dag.Nodes[edge.Target]` and
`dag.Nodes[edge.Source]` are pointers; dereferencing a missing entry panics. -/
def addEdge (dag : DAG) (edgeConfig : EdgeConfig) : Outcome DAG :=
  let edge : Edge := { ID := edgeConfig.ID, Source := edgeConfig.Source, Target := edgeConfig.Target }
  let edges := dag.Edges ++ [edge]
  let outEdges := dag.OutEdges.set edge.Source (dag.OutEdges.getD edge.Source [] ++ [edge.Target])
  match dag.Nodes edge.Target with
  | none => Outcome.fault
  | some t =>
    let nodes1 := dag.Nodes.set edge.Target { t with DependsOn := t.DependsOn ++ [edge.Source] }
    let inDegrees := dag.InDegrees.set edge.Target (dag.InDegrees.getD edge.Target 0 + 1)
    match nodes1 edge.Source with
    | none => Outcome.fault
    | some s =>
      Outcome.ok
        { Nodes := nodes1.set edge.Source { s with Downstream := s.Downstream ++ [edge.Target] }
          Edges := edges
          InDegrees := inDegrees
          OutEdges := outEdges }

/-- The "Add edges" loop of `NewDAG`. -/
def addEdges : DAG → List EdgeConfig → Outcome DAG
  | dag, [] => Outcome.ok dag
  | dag, e :: rest =>
    match addEdge dag e with
    | Outcome.ok dag2 => addEdges dag2 rest
    | Outcome.err msg => Outcome.err msg
    | Outcome.fault => Outcome.fault

/-- The graph built by `NewDAG` before validation. -/
def buildGraph (workflow : Workflow) : Outcome DAG :=
  addEdges (workflow.Nodes.foldl addNode DAG.empty) workflow.Edges

/-- The two colour maps `visited` and `recStack` threaded through `hasCycle`. -/
structure DfsState where
  visited : GoMap Bool
  recStack : GoMap Bool

/-- The neighbour loop of `hasCycle`; `recurse` is the recursive call. -/
def hasCycleNeighbors (recurse : String → DfsState → Option (Bool × DfsState)) :
    List String → DfsState → Option (Bool × DfsState)
  | [], st => some (false, st)
  | neighbor :: rest, st =>
    if st.visited.getD neighbor false = false then
      match recurse neighbor st with
      | none => none
      | some (true, st2) => some (true, st2)
      | some (false, st2) => hasCycleNeighbors recurse rest st2
    else if st.recStack.getD neighbor false = true then
      some (true, st)
    else
      hasCycleNeighbors recurse rest st

/-- Method `DAG.hasCycle`: returns the boolean result and the mutated colour maps. -/
def DAG.hasCycle (d : DAG) : Nat → String → DfsState → Option (Bool × DfsState)
  | 0, _, _ => none
  | fuel + 1, nodeID, st =>
    let st1 : DfsState :=
      { visited := st.visited.set nodeID true, recStack := st.recStack.set nodeID true }
    match hasCycleNeighbors (DAG.hasCycle d fuel) (d.OutEdges.getD nodeID []) st1 with
    | none => none
    | some (true, st2) => some (true, st2)
    | some (false, st2) => some (false, { st2 with recStack := st2.recStack.set nodeID false })

/-- The loop of `Validate` over the keys of `d.Nodes`, visited in the order given.
The result is `true` when a cycle was reported. -/
def validateLoop (d : DAG) (fuel : Nat) : List String → DfsState → Option Bool
  | [], _ => some false
  | nodeID :: rest, st =>
    if st.visited.getD nodeID false = false then
      match d.hasCycle fuel nodeID st with
      | none => none
      | some (true, _) => some true
      | some (false, st2) => validateLoop d fuel rest st2
    else
      validateLoop d fuel rest st

/-- Method `DAG.Validate`; `order` is the iteration order of `d.Nodes`.  The result
`some none` is a nil error. -/
def DAG.Validate (d : DAG) (order : List String) (fuel : Nat) : Option (Option String) :=
  match validateLoop d fuel order { visited := GoMap.empty, recStack := GoMap.empty } with
  | none => none
  | some true => some (some "cycle detected in workflow DAG")
  | some false => some none

/-- Function `NewDAG`; `order` is the iteration order `Validate` uses for `dag.Nodes`. -/
def NewDAG (workflow : Workflow) (order : List String) (fuel : Nat) : Option (Outcome DAG) :=
  match buildGraph workflow with
  | Outcome.ok dag =>
    match dag.Validate order fuel with
    | none => none
    | some (some msg) => some (Outcome.err msg)
    | some none => some (Outcome.ok dag)
  | Outcome.err msg => some (Outcome.err msg)
  | Outcome.fault => some Outcome.fault

/-- The neighbour loop of `TopologicalSort`: decrement, and enqueue at zero. -/
def relax : List String → GoMap Int → List String → GoMap Int × List String
  | [], inDegree, queue => (inDegree, queue)
  | neighbor :: rest, inDegree, queue =>
    let v := inDegree.getD neighbor 0 - 1
    if v = 0 then relax rest (inDegree.set neighbor v) (queue ++ [neighbor])
    else relax rest (inDegree.set neighbor v) queue

/-- The main loop of `TopologicalSort`. -/
def topoLoop (d : DAG) : Nat → List String → GoMap Int → List String → Option (List String)
  | 0, _, _, _ => none
  | _ + 1, [], _, result => some result
  | fuel + 1, nodeID :: queue, inDegree, result =>
    let r := relax (d.OutEdges.getD nodeID []) inDegree queue
    topoLoop d fuel r.2 r.1 (result ++ [nodeID])

/-- Method `DAG.TopologicalSort`; `order` is the iteration order of the indegree map. -/
def DAG.TopologicalSort (d : DAG) (order : List String) (fuel : Nat) : Option (List String) :=
  topoLoop d fuel (order.filter (fun nodeID => d.InDegrees nodeID = some 0)) d.InDegrees []

/-- The dependency loop of `GetReadyNodes`. -/
def allDepsComplete (completed : GoMap Bool) : List String → Bool
  | [] => true
  | dep :: rest => if completed.getD dep false = false then false else allDepsComplete completed rest

/-- Method `DAG.GetReadyNodes`; `order` is the iteration order of `d.Nodes`. -/
def DAG.GetReadyNodes (d : DAG) (order : List String) (completed : GoMap Bool) : List String :=
  order.filter (fun nodeID =>
    match d.Nodes nodeID with
    | none => false
    | some node =>
      if completed.getD nodeID false = true then false
      else allDepsComplete completed node.DependsOn)

/-! ## workflow/scheduler.go -/

/-- Type `store.Step` (the fields the scheduler writes; `Type_` is the field `Type`). -/
structure Step where
  StepID : String
  Type_ : String
  Input : String
  Output : String
  Prompt : String
  Tokens : Int
  LatencyMs : Int
  Timestamp : Int
  deriving DecidableEq, Repr

/-- Type `workflow.NodeResult`; `Error` is `none` for a nil error. -/
structure NodeResult where
  NodeID : String
  Output : String
  Steps : List Step
  StartTime : Int
  EndTime : Int
  Error : Option String
  deriving DecidableEq, Repr

/-- Type `workflow.ExecutionEvent` (`Type_` is the field `Type`). -/
structure ExecutionEvent where
  Type_ : String
  NodeID : String
  Step : Option Step
  Timestamp : Int
  deriving DecidableEq, Repr

/-- The part of a `store.Agent` read by `executeNode`.  `provider` and `model` are the
results of the type assertions `ModelConfig["provider"].(string)` and
`ModelConfig["model"].(string)`: `none` when the key is missing or holds no string. -/
structure AgentRecord where
  SystemPrompt : String
  provider : Option String
  model : Option String
  deriving DecidableEq, Repr

/-- The part of an `agent.Result` read by `executeNode`. -/
structure ExecResult where
  Content : String
  TotalTokens : Int
  LatencyMs : Int
  deriving DecidableEq, Repr

/-- The initial input handed to `Run`: `none` for a nil map, else the key/value pairs. -/
abbrev InitialInput := Option (List (String × String))

/-- The "Combine inputs" loop of `buildInput`: `input += Sprintf("Input %d: %s\n", i+1, in)`. -/
def combineInputs : String → Nat → List String → String
  | input, _, [] => input
  | input, i, x :: rest =>
    combineInputs (input ++ ("Input " ++ toString (i + 1) ++ ": " ++ x ++ "\n")) (i + 1) rest

/-- One iteration of the dependency loop of `buildInput`. -/
def readInput (results : GoMap NodeResult) (inputs : List String) (depID : String) :
    List String :=
  match results depID with
  | some result => inputs ++ [result.Output]
  | none => inputs

/-- Method `Scheduler.buildInput`, evaluated against one state of the `results` map. -/
def buildInput (d : DAG) (results : GoMap NodeResult) (nodeID : String) : Outcome String :=
  match d.Nodes nodeID with
  | none => Outcome.fault
  | some node => Outcome.ok (combineInputs "" 0 (node.DependsOn.foldl (readInput results) []))

/-- The "Initialize with input data" loop of `Run`; the parameter `input` is not read. -/
def seedResults (d : DAG) (_input : InitialInput) :
    List String → GoMap NodeResult → GoMap NodeResult
  | [], results => results
  | nodeID :: rest, results =>
    match d.Nodes nodeID with
    | none => seedResults d _input rest results
    | some node =>
      if node.DependsOn.length = 0 then
        seedResults d _input rest
          (results.set nodeID
            { NodeID := nodeID, Output := "", Steps := [], StartTime := 0, EndTime := 0,
              Error := none })
      else seedResults d _input rest results

/-- Program counter of one `executeNode` goroutine. -/
inductive PC where
  | start
  | gotAgent (agent : AgentRecord) (startTime : Int)
  | build (agent : AgentRecord) (startTime : Int) (deps : List String) (inputs : List String)
  | call (agent : AgentRecord) (startTime : Int) (input : String)
  | emit (startTime endTime : Int) (step : Step)
  | store (startTime endTime : Int) (step : Step)
  | failing (err : String) (startTime : Int)
  | failEmit
  | down (downs : List String)
  | deps (current : String) (downs : List String) (deps : List String)
  | check (current : String) (downs : List String)
  | finished
  deriving DecidableEq, Repr

/-- One `executeNode` goroutine; `inWaitGroup` marks those started by `Run`. -/
structure Worker where
  nodeID : String
  pc : PC
  inWaitGroup : Bool
  deriving DecidableEq, Repr

/-- State of a `Scheduler` during `Run`.  `events` is the sequence of events sent on
`eventChan`; `closed` tells whether the channel was closed; `panicked` whether a
goroutine panicked; `returned` whether `Run` returned (always with a nil error). -/
structure SchedState where
  completed : GoMap Bool
  results : GoMap NodeResult
  events : List ExecutionEvent
  closed : Bool
  panicked : Bool
  returned : Bool
  workers : List Worker

/-- What the collaborators answer when a goroutine asks: the agent store, the executor
registry lookup, the executor call, the clock and the uuid generator. -/
structure Env where
  agent : Except String AgentRecord
  registered : Bool
  exec : Except String ExecResult
  now : Int
  uuid : String

/-- Send on `eventChan`, made by `NewScheduler` with a buffer of 100 events.  Nothing
receives from the channel: the `Execute` handler forwards events only when its websocket
hub is set, and `SetHub` is called nowhere.  The send panics when the channel is closed,
puts the event into the buffer when there is room, and blocks otherwise (`none`: the step
is not enabled). -/
def sendEvent (s : SchedState) (ev : ExecutionEvent) : Option SchedState :=
  if s.closed then some { s with panicked := true }
  else if s.events.length < 100 then some { s with events := s.events ++ [ev] }
  else none

/-- One atomic step of the goroutine running `executeNode(nodeID)` at program point `pc`.
Returns the new shared state, the new program point and the node for which a goroutine
`go s.executeNode(ctx, downstreamID)` is spawned, if any. -/
def workerStep (d : DAG) (s : SchedState) (nodeID : String) (pc : PC) (env : Env) :
    Option (SchedState × PC × Option String) :=
  match pc with
  | PC.start =>
    match d.Nodes nodeID with
    | none => some ({ s with panicked := true }, pc, none)
    | some _ =>
      match env.agent with
      | Except.error err => some (s, PC.failing err env.now, none)
      | Except.ok agent => some (s, PC.gotAgent agent env.now, none)
  | PC.gotAgent agent startTime =>
    match agent.provider with
    | none => some ({ s with panicked := true }, pc, none)
    | some provider =>
      if env.registered then
        match d.Nodes nodeID with
        | none => some ({ s with panicked := true }, pc, none)
        | some node => some (s, PC.build agent startTime node.DependsOn [], none)
      else some (s, PC.failing ("no executor for provider: " ++ provider) startTime, none)
  | PC.build agent startTime (depID :: rest) inputs =>
    some (s, PC.build agent startTime rest (readInput s.results inputs depID), none)
  | PC.build agent startTime [] inputs =>
    match agent.model with
    | none => some ({ s with panicked := true }, pc, none)
    | some _ => some (s, PC.call agent startTime (combineInputs "" 0 inputs), none)
  | PC.call agent startTime input =>
    match env.exec with
    | Except.error err => some (s, PC.failing err startTime, none)
    | Except.ok result =>
      some (s, PC.emit startTime env.now
        { StepID := env.uuid, Type_ := "think", Input := input, Output := result.Content,
          Prompt := agent.SystemPrompt, Tokens := result.TotalTokens,
          LatencyMs := result.LatencyMs, Timestamp := startTime }, none)
  | PC.emit startTime endTime step =>
    match sendEvent s
      { Type_ := "step_complete", NodeID := nodeID, Step := some step, Timestamp := env.now } with
    | none => none
    | some sent => some (sent, PC.store startTime endTime step, none)
  | PC.store startTime endTime step =>
    let stored : SchedState :=
      { s with
        completed := s.completed.set nodeID true
        results := s.results.set nodeID
          { NodeID := nodeID, Output := step.Output, Steps := [step],
            StartTime := startTime, EndTime := endTime, Error := none } }
    match d.Nodes nodeID with
    | none => some ({ stored with panicked := true }, pc, none)
    | some node => some (stored, PC.down node.Downstream, none)
  | PC.failing err startTime =>
    some ({ s with
        completed := s.completed.set nodeID true
        results := s.results.set nodeID
          { NodeID := nodeID, Output := "", Steps := [], StartTime := startTime,
            EndTime := env.now, Error := some err } },
      PC.failEmit, none)
  | PC.failEmit =>
    match sendEvent s
      { Type_ := "node_failed", NodeID := nodeID, Step := none, Timestamp := env.now } with
    | none => none
    | some sent => some (sent, PC.finished, none)
  | PC.down [] => some (s, PC.finished, none)
  | PC.down (downstreamID :: downs) =>
    match d.Nodes downstreamID with
    | none => some ({ s with panicked := true }, pc, none)
    | some downstream => some (s, PC.deps downstreamID downs downstream.DependsOn, none)
  | PC.deps downstreamID downs (dep :: rest) =>
    if s.completed.getD dep false = false then some (s, PC.down downs, none)
    else some (s, PC.deps downstreamID downs rest, none)
  | PC.deps downstreamID downs [] => some (s, PC.check downstreamID downs, none)
  | PC.check downstreamID downs =>
    if s.completed.getD downstreamID false = false then
      some (s, PC.down downs, some downstreamID)
    else some (s, PC.down downs, none)
  | PC.finished => none

/-- A scheduling decision: goroutine `i` takes its next step, or `Run` passes
`wg.Wait()`, closes the event channel and returns nil. -/
inductive Label where
  | worker (i : Nat) (env : Env)
  | runReturns

/-- One step of the whole scheduler; `none` when the chosen step is not enabled. -/
def next (d : DAG) (s : SchedState) : Label → Option SchedState
  | Label.worker i env =>
    if s.panicked then none
    else
      match s.workers.get? i with
      | none => none
      | some w =>
        match workerStep d s w.nodeID w.pc env with
        | none => none
        | some (s2, pc2, spawn) =>
          let ws := s.workers.set i { w with pc := pc2 }
          match spawn with
          | none => some { s2 with workers := ws }
          | some n =>
            some { s2 with workers := ws ++ [{ nodeID := n, pc := PC.start, inWaitGroup := false }] }
  | Label.runReturns =>
    if s.panicked then none
    else if s.returned then none
    else if s.workers.all (fun w => !w.inWaitGroup || decide (w.pc = PC.finished)) then
      some { s with closed := true, returned := true }
    else none

/-- The state in which `Run` starts its goroutines: results seeded for the entry nodes
(`order1` is the iteration order of that loop) and one goroutine per node returned by
`GetReadyNodes` (`order2` is its iteration order). -/
def runStart (d : DAG) (order1 order2 : List String) (input : InitialInput) : SchedState :=
  { completed := GoMap.empty
    results := seedResults d input order1 GoMap.empty
    events := []
    closed := false
    panicked := false
    returned := false
    workers := (d.GetReadyNodes order2 GoMap.empty).map
      (fun n => { nodeID := n, pc := PC.start, inWaitGroup := true }) }

/-- The state reached from `s` by a schedule, `none` if a step of it is not enabled. -/
def runSteps (d : DAG) : SchedState → List Label → Option SchedState
  | s, [] => some s
  | s, l :: rest =>
    match next d s l with
    | none => none
    | some s2 => runSteps d s2 rest

/-- The error value `Run` has returned, once it has returned: `return nil` is its only
return statement, so the value is the nil error. -/
def runError (s : SchedState) : Option (Option String) :=
  if s.returned then some none else none

/-! ## api/handlers/workflow.go -/

/-- The terminal status the `Execute` handler derives from the value returned by `Run`. -/
def executeStatus (err : Option String) : String :=
  match err with
  | some _ => "failed"
  | none => "success"

/-- A 64-bit two's complement value: the result of Go `int` and `int64` arithmetic. -/
def wrapInt64 (x : Int) : Int := (x + 2 ^ 63) % 2 ^ 64 - 2 ^ 63

/-- Go addition on `int` and `int64`: wraps on overflow. -/
def addInt64 (a b : Int) : Int := wrapInt64 (a + b)

/-- A `uuid.UUID`: sixteen bytes. -/
abbrev UUID := List Nat

/-- The hexadecimal value of a character (`xtob` of the uuid library works on pairs). -/
def hexValue (c : Char) : Option Nat :=
  if '0' ≤ c ∧ c ≤ '9' then some (c.toNat - 48)
  else if 'a' ≤ c ∧ c ≤ 'f' then some (c.toNat - 87)
  else if 'A' ≤ c ∧ c ≤ 'F' then some (c.toNat - 55)
  else none

/-- The bytes written by a sequence of hexadecimal digit pairs. -/
def hexPairs : List Char → Option (List Nat)
  | [] => some []
  | [_] => none
  | a :: b :: rest =>
    match hexValue a, hexValue b, hexPairs rest with
    | some x, some y, some bytes => some ((16 * x + y) :: bytes)
    | _, _, _ => none

/-- The form xxxxxxxx-xxxx-xxxx-xxxx-xxxxxxxxxxxx, read from the first 36 characters. -/
def parseCanonical (cs : List Char) : Option UUID :=
  if cs.get? 8 = some '-' ∧ cs.get? 13 = some '-' ∧ cs.get? 18 = some '-' ∧
      cs.get? 23 = some '-' then
    hexPairs (cs.take 8 ++ (cs.drop 9).take 4 ++ (cs.drop 14).take 4 ++ (cs.drop 19).take 4 ++
      (cs.drop 24).take 12)
  else none

/-- Function `uuid.Parse` of the library github.com/google/uuid, which the repository
imports: by length, the canonical 36-character form, that form after "urn:uuid:" (45) or
inside one leading and one trailing character (38), or 32 hexadecimal digits; every other
length is an error (`none`).  Lengths are counted in characters, which agrees with the
byte count of the library on ASCII ids. -/
def uuidParse (s : String) : Option UUID :=
  let cs := s.toList
  if cs.length = 36 then parseCanonical cs
  else if cs.length = 45 then
    if (cs.take 9).map Char.toLower = "urn:uuid:".toList then parseCanonical (cs.drop 9)
    else none
  else if cs.length = 38 then parseCanonical (cs.drop 1)
  else if cs.length = 32 then hexPairs cs
  else none

/-- Type `store.NodeSnapshot`. -/
structure NodeSnapshot where
  NodeID : UUID
  AgentName : String
  Steps : List Step
  FinalOutput : String
  deriving DecidableEq, Repr

/-- Type `store.MetaInfo`; the floating-point field `TotalCost` is left out. -/
structure MetaInfo where
  TotalTokens : Int
  DurationMs : Int
  deriving DecidableEq, Repr

/-- Type `store.Snapshot`. -/
structure Snapshot where
  WorkflowID : UUID
  ExecutionID : UUID
  Nodes : List NodeSnapshot
  Edges : List EdgeConfig
  ExecutionMeta : MetaInfo
  deriving DecidableEq, Repr

/-- The inner loop of `buildSnapshot` over the steps of one result:
`totalTokens += step.Tokens` and `totalDuration += step.LatencyMs`. -/
def addSteps : List Step → Int × Int → Int × Int
  | [], totals => totals
  | step :: rest, totals =>
    addSteps rest (addInt64 totals.1 step.Tokens, addInt64 totals.2 step.LatencyMs)

/-- The loop of `buildSnapshot` over the `results` map, visited in the order given;
`uuid.MustParse` panics on an id that does not parse. -/
def snapshotLoop (results : GoMap NodeResult) :
    List String → List NodeSnapshot → Int × Int → Outcome (List NodeSnapshot × Int × Int)
  | [], nodeSnapshots, totals => Outcome.ok (nodeSnapshots, totals)
  | nodeID :: rest, nodeSnapshots, totals =>
    match results nodeID with
    | none => snapshotLoop results rest nodeSnapshots totals
    | some result =>
      match uuidParse nodeID with
      | none => Outcome.fault
      | some id =>
        snapshotLoop results rest
          (nodeSnapshots ++
            [{ NodeID := id, AgentName := nodeID, Steps := result.Steps,
               FinalOutput := result.Output }])
          (addSteps result.Steps totals)

/-- Function `buildSnapshot`; `order` is the iteration order of the `results` map. -/
def buildSnapshot (workflowID executionID : UUID) (results : GoMap NodeResult)
    (order : List String) (edges : List EdgeConfig) : Outcome Snapshot :=
  match snapshotLoop results order [] (0, 0) with
  | Outcome.ok (nodeSnapshots, totalTokens, totalDuration) =>
    Outcome.ok
      { WorkflowID := workflowID
        ExecutionID := executionID
        Nodes := nodeSnapshots
        Edges := edges
        ExecutionMeta := { TotalTokens := totalTokens, DurationMs := totalDuration } }
  | Outcome.err msg => Outcome.err msg
  | Outcome.fault => Outcome.fault

/-! ## Graph vocabulary used by the statements -/

/-- The ids of the nodes of a workflow. -/
def Workflow.nodeIds (w : Workflow) : List String := w.Nodes.map (fun n => n.ID)

/-- Every edge of the workflow has both endpoints among the node ids. -/
def Workflow.EdgesValid (w : Workflow) : Prop :=
  ∀ e ∈ w.Edges, e.Source ∈ w.nodeIds ∧ e.Target ∈ w.nodeIds

/-- The edge relation of a workflow. -/
def Workflow.Adj (w : Workflow) (u v : String) : Prop :=
  ∃ e ∈ w.Edges, e.Source = u ∧ e.Target = v

/-- The workflow has a directed cycle (a self-loop included). -/
def Workflow.HasCycle (w : Workflow) : Prop :=
  ∃ u, Relation.TransGen w.Adj u u

/-- Sources of the edges of `es` whose target is `n`, in list order. -/
def sourcesInto (es : List EdgeConfig) (n : String) : List String :=
  (es.filter (fun e => e.Target = n)).map (fun e => e.Source)

/-- Targets of the edges of `es` whose source is `n`, in list order. -/
def targetsFrom (es : List EdgeConfig) (n : String) : List String :=
  (es.filter (fun e => e.Source = n)).map (fun e => e.Target)

/-- The DAG `d` holds exactly the nodes `ids` and the adjacency of the edges `es`. -/
def BuiltFrom (ids : List String) (es : List EdgeConfig) (d : DAG) : Prop :=
  ∀ k,
    (k ∈ ids →
      (∃ node, d.Nodes k = some node ∧ node.ID = k ∧ node.DependsOn = sourcesInto es k ∧
        node.Downstream = targetsFrom es k) ∧
      d.InDegrees k = some ((sourcesInto es k).length : Int) ∧
      d.OutEdges k = some (targetsFrom es k)) ∧
    (k ∉ ids → d.Nodes k = none ∧ d.InDegrees k = none ∧ d.OutEdges k = none)

/-- The adjacency `hasCycle` and `TopologicalSort` walk: `v` is listed in `d.OutEdges[u]`. -/
def DAG.Adj (d : DAG) (u v : String) : Prop := v ∈ d.OutEdges.getD u []

/-- Node `x` is marked in `visited`. -/
def DfsState.vis (st : DfsState) (x : String) : Prop := st.visited.getD x false = true

/-- Node `x` is marked in `recStack` (it is on the current recursion path). -/
def DfsState.gray (st : DfsState) (x : String) : Prop := st.recStack.getD x false = true

/-- Node `x` has been left by the traversal: visited and off the recursion path. -/
def DfsState.black (st : DfsState) (x : String) : Prop := st.vis x ∧ ¬ st.gray x

/-- Invariant of the traversal: finished nodes are closed under edges and lie on no cycle. -/
def DfsInv (d : DAG) (st : DfsState) : Prop :=
  (∀ b, st.black b → ∀ w, d.Adj b w → st.black w) ∧
  (∀ b, st.black b → ¬ Relation.TransGen d.Adj b b)

/-- Number of entries of `univ` not yet visited. -/
def unvisitedCount (univ : List String) (st : DfsState) : Nat :=
  univ.countP (fun x => st.visited.getD x false = false)

/-- The traversal only adds visited marks and leaves `recStack` alone on visited nodes. -/
def DfsMono (st st2 : DfsState) : Prop :=
  (∀ x, st.vis x → st2.vis x) ∧
  (∀ x, st.vis x → st2.recStack.getD x false = st.recStack.getD x false)

/-- Contract of a call `hasCycle(n)` on an unvisited node with enough fuel. -/
def DfsSpec (d : DAG) (univ : List String) (bound : Nat)
    (recurse : String → DfsState → Option (Bool × DfsState)) : Prop :=
  ∀ n st, n ∈ univ → ¬ st.vis n → unvisitedCount univ st ≤ bound →
    ∃ b st2, recurse n st = some (b, st2) ∧ DfsMono st st2 ∧
      (b = false → (∀ x, st2.gray x → st.gray x) ∧ st2.black n ∧ (DfsInv d st → DfsInv d st2)) ∧
      (b = true → (∀ g, st.gray g → Relation.ReflTransGen d.Adj g n) →
        ∃ u, Relation.TransGen d.Adj u u)

/-- The list `order` is a possible iteration order of the node map built from `w`:
it lists the node ids of `w`, each once. -/
def Workflow.IsNodeOrder (w : Workflow) (order : List String) : Prop :=
  order.Nodup ∧ ∀ k, k ∈ order ↔ k ∈ w.nodeIds

/-- Number of edges into `x` whose source has not yet been output in `result`. -/
def pendingIn (es : List EdgeConfig) (result : List String) (x : String) : Nat :=
  (es.filter (fun e => decide (e.Target = x ∧ e.Source ∉ result))).length

/-- Loop invariant of `TopologicalSort` at the head of the main loop. -/
def KahnInv (ids : List String) (es : List EdgeConfig) (queue : List String)
    (inDegree : GoMap Int) (result : List String) : Prop :=
  (result ++ queue).Nodup ∧
  (∀ x, inDegree.getD x 0 = (pendingIn es result x : Int)) ∧
  (∀ x, x ∈ result ++ queue ↔ (x ∈ ids ∧ inDegree.getD x 0 = 0)) ∧
  (∀ e ∈ es, e.Target ∈ result → result.indexOf e.Source < result.indexOf e.Target)

/-- Sample: the edge a → b listed twice. -/
def dupEdges : Workflow :=
  { Nodes := [⟨"a", "x"⟩, ⟨"b", "y"⟩]
    Edges := [⟨"e1", "a", "b"⟩, ⟨"e2", "a", "b"⟩] }

/-- Sample: two nodes and no edge. -/
def twoIsolated : Workflow :=
  { Nodes := [⟨"a", "x"⟩, ⟨"b", "y"⟩]
    Edges := [] }

/-- The graph built from a workflow, the empty graph standing in when the build fails. -/
def builtOrEmpty (w : Workflow) : DAG :=
  match buildGraph w with
  | Outcome.ok d => d
  | _ => DAG.empty

/-- A ranking of the nodes of the diamond along its edges. -/
def diamondRank (s : String) : Nat :=
  if s = "n1" then 0 else if s = "n4" then 2 else 1

/-- Order on node ids: lexicographic on the characters, which is the order of Lean's
`String` and, code points and UTF-8 bytes being ordered alike, of Go's `<` on strings. -/
def idLe (a b : String) : Prop := a.toList ≤ b.toList

/-- The order `idLe` is decidable. -/
instance idLeDecidable : DecidableRel idLe :=
  fun a b => inferInstanceAs (Decidable (a.toList ≤ b.toList))

/-- Concatenation of a list of strings. -/
def concatStrings : List String → String
  | [] => ""
  | x :: rest => x ++ concatStrings rest

/-- The lines "Input i: <output>\n", `i` counting from `start + 1`. -/
def inputLines : Nat → List String → List String
  | _, [] => []
  | i, x :: rest => ("Input " ++ toString (i + 1) ++ ": " ++ x ++ "\n") :: inputLines (i + 1) rest

/-- The recorded output of a dependency (empty when nothing is recorded). -/
def outputOf (results : GoMap NodeResult) (depID : String) : String :=
  match results depID with
  | some result => result.Output
  | none => ""

/-- The input string section 4.4 of the specification asks for, written from its words:
one line per dependency, the dependencies taken in ascending lexicographic id order. -/
def specInput (results : GoMap NodeResult) (dependsOn : List String) : String :=
  concatStrings (inputLines 0 ((dependsOn.insertionSort idLe).map (outputOf results)))

/-- Sample: node c depends on b and a, the edge from b being listed first. -/
def reversedDeps : Workflow :=
  { Nodes := [⟨"a", "x"⟩, ⟨"b", "y"⟩, ⟨"c", "z"⟩]
    Edges := [⟨"e1", "b", "c"⟩, ⟨"e2", "a", "c"⟩] }

/-- Sample: a result that records the output `out` for node `id`. -/
def sampleResult (id out : String) : NodeResult :=
  { NodeID := id, Output := out, Steps := [], StartTime := 0, EndTime := 0, Error := none }

/-- Sample results: a produced "x" and b produced "y". -/
def reversedResults : GoMap NodeResult :=
  (GoMap.empty.set "a" (sampleResult "a" "x")).set "b" (sampleResult "b" "y")

/-- Sample results for the diamond: n2 produced "n2-out" and n3 produced "n3-out". -/
def diamondResults : GoMap NodeResult :=
  (GoMap.empty.set "n2" (sampleResult "n2" "n2-out")).set "n3" (sampleResult "n3" "n3-out")

/-- Sample: a single node and no edge. -/
def oneNode : Workflow :=
  { Nodes := [⟨"n1", "a1"⟩]
    Edges := [] }

/-- Sample collaborators: the agent is found, its provider is registered, the call
succeeds with content "out". -/
def envOk : Env :=
  { agent := Except.ok { SystemPrompt := "sys", provider := some "p", model := some "m" }
    registered := true
    exec := Except.ok { Content := "out", TotalTokens := 7, LatencyMs := 3 }
    now := 10
    uuid := "s1" }

/-- Sample: the diamond n1 → n2, n1 → n3, n2 → n4, n3 → n4. -/
def diamond : Workflow :=
  { Nodes := [⟨"n1", "a1"⟩, ⟨"n2", "a2"⟩, ⟨"n3", "a3"⟩, ⟨"n4", "a4"⟩]
    Edges := [⟨"e1", "n1", "n2"⟩, ⟨"e2", "n1", "n3"⟩, ⟨"e3", "n2", "n4"⟩, ⟨"e4", "n3", "n4"⟩] }

/-- Sample: the two-node cycle n1 → n2 → n1. -/
def twoCycle : Workflow :=
  { Nodes := [⟨"n1", "a1"⟩, ⟨"n2", "a2"⟩]
    Edges := [⟨"e1", "n1", "n2"⟩, ⟨"e2", "n2", "n1"⟩] }

/-- Sample: an edge whose target is not a node. -/
def dangling : Workflow :=
  { Nodes := [⟨"n1", "a1"⟩]
    Edges := [⟨"e1", "n1", "n2"⟩] }

/-- Sample collaborators: as `envOk`, but the Executor call returns an error. -/
def envExecFails : Env := { envOk with exec := Except.error "boom" }

/-- Sample collaborators: the agent store does not find the agent. -/
def envAgentMissing : Env := { envOk with agent := Except.error "agent not found" }

/-- Sample collaborators: the agent record has no string under `provider`. -/
def envNoProvider : Env :=
  { envOk with
    agent := Except.ok { SystemPrompt := "sys", provider := none, model := some "m" } }

/-- Sample collaborators: the agent record has no string under `model`. -/
def envNoModel : Env :=
  { envOk with
    agent := Except.ok { SystemPrompt := "sys", provider := some "p", model := none } }

/-- Sample collaborators: the provider of the agent has no registered Executor. -/
def envUnregistered : Env := { envOk with registered := false }

/-- The schedule in which goroutine `i` takes `k` steps in a row. -/
def workerSteps (k i : Nat) (env : Env) : List Label := List.replicate k (Label.worker i env)

/-- Sample: the state in which `Run` starts on the diamond. -/
def diamondStart : SchedState :=
  runStart (builtOrEmpty diamond) ["n1", "n2", "n3", "n4"] ["n1", "n2", "n3", "n4"] none

/-- Sample: the state in which `Run` starts on the single-node workflow. -/
def oneNodeStart : SchedState := runStart (builtOrEmpty oneNode) ["n1"] ["n1"] none

/-- Sample schedule on the diamond: n1 runs to its end and starts n2 and n3; the Executor
of n2 fails; n3 then runs to its end; the goroutine started for n4 runs up to the return
of its Executor call. -/
def failedParentSchedule : List Label :=
  workerSteps 15 0 envOk ++ workerSteps 7 1 envExecFails ++ workerSteps 12 2 envOk ++
    workerSteps 6 3 envOk

/-- Sample schedule on the diamond: n1 runs to its end; n2 and n3 both store their
results; then each of them walks its downstream list; the two goroutines started for n4
both run up to the sending of their event. -/
def doubleDispatchSchedule : List Label :=
  workerSteps 15 0 envOk ++ workerSteps 7 1 envOk ++ workerSteps 7 2 envOk ++
    workerSteps 5 1 envOk ++ workerSteps 5 2 envOk ++ workerSteps 7 3 envOk ++
    workerSteps 7 4 envOk

/-- Sample schedule on the single node: the agent lookup fails, the node is marked
failed, and `Run` returns. -/
def failingRunSchedule : List Label := workerSteps 3 0 envAgentMissing ++ [Label.runReturns]

/-- Sample schedule on the single node: the node succeeds and `Run` returns. -/
def successRunSchedule : List Label := workerSteps 7 0 envOk ++ [Label.runReturns]

/-- The value of an outcome, if there is one. -/
def Outcome.toOption {α : Type} : Outcome α → Option α
  | Outcome.ok a => some a
  | _ => none

/-- All steps of a list of node snapshots, in order. -/
def allSteps : List NodeSnapshot → List Step
  | [] => []
  | ns :: rest => ns.Steps ++ allSteps rest

/-- The sum of `tokens` over a list of steps. -/
def sumTokens (steps : List Step) : Int := (steps.map (fun st => st.Tokens)).sum

/-- The sum of `latency_ms` over a list of steps. -/
def sumLatency (steps : List Step) : Int := (steps.map (fun st => st.LatencyMs)).sum

/-- The duration section 4.5 of the specification asks for, written from its words: the
largest `timestamp + latency_ms` minus the smallest `timestamp` over all steps, the
timestamps being counted in milliseconds. -/
def specDuration : List Step → Int
  | [] => 0
  | st :: rest =>
    rest.foldl (fun m x => max m (x.Timestamp + x.LatencyMs)) (st.Timestamp + st.LatencyMs) -
      rest.foldl (fun m x => min m x.Timestamp) st.Timestamp

/-- Sample node id in uuid form. -/
def idA : String := "00000000-0000-0000-0000-00000000000a"

/-- Sample node id in uuid form. -/
def idB : String := "00000000-0000-0000-0000-00000000000b"

/-- Sample: the chain idA → idB. -/
def chainUuid : Workflow :=
  { Nodes := [⟨idA, "a1"⟩, ⟨idB, "a2"⟩]
    Edges := [⟨"e1", idA, idB⟩] }

/-- Sample: the step recorded by a goroutine served by `envOk` on the input `input`. -/
def sampleStep (input : String) : Step :=
  { StepID := "s1", Type_ := "think", Input := input, Output := "out", Prompt := "sys",
    Tokens := 7, LatencyMs := 3, Timestamp := 10 }

/-- Sample: the result stored by a goroutine served by `envOk`. -/
def storedResult (id input : String) : NodeResult :=
  { NodeID := id, Output := "out", Steps := [sampleStep input], StartTime := 10,
    EndTime := 10, Error := none }

/-- Sample: the results map of a run of the chain in which both nodes succeed. -/
def chainResults : GoMap NodeResult :=
  (GoMap.empty.set idA (storedResult idA "")).set idB (storedResult idB "Input 1: out\n")

/-- Sample schedule on the chain: idA runs to its end and starts idB, which runs to its
end; then `Run` returns. -/
def chainSchedule : List Label :=
  workerSteps 11 0 envOk ++ workerSteps 8 1 envOk ++ [Label.runReturns]

/-- The step carried by a goroutine between the Executor call and the store is a
`think` step. -/
def StepPcInv : PC → Prop
  | PC.emit _ _ step => step.Type_ = "think"
  | PC.store _ _ step => step.Type_ = "think"
  | _ => True

/-- Shape of a result recorded under the key `n`: either no step and an empty output (a
seed or a failure), or no error and exactly one `think` step whose output is the output
of the result. -/
def ResultShape (n : String) (r : NodeResult) : Prop :=
  r.NodeID = n ∧
  ((r.Steps = [] ∧ r.Output = "") ∨
    (r.Error = none ∧ ∃ step, r.Steps = [step] ∧ step.Type_ = "think" ∧
      r.Output = step.Output))

/-- Results invariant of the scheduler. -/
def ResultsInv (s : SchedState) : Prop :=
  (∀ w ∈ s.workers, StepPcInv w.pc) ∧ (∀ n r, s.results n = some r → ResultShape n r)

/-- Goroutine `i` runs node `n`, stands at program point `pc`, and nothing has panicked. -/
def WorkerAt (s : SchedState) (i : Nat) (n : String) (pc : PC) (wg : Bool) : Prop :=
  s.workers.get? i = some { nodeID := n, pc := pc, inWaitGroup := wg } ∧ s.panicked = false

/-- Sample: the state in which `Run` starts on the chain idA → idB. -/
def chainStart : SchedState :=
  runStart (builtOrEmpty chainUuid) [idA, idB] [idA, idB] none

/-- Sample schedule on the chain: idA runs to its end and starts idB, which is not in
the wait group; `Run` passes `wg.Wait()`, closes the event channel and returns; idB then
runs up to the return of its Executor call. -/
def earlyReturnSchedule : List Label :=
  workerSteps 11 0 envOk ++ [Label.runReturns] ++ workerSteps 5 1 envOk

/-- Sample schedule on the diamond: as `doubleDispatchSchedule` up to the start of the
two goroutines for n4; the first of them runs until it has stored its result. -/
def firstStoreSchedule : List Label :=
  workerSteps 15 0 envOk ++ workerSteps 7 1 envOk ++ workerSteps 7 2 envOk ++
    workerSteps 5 1 envOk ++ workerSteps 5 2 envOk ++ workerSteps 8 3 envOk

/-- Sample: results whose two steps carry the token counts 2^63 - 1 and 1. -/
def overflowResults : GoMap NodeResult :=
  (GoMap.empty.set idA
    { storedResult idA "" with
      Steps := [{ sampleStep "" with Tokens := 9223372036854775807 }] }).set idB
    { storedResult idB "Input 1: out\n" with
      Steps := [{ sampleStep "Input 1: out\n" with Tokens := 1 }] }

/-! ## api/handlers/execution.go and the Execute handler -/

/-- One entry of `modified_steps` in the body of a replay request. -/
structure Modification where
  StepID : String
  NewOutput : String
  deriving DecidableEq, Repr

/-- The loop of `Replay` that fills `modificationMap`. -/
def modificationMap (mods : List Modification) : GoMap String :=
  mods.foldl (fun m mod => m.set mod.StepID mod.NewOutput) GoMap.empty

/-- The body of the inner loop of `Replay`: step `j` after the conditional assignment
`snapshot.Nodes[i].Steps[j].Output = newOutput`. -/
def modifyStep (m : GoMap String) (step : Step) : Step :=
  match m step.StepID with
  | some newOutput => { step with Output := newOutput }
  | none => step

/-- The inner loop of `Replay` over the steps of one node. -/
def modifyNode (m : GoMap String) (node : NodeSnapshot) : NodeSnapshot :=
  { node with Steps := node.Steps.map (modifyStep m) }

/-- The variable `snapshot` of `Replay` after the "Apply modifications to snapshot"
loops. -/
def applyModifications (snapshot : Snapshot) (mods : List Modification) : Snapshot :=
  { snapshot with Nodes := snapshot.Nodes.map (modifyNode (modificationMap mods)) }

/-- A row of the `executions` table.  The JSON document of column `snapshot` is
identified with the snapshot it encodes. -/
structure ExecutionRow where
  ID : UUID
  WorkflowID : UUID
  Status : String
  Snapshot : Snapshot
  deriving DecidableEq, Repr

/-- A row of the `workflows` table, its `nodes` and `edges` columns decoded. -/
structure WorkflowRow where
  ID : UUID
  Workflow : Workflow
  deriving DecidableEq, Repr

/-- The snapshot the JSON document written by `Execute` for a new row decodes to: the
zero value of `store.Snapshot`. -/
def emptySnapshot : Snapshot :=
  { WorkflowID := List.replicate 16 0
    ExecutionID := List.replicate 16 0
    Nodes := []
    Edges := []
    ExecutionMeta := { TotalTokens := 0, DurationMs := 0 } }

/-- What the `Replay` handler leaves behind: the status code of the response, the
`executions` table, the value of its variable `snapshot` when the loops have run, and the
`modifications_applied` field of the response. -/
structure ReplayResult where
  code : Nat
  executions : List ExecutionRow
  snapshot : Option Snapshot
  modificationsApplied : Option Nat
  deriving DecidableEq, Repr

/-- Method `ExecutionHandler.Replay`.  `idParam` is the path parameter, `newExecutionID`
the value of `uuid.New()`, `insertFails` tells whether the INSERT returns an error.  The
INSERT writes `snapshotJSON`, the document read from the source row. -/
def Replay (executions : List ExecutionRow) (idParam : String) (mods : List Modification)
    (newExecutionID : UUID) (insertFails : Bool) : ReplayResult :=
  match uuidParse idParam with
  | none => { code := 400, executions := executions, snapshot := none, modificationsApplied := none }
  | some id =>
    match executions.find? (fun row => decide (row.ID = id)) with
    | none =>
      { code := 404, executions := executions, snapshot := none, modificationsApplied := none }
    | some row =>
      let snapshotJSON := row.Snapshot
      let snapshot := applyModifications snapshotJSON mods
      if insertFails then
        { code := 500, executions := executions, snapshot := some snapshot
          modificationsApplied := none }
      else
        { code := 202
          executions := executions ++
            [{ ID := newExecutionID, WorkflowID := snapshot.WorkflowID, Status := "replaying",
               Snapshot := snapshotJSON }]
          snapshot := some snapshot
          modificationsApplied := some mods.length }

/-- What the `Execute` handler leaves behind when it returns: the status code of the
response, the `executions` table, and whether the scheduler was started. -/
structure ExecuteResult where
  code : Nat
  executions : List ExecutionRow
  started : Bool
  deriving DecidableEq, Repr

/-- Method `WorkflowHandler.Execute` up to its response.  `executionID` is the value of
`uuid.New()`, `insertFails` tells whether the INSERT returns an error, `order` and `fuel`
are handed to `NewDAG`.  A panic of `NewDAG` is turned into a 500 by the recovery
middleware of `gin.Default()`. -/
def Execute (workflows : List WorkflowRow) (executions : List ExecutionRow)
    (idParam : String) (executionID : UUID) (insertFails : Bool) (order : List String)
    (fuel : Nat) : Option ExecuteResult :=
  match uuidParse idParam with
  | none => some { code := 400, executions := executions, started := false }
  | some workflowID =>
    if insertFails then some { code := 500, executions := executions, started := false }
    else
      let executions2 := executions ++
        [{ ID := executionID, WorkflowID := workflowID, Status := "running",
           Snapshot := emptySnapshot }]
      match workflows.find? (fun row => decide (row.ID = workflowID)) with
      | none => some { code := 500, executions := executions2, started := false }
      | some row =>
        match NewDAG row.Workflow order fuel with
        | none => none
        | some (Outcome.err _) => some { code := 400, executions := executions2, started := false }
        | some Outcome.fault => some { code := 500, executions := executions2, started := false }
        | some (Outcome.ok _) => some { code := 202, executions := executions2, started := true }

/-- The new output the specification assigns to a step id, written from its words: that
of the last modification listed for the id, if there is one. -/
def lastModification (mods : List Modification) (stepID : String) : Option String :=
  (mods.reverse.find? (fun mod => decide (mod.StepID = stepID))).map (fun mod => mod.NewOutput)

/-- Sample: the snapshot of a run of the chain in which both nodes succeeded. -/
def chainSnapshot : Snapshot :=
  { WorkflowID := List.replicate 16 1
    ExecutionID := List.replicate 16 2
    Nodes :=
      [{ NodeID := List.replicate 15 0 ++ [10], AgentName := idA
         Steps := [{ sampleStep "" with StepID := "s1" }], FinalOutput := "out" },
       { NodeID := List.replicate 15 0 ++ [11], AgentName := idB
         Steps := [{ sampleStep "Input 1: out\n" with StepID := "s2" }], FinalOutput := "out" }]
    Edges := chainUuid.Edges
    ExecutionMeta := { TotalTokens := 14, DurationMs := 6 } }

/-- Sample path parameter: the id of the stored source execution. -/
def sourceExecutionId : String := "00000000-0000-0000-0000-0000000000e1"

/-- Sample `executions` table: one finished execution of the chain. -/
def sampleExecutions : List ExecutionRow :=
  [{ ID := List.replicate 15 0 ++ [225], WorkflowID := List.replicate 16 1, Status := "success",
     Snapshot := chainSnapshot }]

/-- Sample path parameter: the id of the stored cyclic workflow. -/
def cyclicWorkflowId : String := "00000000-0000-0000-0000-0000000000c1"

/-- Sample `workflows` table: the two-node cycle. -/
def sampleWorkflows : List WorkflowRow :=
  [{ ID := List.replicate 15 0 ++ [193], Workflow := twoCycle }]

/-! ## Go maps: basic facts -/

theorem GoMap.set_same {V : Type} (m : GoMap V) (k : String) (v : V) :
    (m.set k v) k = some v := by
  simp [GoMap.set]

theorem GoMap.set_other {V : Type} (m : GoMap V) (k k2 : String) (v : V) (h : k2 ≠ k) :
    (m.set k v) k2 = m k2 := by
  simp [GoMap.set, h]

theorem GoMap.getD_set_same {V : Type} (m : GoMap V) (k : String) (v dflt : V) :
    (m.set k v).getD k dflt = v := by
  simp [GoMap.getD, GoMap.set]

theorem GoMap.getD_set_other {V : Type} (m : GoMap V) (k k2 : String) (v dflt : V)
    (h : k2 ≠ k) : (m.set k v).getD k2 dflt = m.getD k2 dflt := by
  simp [GoMap.getD, GoMap.set, h]

/-! ## Construction of the graph -/

theorem sourcesInto_append (es : List EdgeConfig) (e : EdgeConfig) (k : String) :
    sourcesInto (es ++ [e]) k =
      sourcesInto es k ++ (if e.Target = k then [e.Source] else []) := by
  unfold sourcesInto
  by_cases h : e.Target = k <;> simp [List.filter_append, List.filter_cons, h]

theorem targetsFrom_append (es : List EdgeConfig) (e : EdgeConfig) (k : String) :
    targetsFrom (es ++ [e]) k =
      targetsFrom es k ++ (if e.Source = k then [e.Target] else []) := by
  unfold targetsFrom
  by_cases h : e.Source = k <;> simp [List.filter_append, List.filter_cons, h]

theorem builtFrom_nodes (nodes : List NodeConfig) (d : DAG) (ids : List String)
    (h : BuiltFrom ids [] d) :
    BuiltFrom (ids ++ nodes.map (fun n => n.ID)) [] (nodes.foldl addNode d) := by
  induction nodes generalizing d ids with
  | nil => simpa using h
  | cons n rest ih =>
    have h2 : BuiltFrom (ids ++ [n.ID]) [] (addNode d n) := by
      intro k
      by_cases hk : k = n.ID
      · subst hk
        refine ⟨fun _ => ⟨⟨_, GoMap.set_same _ _ _, rfl, ?_, ?_⟩, ?_, ?_⟩, fun hn => ?_⟩
        · simp [sourcesInto]
        · simp [targetsFrom]
        · simp [addNode, GoMap.set_same, sourcesInto]
        · simp [addNode, GoMap.set_same, targetsFrom]
        · exact absurd (by simp) hn
      · have hm : k ∈ ids ++ [n.ID] ↔ k ∈ ids := by simp [hk]
        rw [hm]
        simpa [addNode, GoMap.set_other _ _ _ _ hk] using h k
    have := ih (addNode d n) (ids ++ [n.ID]) h2
    simpa [List.append_assoc] using this

theorem builtFrom_empty : BuiltFrom [] [] DAG.empty := by
  intro k
  simp [DAG.empty, GoMap.empty]

theorem addEdge_fault_target (d : DAG) (e : EdgeConfig) (h : d.Nodes e.Target = none) :
    addEdge d e = Outcome.fault := by
  simp [addEdge, h]

theorem addEdge_fault_source (d : DAG) (e : EdgeConfig) (h : d.Nodes e.Source = none) :
    addEdge d e = Outcome.fault := by
  cases ht : d.Nodes e.Target with
  | none => simp [addEdge, ht]
  | some t =>
    have hne : e.Source ≠ e.Target := by
      intro heq
      rw [heq, ht] at h
      cases h
    simp [addEdge, ht, GoMap.set_other _ _ _ _ hne, h]

theorem addEdge_ok (ids : List String) (es : List EdgeConfig) (d : DAG) (e : EdgeConfig)
    (h : BuiltFrom ids es d) (hs : e.Source ∈ ids) (ht : e.Target ∈ ids) :
    ∃ d2, addEdge d e = Outcome.ok d2 ∧ BuiltFrom ids (es ++ [e]) d2 := by
  obtain ⟨⟨t, htn, htid, htdep, htdown⟩, htin, htout⟩ := (h e.Target).1 ht
  obtain ⟨⟨s, hsn, hsid, hsdep, hsdown⟩, hsin, hsout⟩ := (h e.Source).1 hs
  by_cases hst : e.Source = e.Target
  · have hsame : (d.Nodes.set e.Target
        { t with DependsOn := t.DependsOn ++ [e.Source] }) e.Source = some
        { t with DependsOn := t.DependsOn ++ [e.Source] } := by
      rw [hst]; exact GoMap.set_same _ _ _
    refine ⟨_, (by simp only [addEdge, htn, hsame]; rfl), ?_⟩
    intro k
    refine ⟨fun hk => ?_, fun hk => ?_⟩
    · obtain ⟨⟨n, hn, hnid, hndep, hndown⟩, hnin, hnout⟩ := (h k).1 hk
      by_cases hkt : k = e.Target
      · subst hkt
        rw [htn] at hn
        cases hn
        simp [GoMap.set, GoMap.getD, sourcesInto_append, targetsFrom_append, hst, htid,
          htdep, htdown, htin, htout]
      · have h1 : ¬ e.Target = k := fun h => hkt h.symm
        simp [GoMap.set, GoMap.getD, sourcesInto_append, targetsFrom_append, hst, hkt, h1,
          hn, hnid, hndep, hndown, hnin, hnout]
    · have hkt : k ≠ e.Target := fun h => hk (h ▸ ht)
      obtain ⟨h1, h2, h3⟩ := (h k).2 hk
      simp [GoMap.set, GoMap.getD, hst, hkt, h1, h2, h3]
  · have hoth : (d.Nodes.set e.Target
        { t with DependsOn := t.DependsOn ++ [e.Source] }) e.Source = some s := by
      rw [GoMap.set_other _ _ _ _ hst]; exact hsn
    have hts : ¬ e.Target = e.Source := fun h => hst h.symm
    refine ⟨_, (by simp only [addEdge, htn, hoth]; rfl), ?_⟩
    intro k
    refine ⟨fun hk => ?_, fun hk => ?_⟩
    · obtain ⟨⟨n, hn, hnid, hndep, hndown⟩, hnin, hnout⟩ := (h k).1 hk
      by_cases hks : k = e.Source
      · subst hks
        rw [hsn] at hn
        cases hn
        simp [GoMap.set, GoMap.getD, sourcesInto_append, targetsFrom_append, hst, hts, hsid,
          hsdep, hsdown, hsin, hsout]
      · have h2 : ¬ e.Source = k := fun h => hks h.symm
        by_cases hkt : k = e.Target
        · subst hkt
          rw [htn] at hn
          cases hn
          simp [GoMap.set, GoMap.getD, sourcesInto_append, targetsFrom_append, hst, hts, htid,
            htdep, htdown, htin, htout]
        · have h1 : ¬ e.Target = k := fun h => hkt h.symm
          simp [GoMap.set, GoMap.getD, sourcesInto_append, targetsFrom_append, hks, hkt, h1,
            h2, hn, hnid, hndep, hndown, hnin, hnout]
    · have hkt : k ≠ e.Target := fun h => hk (h ▸ ht)
      have hks : k ≠ e.Source := fun h => hk (h ▸ hs)
      obtain ⟨h1, h2, h3⟩ := (h k).2 hk
      simp [GoMap.set, GoMap.getD, hks, hkt, h1, h2, h3]

theorem addEdges_ok (ids : List String) (rest es : List EdgeConfig) (d : DAG)
    (h : BuiltFrom ids es d) (hv : ∀ e ∈ rest, e.Source ∈ ids ∧ e.Target ∈ ids) :
    ∃ d2, addEdges d rest = Outcome.ok d2 ∧ BuiltFrom ids (es ++ rest) d2 := by
  induction rest generalizing es d with
  | nil => exact ⟨d, rfl, by simpa using h⟩
  | cons e rest ih =>
    obtain ⟨d1, h1, hb1⟩ := addEdge_ok ids es d e h (hv e (by simp)).1 (hv e (by simp)).2
    obtain ⟨d2, h2, hb2⟩ := ih (es ++ [e]) d1 hb1 (fun x hx => hv x (by simp [hx]))
    refine ⟨d2, ?_, by simpa [List.append_assoc] using hb2⟩
    simp only [addEdges, h1, h2]

theorem addEdges_fault (ids : List String) (rest es : List EdgeConfig) (d : DAG)
    (h : BuiltFrom ids es d) (hv : ∃ e ∈ rest, ¬ (e.Source ∈ ids ∧ e.Target ∈ ids)) :
    addEdges d rest = Outcome.fault := by
  induction rest generalizing es d with
  | nil => simp at hv
  | cons e rest ih =>
    by_cases he : e.Source ∈ ids ∧ e.Target ∈ ids
    · obtain ⟨d1, h1, hb1⟩ := addEdge_ok ids es d e h he.1 he.2
      have hv2 : ∃ x ∈ rest, ¬ (x.Source ∈ ids ∧ x.Target ∈ ids) := by
        obtain ⟨x, hx, hbad⟩ := hv
        rcases List.mem_cons.1 hx with rfl | hx
        · exact absurd he hbad
        · exact ⟨x, hx, hbad⟩
      simp only [addEdges, h1, ih (es ++ [e]) d1 hb1 hv2]
    · have hf : addEdge d e = Outcome.fault := by
        by_cases ht : e.Target ∈ ids
        · have hs : e.Source ∉ ids := fun hs => he ⟨hs, ht⟩
          exact addEdge_fault_source d e ((h e.Source).2 hs).1
        · exact addEdge_fault_target d e ((h e.Target).2 ht).1
      simp only [addEdges, hf]

theorem builtFrom_nodeLoop (w : Workflow) :
    BuiltFrom w.nodeIds [] (w.Nodes.foldl addNode DAG.empty) := by
  have := builtFrom_nodes w.Nodes DAG.empty [] builtFrom_empty
  simpa [Workflow.nodeIds] using this

theorem buildGraph_ok (w : Workflow) (hv : w.EdgesValid) :
    ∃ d, buildGraph w = Outcome.ok d ∧ BuiltFrom w.nodeIds w.Edges d := by
  have := addEdges_ok w.nodeIds w.Edges [] _ (builtFrom_nodeLoop w) hv
  simpa [buildGraph] using this

theorem buildGraph_fault (w : Workflow) (hv : ¬ w.EdgesValid) :
    buildGraph w = Outcome.fault := by
  have hv2 : ∃ e ∈ w.Edges, ¬ (e.Source ∈ w.nodeIds ∧ e.Target ∈ w.nodeIds) := by
    unfold Workflow.EdgesValid at hv
    push_neg at hv
    obtain ⟨e, he, hbad⟩ := hv
    exact ⟨e, he, fun hc => hbad hc.1 hc.2⟩
  exact addEdges_fault w.nodeIds w.Edges [] _ (builtFrom_nodeLoop w) hv2

theorem buildGraph_inv (w : Workflow) (d : DAG) (h : buildGraph w = Outcome.ok d) :
    w.EdgesValid ∧ BuiltFrom w.nodeIds w.Edges d := by
  by_cases hv : w.EdgesValid
  · obtain ⟨d2, h2, hb⟩ := buildGraph_ok w hv
    rw [h2] at h
    cases h
    exact ⟨hv, hb⟩
  · rw [buildGraph_fault w hv] at h
    cases h

theorem newDAG_inv (w : Workflow) (order : List String) (fuel : Nat) (d : DAG)
    (h : NewDAG w order fuel = some (Outcome.ok d)) :
    buildGraph w = Outcome.ok d ∧ d.Validate order fuel = some none := by
  unfold NewDAG at h
  cases hb : buildGraph w with
  | ok dag =>
    rw [hb] at h
    simp only at h
    cases hval : dag.Validate order fuel with
    | none => rw [hval] at h; cases h
    | some r =>
      rw [hval] at h
      cases r with
      | none =>
        simp only [Option.some.injEq, Outcome.ok.injEq] at h
        subst h
        exact ⟨rfl, hval⟩
      | some msg => simp at h
  | err msg => rw [hb] at h; simp at h
  | fault => rw [hb] at h; simp at h

/-! ## Depth-first cycle detection -/

theorem countP_lt_of_strict (l : List String) (p q : String → Bool)
    (hpq : ∀ x, p x = true → q x = true) (n : String) (hn : n ∈ l)
    (hq : q n = true) (hp : p n = false) : l.countP p < l.countP q := by
  induction l with
  | nil => simp at hn
  | cons a rest ih =>
    have hle : rest.countP p ≤ rest.countP q :=
      List.countP_mono_left (fun x _ hx => hpq x hx)
    rcases List.mem_cons.1 hn with rfl | hmem
    · simp only [List.countP_cons, hq, hp]
      simp
      omega
    · have := ih hmem
      simp only [List.countP_cons]
      by_cases hpa : p a = true
      · simp [hpa, hpq a hpa]
        omega
      · by_cases hqa : q a = true
        · simp [hpa, hqa]; omega
        · simp [hpa, hqa]; omega

theorem unvisitedCount_mono (univ : List String) (st st2 : DfsState) (h : DfsMono st st2) :
    unvisitedCount univ st2 ≤ unvisitedCount univ st := by
  unfold unvisitedCount
  apply List.countP_mono_left
  intro x _ hx
  simp only [decide_eq_true_eq] at hx ⊢
  by_contra hc
  have hv : st.vis x := by
    unfold DfsState.vis
    cases hval : st.visited.getD x false with
    | true => rfl
    | false => exact absurd hval hc
  have := h.1 x hv
  unfold DfsState.vis at this
  rw [hx] at this
  cases this

theorem DfsMono.refl (st : DfsState) : DfsMono st st :=
  ⟨fun _ h => h, fun _ _ => rfl⟩

theorem DfsMono.trans {a b c : DfsState} (h1 : DfsMono a b) (h2 : DfsMono b c) : DfsMono a c :=
  ⟨fun x hx => h2.1 x (h1.1 x hx),
   fun x hx => (h2.2 x (h1.1 x hx)).trans (h1.2 x hx)⟩

theorem DfsMono.black {a b : DfsState} (h : DfsMono a b) (x : String) (hx : a.black x) :
    b.black x := by
  refine ⟨h.1 x hx.1, ?_⟩
  intro hg
  apply hx.2
  unfold DfsState.gray at hg ⊢
  rw [← h.2 x hx.1]
  exact hg

theorem hasCycleNeighbors_spec (d : DAG) (univ : List String) (bound : Nat)
    (recurse : String → DfsState → Option (Bool × DfsState))
    (hrec : DfsSpec d univ bound recurse) (n : String) :
    ∀ (nbrs : List String) (st : DfsState),
      (∀ w ∈ nbrs, d.Adj n w) → (∀ w ∈ nbrs, w ∈ univ) → unvisitedCount univ st ≤ bound →
      ∃ b st2, hasCycleNeighbors recurse nbrs st = some (b, st2) ∧ DfsMono st st2 ∧
        (b = false → (∀ x, st2.gray x → st.gray x) ∧ (∀ w ∈ nbrs, st2.black w) ∧
          (DfsInv d st → DfsInv d st2)) ∧
        (b = true → (∀ g, st.gray g → Relation.ReflTransGen d.Adj g n) →
          ∃ u, Relation.TransGen d.Adj u u) := by
  intro nbrs
  induction nbrs with
  | nil =>
    intro st _ _ _
    exact ⟨false, st, rfl, DfsMono.refl st, fun _ => ⟨fun _ h => h, by simp, id⟩, by simp⟩
  | cons w rest ih =>
    intro st hadj huniv hcount
    have hadjr : ∀ x ∈ rest, d.Adj n x := fun x hx => hadj x (List.mem_cons_of_mem _ hx)
    have hunivr : ∀ x ∈ rest, x ∈ univ := fun x hx => huniv x (List.mem_cons_of_mem _ hx)
    have hw : d.Adj n w := hadj w (List.mem_cons_self _ _)
    by_cases hv : st.visited.getD w false = false
    · have hnv : ¬ st.vis w := by
        unfold DfsState.vis
        rw [hv]
        simp
      obtain ⟨b, st2, hcall, hmono, hfalse, htrue⟩ :=
        hrec w st (huniv w (List.mem_cons_self _ _)) hnv hcount
      cases b with
      | true =>
        refine ⟨true, st2, ?_, hmono, by simp, fun _ hg => ?_⟩
        · simp only [hasCycleNeighbors, hv, if_true, hcall]
        · exact htrue rfl (fun g hgg => (hg g hgg).tail hw)
      | false =>
        obtain ⟨hgray, hblack, hinv⟩ := hfalse rfl
        obtain ⟨b3, st3, hcall3, hmono3, hfalse3, htrue3⟩ :=
          ih st2 hadjr hunivr ((unvisitedCount_mono univ st st2 hmono).trans hcount)
        refine ⟨b3, st3, ?_, hmono.trans hmono3, ?_, ?_⟩
        · simp only [hasCycleNeighbors, hv, if_true, hcall, hcall3]
        · intro hb
          obtain ⟨hg3, hb3, hi3⟩ := hfalse3 hb
          refine ⟨fun x hx => hgray x (hg3 x hx), ?_, fun hi => hi3 (hinv hi)⟩
          intro x hx
          rcases List.mem_cons.1 hx with rfl | hx
          · exact hmono3.black _ hblack
          · exact hb3 x hx
        · intro hb hg
          exact htrue3 hb (fun g hgg => hg g (hgray g hgg))
    · by_cases hr : st.recStack.getD w false = true
      · refine ⟨true, st, ?_, DfsMono.refl st, by simp, fun _ hg => ?_⟩
        · simp [hasCycleNeighbors, hv, hr]
        · exact ⟨n, Relation.TransGen.head' hw (hg w hr)⟩
      · obtain ⟨b3, st3, hcall3, hmono3, hfalse3, htrue3⟩ := ih st hadjr hunivr hcount
        have hvis : st.vis w := by
          unfold DfsState.vis
          cases hval : st.visited.getD w false with
          | true => rfl
          | false => exact absurd hval hv
        refine ⟨b3, st3, ?_, hmono3, ?_, htrue3⟩
        · simp [hasCycleNeighbors, hv, hr, hcall3]
        · intro hb
          obtain ⟨hg3, hb3, hi3⟩ := hfalse3 hb
          refine ⟨hg3, ?_, hi3⟩
          intro x hx
          rcases List.mem_cons.1 hx with rfl | hx
          · exact hmono3.black _ ⟨hvis, hr⟩
          · exact hb3 x hx

theorem black_closed_reach (d : DAG) (st : DfsState) (h : DfsInv d st) (w x : String)
    (hw : st.black w) (hr : Relation.ReflTransGen d.Adj w x) : st.black x := by
  induction hr with
  | refl => exact hw
  | tail _ hstep ih => exact h.1 _ ih _ hstep

theorem getD_bool_cases (m : GoMap Bool) (x : String) (h : ¬ m.getD x false = true) :
    m.getD x false = false := by
  cases hval : m.getD x false with
  | true => exact absurd hval h
  | false => rfl

theorem hasCycle_spec (d : DAG) (univ : List String)
    (hclosed : ∀ u w, d.Adj u w → w ∈ univ) :
    ∀ fuel, DfsSpec d univ fuel (d.hasCycle fuel) := by
  intro fuel
  induction fuel with
  | zero =>
    intro n st hn hnv hcount
    exfalso
    have hpos : 0 < unvisitedCount univ st := by
      unfold unvisitedCount
      rw [List.countP_pos_iff]
      exact ⟨n, hn, by simpa using getD_bool_cases _ _ hnv⟩
    omega
  | succ fuel ih =>
    intro n st hn hnv hcount
    have hnf : st.visited.getD n false = false := getD_bool_cases _ _ hnv
    let st1 : DfsState :=
      { visited := st.visited.set n true, recStack := st.recStack.set n true }
    have hvis1 : ∀ x, st1.vis x ↔ (x = n ∨ st.vis x) := by
      intro x
      by_cases hx : x = n
      · subst hx
        simp [st1, DfsState.vis, GoMap.getD_set_same]
      · simp [st1, DfsState.vis, GoMap.getD_set_other _ _ _ _ _ hx, hx]
    have hgray1 : ∀ x, st1.gray x ↔ (x = n ∨ st.gray x) := by
      intro x
      by_cases hx : x = n
      · subst hx
        simp [st1, DfsState.gray, GoMap.getD_set_same]
      · simp [st1, DfsState.gray, GoMap.getD_set_other _ _ _ _ _ hx, hx]
    have hmono1 : DfsMono st st1 := by
      refine ⟨fun x hx => (hvis1 x).2 (Or.inr hx), fun x hx => ?_⟩
      have hxn : x ≠ n := fun h => hnv (h ▸ hx)
      simp [st1, GoMap.getD_set_other _ _ _ _ _ hxn]
    have hcount1 : unvisitedCount univ st1 ≤ fuel := by
      have hlt : unvisitedCount univ st1 < unvisitedCount univ st := by
        unfold unvisitedCount
        apply countP_lt_of_strict univ _ _ _ n hn
        · simpa using hnf
        · simp [st1, GoMap.getD_set_same]
        · intro x hx
          simp only [decide_eq_true_eq] at hx ⊢
          by_contra hc
          have hv : st.vis x := by
            unfold DfsState.vis
            cases hval : st.visited.getD x false with
            | true => rfl
            | false => exact absurd hval hc
          have hv1 := hmono1.1 x hv
          unfold DfsState.vis at hv1
          rw [hx] at hv1
          cases hv1
      omega
    obtain ⟨b, st2, hcall, hmono2, hfalse, htrue⟩ :=
      hasCycleNeighbors_spec d univ fuel (d.hasCycle fuel) ih n (d.OutEdges.getD n []) st1
        (fun w hw => hw) (fun w hw => hclosed n w hw) hcount1
    have hcall2 : hasCycleNeighbors (d.hasCycle fuel) (d.OutEdges.getD n [])
        { visited := st.visited.set n true, recStack := st.recStack.set n true } =
        some (b, st2) := hcall
    cases b with
    | true =>
      refine ⟨true, st2, ?_, hmono1.trans hmono2, by simp, fun _ hg => ?_⟩
      · simp only [DAG.hasCycle, hcall2]
      · apply htrue rfl
        intro g hgg
        rcases (hgray1 g).1 hgg with rfl | hgs
        · exact Relation.ReflTransGen.refl
        · exact hg g hgs
    | false =>
      obtain ⟨hgray2, hblack2, hinv2⟩ := hfalse rfl
      have hnvis2 : st2.vis n := hmono2.1 n ((hvis1 n).2 (Or.inl rfl))
      have hngray2 : st2.gray n := by
        unfold DfsState.gray
        rw [hmono2.2 n ((hvis1 n).2 (Or.inl rfl))]
        exact (hgray1 n).2 (Or.inl rfl)
      let st3 : DfsState := { st2 with recStack := st2.recStack.set n false }
      have hvis3 : ∀ x, st3.vis x ↔ st2.vis x := fun x => Iff.rfl
      have hgray3 : ∀ x, st3.gray x ↔ (x ≠ n ∧ st2.gray x) := by
        intro x
        by_cases hx : x = n
        · subst hx
          simp [st3, DfsState.gray, GoMap.getD_set_same]
        · simp [st3, DfsState.gray, GoMap.getD_set_other _ _ _ _ _ hx, hx]
      have hblack3 : ∀ x, st3.black x ↔ (x = n ∨ st2.black x) := by
        intro x
        unfold DfsState.black
        rw [hvis3, hgray3]
        by_cases hx : x = n
        · subst hx
          simp [hnvis2]
        · simp [hx]
      refine ⟨false, st3, ?_, ?_, fun _ => ⟨?_, ?_, ?_⟩, by simp⟩
      · simp only [DAG.hasCycle, hcall2]
      · refine ⟨fun x hx => (hvis3 x).2 ((hmono1.trans hmono2).1 x hx), fun x hx => ?_⟩
        have hxn : x ≠ n := fun h => hnv (h ▸ hx)
        have := (hmono1.trans hmono2).2 x hx
        simpa [st3, GoMap.getD_set_other _ _ _ _ _ hxn] using this
      · intro x hx
        obtain ⟨hxn, hx2⟩ := (hgray3 x).1 hx
        rcases (hgray1 x).1 (hgray2 x hx2) with h | h
        · exact absurd h hxn
        · exact h
      · exact (hblack3 n).2 (Or.inl rfl)
      · intro hinv
        have hinv1 : DfsInv d st1 := by
          have hb1 : ∀ x, st1.black x ↔ st.black x := by
            intro x
            unfold DfsState.black
            rw [hvis1, hgray1]
            by_cases hx : x = n
            · subst hx
              simp [hnv]
            · simp [hx]
          exact ⟨fun b hb w hw => (hb1 w).2 (hinv.1 b ((hb1 b).1 hb) w hw),
            fun b hb => hinv.2 b ((hb1 b).1 hb)⟩
        have hi2 := hinv2 hinv1
        refine ⟨fun b hb w hw => ?_, fun b hb hcyc => ?_⟩
        · rcases (hblack3 b).1 hb with rfl | hb2
          · exact (hblack3 w).2 (Or.inr (hblack2 w hw))
          · exact (hblack3 w).2 (Or.inr (hi2.1 b hb2 w hw))
        · by_cases hbn : b = n
          · subst hbn
            obtain ⟨w, hw, hreach⟩ := Relation.TransGen.head'_iff.1 hcyc
            have := black_closed_reach d st2 hi2 w b (hblack2 w hw) hreach
            exact this.2 hngray2
          · rcases (hblack3 b).1 hb with h | hb2
            · exact hbn h
            · exact hi2.2 b hb2 hcyc

theorem validateLoop_spec (d : DAG) (univ : List String) (fuel : Nat)
    (hclosed : ∀ u w, d.Adj u w → w ∈ univ) :
    ∀ (order : List String) (st : DfsState),
      (∀ x ∈ order, x ∈ univ) → unvisitedCount univ st ≤ fuel → (∀ x, ¬ st.gray x) →
      DfsInv d st →
      ∃ r, validateLoop d fuel order st = some r ∧
        (r = false → ∀ x ∈ order, ¬ Relation.TransGen d.Adj x x) ∧
        (r = true → ∃ u, Relation.TransGen d.Adj u u) := by
  intro order
  induction order with
  | nil =>
    intro st _ _ _ _
    exact ⟨false, rfl, by simp, by simp⟩
  | cons n rest ih =>
    intro st huniv hcount hgray hinv
    have hunivr : ∀ x ∈ rest, x ∈ univ := fun x hx => huniv x (List.mem_cons_of_mem _ hx)
    by_cases hv : st.visited.getD n false = false
    · have hnv : ¬ st.vis n := by
        unfold DfsState.vis
        rw [hv]
        simp
      obtain ⟨b, st2, hcall, hmono, hfalse, htrue⟩ :=
        hasCycle_spec d univ hclosed fuel n st (huniv n (List.mem_cons_self _ _)) hnv hcount
      cases b with
      | true =>
        refine ⟨true, ?_, by simp, fun _ => htrue rfl (fun g hg => absurd hg (hgray g))⟩
        simp only [validateLoop, hv, if_true, hcall]
      | false =>
        obtain ⟨hg2, hb2, hi2⟩ := hfalse rfl
        obtain ⟨r, hr, hrf, hrt⟩ := ih st2 hunivr
          ((unvisitedCount_mono univ st st2 hmono).trans hcount)
          (fun x hx => hgray x (hg2 x hx)) (hi2 hinv)
        refine ⟨r, ?_, fun hrr x hx => ?_, hrt⟩
        · simp only [validateLoop, hv, if_true, hcall, hr]
        · rcases List.mem_cons.1 hx with rfl | hx
          · exact (hi2 hinv).2 _ hb2
          · exact hrf hrr x hx
    · obtain ⟨r, hr, hrf, hrt⟩ := ih st hunivr hcount hgray hinv
      have hvis : st.vis n := by
        unfold DfsState.vis
        cases hval : st.visited.getD n false with
        | true => rfl
        | false => exact absurd hval hv
      refine ⟨r, ?_, fun hrr x hx => ?_, hrt⟩
      · simp [validateLoop, hv, hr]
      · rcases List.mem_cons.1 hx with rfl | hx
        · exact hinv.2 _ ⟨hvis, hgray _⟩
        · exact hrf hrr x hx

theorem builtFrom_adj (ids : List String) (es : List EdgeConfig) (d : DAG)
    (h : BuiltFrom ids es d) (u v : String) :
    d.Adj u v ↔ u ∈ ids ∧ ∃ e ∈ es, e.Source = u ∧ e.Target = v := by
  unfold DAG.Adj GoMap.getD
  by_cases hu : u ∈ ids
  · rw [((h u).1 hu).2.2]
    simp [targetsFrom, hu, and_assoc]
  · rw [((h u).2 hu).2.2]
    simp [hu]

theorem builtFrom_adj_valid (w : Workflow) (d : DAG) (hv : w.EdgesValid)
    (h : BuiltFrom w.nodeIds w.Edges d) (u v : String) : d.Adj u v ↔ w.Adj u v := by
  rw [builtFrom_adj _ _ _ h]
  unfold Workflow.Adj
  constructor
  · exact fun hh => hh.2
  · rintro ⟨e, he, rfl, rfl⟩
    exact ⟨(hv e he).1, e, he, rfl, rfl⟩

theorem builtFrom_adj_eq (w : Workflow) (d : DAG) (hv : w.EdgesValid)
    (h : BuiltFrom w.nodeIds w.Edges d) : d.Adj = w.Adj := by
  funext u v
  exact propext (builtFrom_adj_valid w d hv h u v)

theorem validate_spec (w : Workflow) (d : DAG) (order : List String) (fuel : Nat)
    (hv : w.EdgesValid) (h : BuiltFrom w.nodeIds w.Edges d)
    (ho : ∀ k, k ∈ order ↔ k ∈ w.nodeIds) (hf : order.length ≤ fuel) :
    (w.HasCycle → d.Validate order fuel = some (some "cycle detected in workflow DAG")) ∧
    (¬ w.HasCycle → d.Validate order fuel = some none) := by
  have hadj := builtFrom_adj_eq w d hv h
  have hclosed : ∀ u x, d.Adj u x → x ∈ order := by
    intro u x hux
    rw [hadj] at hux
    obtain ⟨e, he, _, rfl⟩ := hux
    exact (ho _).2 (hv e he).2
  obtain ⟨r, hr, hrf, hrt⟩ := validateLoop_spec d order fuel hclosed order
    { visited := GoMap.empty, recStack := GoMap.empty } (fun x hx => hx)
    ((List.countP_le_length _).trans hf)
    (fun x hx => by simp [DfsState.gray, GoMap.getD, GoMap.empty] at hx)
    ⟨fun b hb => by simp [DfsState.black, DfsState.vis, GoMap.getD, GoMap.empty] at hb,
     fun b hb => by simp [DfsState.black, DfsState.vis, GoMap.getD, GoMap.empty] at hb⟩
  rw [hadj] at hrf hrt
  constructor
  · rintro ⟨u, hu⟩
    cases r with
    | true => simp [DAG.Validate, hr]
    | false =>
      exfalso
      have hmem : u ∈ order := by
        obtain ⟨x, hx, _⟩ := Relation.TransGen.head'_iff.1 hu
        obtain ⟨e, he, rfl, _⟩ := hx
        exact (ho _).2 (hv e he).1
      exact hrf rfl u hmem hu
  · intro hno
    cases r with
    | true => exact absurd (hrt rfl) hno
    | false => simp [DAG.Validate, hr]

/-! ## Kahn's algorithm -/

theorem relax_cons (w : String) (rest : List String) (inDegree : GoMap Int)
    (queue : List String) :
    relax (w :: rest) inDegree queue =
      relax rest (inDegree.set w (inDegree.getD w 0 - 1))
        (if inDegree.getD w 0 - 1 = 0 then queue ++ [w] else queue) := by
  by_cases hz : inDegree.getD w 0 - 1 = 0
  · simp only [relax, hz, if_true]
  · simp only [relax, hz, if_false]

theorem relax_spec (nbrs : List String) :
    ∀ (inDegree : GoMap Int) (queue : List String),
      (∀ x, (nbrs.count x : Int) ≤ inDegree.getD x 0) →
      ∃ added, (relax nbrs inDegree queue).2 = queue ++ added ∧ added.Nodup ∧
        (∀ x, x ∈ added ↔ (x ∈ nbrs ∧ inDegree.getD x 0 = (nbrs.count x : Int))) ∧
        (∀ x, (relax nbrs inDegree queue).1.getD x 0 = inDegree.getD x 0 - (nbrs.count x : Int)) := by
  induction nbrs with
  | nil =>
    intro inDegree queue _
    exact ⟨[], by simp [relax], List.nodup_nil, by simp, by simp [relax]⟩
  | cons w rest ih =>
    intro inDegree queue hpre
    have hw := hpre w
    simp only [List.count_cons_self, Nat.cast_add, Nat.cast_one] at hw
    have hpre1 : ∀ x, (rest.count x : Int) ≤
        (inDegree.set w (inDegree.getD w 0 - 1)).getD x 0 := by
      intro x
      by_cases hx : x = w
      · subst hx
        rw [GoMap.getD_set_same]
        omega
      · rw [GoMap.getD_set_other _ _ _ _ _ hx]
        have := hpre x
        rw [List.count_cons_of_ne hx] at this
        exact this
    obtain ⟨added, hq, hnd, hmem, hdeg⟩ := ih (inDegree.set w (inDegree.getD w 0 - 1))
      (if inDegree.getD w 0 - 1 = 0 then queue ++ [w] else queue) hpre1
    have hdeg2 : ∀ x, (relax (w :: rest) inDegree queue).1.getD x 0 =
        inDegree.getD x 0 - ((w :: rest).count x : Int) := by
      intro x
      rw [relax_cons, hdeg x]
      by_cases hx : x = w
      · subst hx
        rw [GoMap.getD_set_same]
        simp only [List.count_cons_self, Nat.cast_add, Nat.cast_one]
        omega
      · rw [GoMap.getD_set_other _ _ _ _ _ hx, List.count_cons_of_ne hx]
    have hmem2 : ∀ x, x ≠ w → (x ∈ added ↔
        (x ∈ w :: rest ∧ inDegree.getD x 0 = ((w :: rest).count x : Int))) := by
      intro x hx
      rw [hmem x, GoMap.getD_set_other _ _ _ _ _ hx, List.count_cons_of_ne hx]
      simp [hx]
    by_cases hz : inDegree.getD w 0 - 1 = 0
    · rw [if_pos hz] at hq
      have hcw : rest.count w = 0 := by omega
      have hwr : w ∉ rest := List.count_eq_zero.1 hcw
      refine ⟨w :: added, ?_, ?_, ?_, hdeg2⟩
      · rw [relax_cons, if_pos hz, hq]
        simp
      · exact List.nodup_cons.2 ⟨fun hin => hwr ((hmem w).1 hin).1, hnd⟩
      · intro x
        by_cases hx : x = w
        · subst hx
          simp only [List.mem_cons, true_or, List.count_cons_self, true_and]
          rw [hcw]
          simp
          omega
        · rw [← hmem2 x hx]
          simp [hx]
    · rw [if_neg hz] at hq
      refine ⟨added, ?_, hnd, ?_, hdeg2⟩
      · rw [relax_cons, if_neg hz, hq]
      · intro x
        by_cases hx : x = w
        · subst hx
          rw [hmem x, GoMap.getD_set_same]
          simp only [List.mem_cons, true_or, List.count_cons_self, true_and, Nat.cast_add,
            Nat.cast_one]
          constructor
          · rintro ⟨_, h⟩
            omega
          · intro h
            have hne : rest.count x ≠ 0 := by omega
            exact ⟨List.count_pos_iff.1 (Nat.pos_of_ne_zero hne), by omega⟩
        · exact hmem2 x hx

theorem pendingIn_snoc (es : List EdgeConfig) (result : List String) (n x : String)
    (hn : n ∉ result) :
    pendingIn es result x = pendingIn es (result ++ [n]) x + (targetsFrom es n).count x := by
  induction es with
  | nil => simp [pendingIn, targetsFrom]
  | cons e es ih =>
    unfold pendingIn targetsFrom at ih ⊢
    by_cases h2 : e.Source = n
    · have h3 : e.Source ∉ result := h2 ▸ hn
      by_cases h1 : e.Target = x
      · simp [List.filter_cons, h1, h2, h3, hn] at ih ⊢
        omega
      · simp [List.filter_cons, h1, h2, h3, hn, List.count_cons] at ih ⊢
        omega
    · by_cases h1 : e.Target = x <;> by_cases h3 : e.Source ∈ result <;>
        simp [List.filter_cons, h1, h2, h3] at ih ⊢ <;> omega

theorem pendingIn_zero (es : List EdgeConfig) (result : List String) (x : String)
    (h : pendingIn es result x = 0) (e : EdgeConfig) (he : e ∈ es) (ht : e.Target = x) :
    e.Source ∈ result := by
  unfold pendingIn at h
  rw [List.length_eq_zero, List.filter_eq_nil_iff] at h
  have := h e he
  simp only [decide_eq_true_eq, not_and, not_not] at this
  exact this ht

theorem pendingIn_pos (es : List EdgeConfig) (result : List String) (x : String)
    (h : pendingIn es result x ≠ 0) :
    ∃ e ∈ es, e.Target = x ∧ e.Source ∉ result := by
  unfold pendingIn at h
  have hne : es.filter (fun e => decide (e.Target = x ∧ e.Source ∉ result)) ≠ [] := by
    intro hnil
    exact h (by rw [hnil]; rfl)
  obtain ⟨e, he⟩ := List.exists_mem_of_ne_nil _ hne
  rw [List.mem_filter] at he
  simp only [decide_eq_true_eq] at he
  exact ⟨e, he.1, he.2.1, he.2.2⟩

theorem builtFrom_out (ids : List String) (es : List EdgeConfig) (d : DAG)
    (h : BuiltFrom ids es d) (n : String) (hn : n ∈ ids) :
    d.OutEdges.getD n [] = targetsFrom es n := by
  unfold GoMap.getD
  rw [((h n).1 hn).2.2]
  rfl

theorem mem_targetsFrom (es : List EdgeConfig) (n x : String) :
    x ∈ targetsFrom es n ↔ ∃ e ∈ es, e.Source = n ∧ e.Target = x := by
  simp [targetsFrom, and_assoc]

theorem kahn_step (ids : List String) (es : List EdgeConfig) (d : DAG) (n : String)
    (queue : List String) (inDegree : GoMap Int) (result : List String)
    (hb : BuiltFrom ids es d) (hv : ∀ e ∈ es, e.Source ∈ ids ∧ e.Target ∈ ids)
    (hinv : KahnInv ids es (n :: queue) inDegree result) :
    KahnInv ids es (relax (d.OutEdges.getD n []) inDegree queue).2
      (relax (d.OutEdges.getD n []) inDegree queue).1 (result ++ [n]) := by
  obtain ⟨h1, h2, h3, h5⟩ := hinv
  have hnmem : n ∈ result ++ n :: queue := by simp
  have hnids : n ∈ ids := ((h3 n).1 hnmem).1
  have hndeg : inDegree.getD n 0 = 0 := ((h3 n).1 hnmem).2
  have hnres : n ∉ result := by
    intro hin
    have := List.disjoint_of_nodup_append h1 hin
    exact this (List.mem_cons_self _ _)
  rw [builtFrom_out ids es d hb n hnids]
  have hpre : ∀ x, ((targetsFrom es n).count x : Int) ≤ inDegree.getD x 0 := by
    intro x
    rw [h2 x, pendingIn_snoc es result n x hnres]
    push_cast
    omega
  obtain ⟨added, hq, hnd, hmem, hdeg⟩ := relax_spec (targetsFrom es n) inDegree queue hpre
  have h2new : ∀ x, (relax (targetsFrom es n) inDegree queue).1.getD x 0 =
      (pendingIn es (result ++ [n]) x : Int) := by
    intro x
    rw [hdeg x, h2 x, pendingIn_snoc es result n x hnres]
    push_cast
    omega
  have hold : ∀ x, x ∈ result ++ n :: queue → x ∉ added := by
    intro x hx hxa
    have hzero := ((h3 x).1 hx).2
    obtain ⟨hxn, heq⟩ := (hmem x).1 hxa
    have hpos : 0 < (targetsFrom es n).count x := List.count_pos_iff.2 hxn
    omega
  refine ⟨?_, h2new, ?_, ?_⟩
  · rw [hq]
    have hperm : (result ++ [n] ++ (queue ++ added)) = (result ++ n :: queue) ++ added := by
      simp
    rw [hperm, List.nodup_append]
    exact ⟨h1, hnd, fun x hx hxa => hold x hx hxa⟩
  · intro x
    rw [hq]
    have hsplit : x ∈ result ++ [n] ++ (queue ++ added) ↔
        (x ∈ result ++ n :: queue ∨ x ∈ added) := by
      simp only [List.mem_append, List.mem_cons, List.mem_singleton, List.not_mem_nil,
        or_false]
      tauto
    rw [hsplit, hdeg x]
    constructor
    · rintro (hx | hx)
      · obtain ⟨hxi, hxz⟩ := (h3 x).1 hx
        refine ⟨hxi, ?_⟩
        have := hpre x
        omega
      · obtain ⟨hxn, heq⟩ := (hmem x).1 hx
        obtain ⟨e, he, _, rfl⟩ := (mem_targetsFrom es n x).1 hxn
        exact ⟨(hv e he).2, by omega⟩
    · rintro ⟨hxi, hxz⟩
      by_cases hc : (targetsFrom es n).count x = 0
      · left
        exact (h3 x).2 ⟨hxi, by omega⟩
      · right
        exact (hmem x).2 ⟨List.count_pos_iff.1 (Nat.pos_of_ne_zero hc), by omega⟩
  · intro e he ht
    rcases List.mem_append.1 ht with htr | htn
    · have hlt := h5 e he htr
      have hsr : e.Source ∈ result :=
        List.indexOf_lt_length.1 (hlt.trans (List.indexOf_lt_length.2 htr))
      rw [List.indexOf_append_of_mem hsr, List.indexOf_append_of_mem htr]
      exact hlt
    · have htn2 : e.Target = n := by simpa using htn
      have hp : pendingIn es result n = 0 := by
        have := h2 n
        omega
      have hsr : e.Source ∈ result := pendingIn_zero es result n hp e he htn2
      rw [List.indexOf_append_of_mem hsr, htn2, List.indexOf_append_of_not_mem hnres]
      have := List.indexOf_lt_length.2 hsr
      omega

theorem acyclic_no_closed_set (w : Workflow) (hac : ¬ w.HasCycle) (ids : List String)
    (S : String → Prop) (hS : ∀ x, S x → x ∈ ids)
    (hpred : ∀ x, S x → ∃ u, S u ∧ w.Adj u x) : ∀ x, ¬ S x := by
  classical
  let r : {x // x ∈ ids} → {x // x ∈ ids} → Prop :=
    fun a b => Relation.TransGen w.Adj a.1 b.1
  haveI : IsTrans {x // x ∈ ids} r := ⟨fun _ _ _ h1 h2 => Relation.TransGen.trans h1 h2⟩
  haveI : IsIrrefl {x // x ∈ ids} r := ⟨fun a h => hac ⟨a.1, h⟩⟩
  have hwf : WellFounded r := Finite.wellFounded_of_trans_of_irrefl r
  have key : ∀ a : {x // x ∈ ids}, ¬ S a.1 := by
    intro a
    induction a using hwf.induction with
    | _ b ih =>
    intro hb
    obtain ⟨u, hu, hadj⟩ := hpred b.1 hb
    exact ih ⟨u, hS u hu⟩ (Relation.TransGen.single hadj) hu
  intro x hx
  exact key ⟨x, hS x hx⟩ hx

theorem kahnInv_length (ids : List String) (es : List EdgeConfig) (queue : List String)
    (inDegree : GoMap Int) (result : List String)
    (hinv : KahnInv ids es queue inDegree result) :
    result.length + queue.length ≤ ids.length := by
  have hsub : result ++ queue ⊆ ids := fun x hx => ((hinv.2.2.1 x).1 hx).1
  have := (List.Nodup.subperm hinv.1 hsub).length_le
  simpa using this

theorem topoLoop_spec (w : Workflow) (d : DAG) (hv : w.EdgesValid) (hac : ¬ w.HasCycle)
    (hb : BuiltFrom w.nodeIds w.Edges d) :
    ∀ (fuel : Nat) (queue : List String) (inDegree : GoMap Int) (result : List String),
      KahnInv w.nodeIds w.Edges queue inDegree result →
      w.nodeIds.length + 1 ≤ fuel + result.length →
      ∃ r, topoLoop d fuel queue inDegree result = some r ∧ r.Nodup ∧
        (∀ x, x ∈ r ↔ x ∈ w.nodeIds) ∧
        ∀ e ∈ w.Edges, r.indexOf e.Source < r.indexOf e.Target := by
  intro fuel
  induction fuel with
  | zero =>
    intro queue inDegree result hinv hfuel
    have := kahnInv_length _ _ _ _ _ hinv
    omega
  | succ fuel ih =>
    intro queue inDegree result hinv hfuel
    cases queue with
    | nil =>
      obtain ⟨h1, h2, h3, h5⟩ := hinv
      simp only [List.append_nil] at h1 h3
      have hall : ∀ x, x ∈ result ↔ x ∈ w.nodeIds := by
        intro x
        refine ⟨fun hx => ((h3 x).1 hx).1, fun hx => ?_⟩
        by_contra hxr
        refine acyclic_no_closed_set w hac w.nodeIds
          (fun y => y ∈ w.nodeIds ∧ y ∉ result) (fun y hy => hy.1) ?_ x ⟨hx, hxr⟩
        rintro y ⟨hyi, hyr⟩
        have hne : pendingIn w.Edges result y ≠ 0 := by
          intro hz
          apply hyr
          refine (h3 y).2 ⟨hyi, ?_⟩
          rw [h2 y, hz]
          rfl
        obtain ⟨e, he, het, hes⟩ := pendingIn_pos _ _ _ hne
        exact ⟨e.Source, ⟨(hv e he).1, hes⟩, e, he, rfl, het⟩
      refine ⟨result, rfl, h1, hall, fun e he => ?_⟩
      exact h5 e he ((hall _).2 (hv e he).2)
    | cons n queue =>
      have hstep := kahn_step w.nodeIds w.Edges d n queue inDegree result hb hv hinv
      obtain ⟨r, hr, hrest⟩ := ih _ _ _ hstep (by simp; omega)
      exact ⟨r, by simpa only [topoLoop] using hr, hrest⟩

theorem topologicalSort_spec (w : Workflow) (d : DAG) (hv : w.EdgesValid)
    (hac : ¬ w.HasCycle) (hb : BuiltFrom w.nodeIds w.Edges d)
    (order : List String) (ho : IsIterOrder d.InDegrees order) (fuel : Nat)
    (hf : w.nodeIds.length < fuel) :
    ∃ r, d.TopologicalSort order fuel = some r ∧ r.Nodup ∧
      (∀ x, x ∈ r ↔ x ∈ w.nodeIds) ∧
      ∀ e ∈ w.Edges, r.indexOf e.Source < r.indexOf e.Target := by
  unfold DAG.TopologicalSort
  apply topoLoop_spec w d hv hac hb
  · have hdeg : ∀ x, d.InDegrees.getD x 0 = (pendingIn w.Edges [] x : Int) := by
      intro x
      unfold GoMap.getD pendingIn
      by_cases hx : x ∈ w.nodeIds
      · rw [((hb x).1 hx).2.1]
        simp [sourcesInto]
      · rw [((hb x).2 hx).2.1]
        have : w.Edges.filter (fun e => decide (e.Target = x ∧ e.Source ∉ [])) = [] := by
          rw [List.filter_eq_nil_iff]
          intro e he
          simp only [List.not_mem_nil, not_false_eq_true, and_true, decide_eq_true_eq]
          intro het
          exact hx (het ▸ (hv e he).2)
        rw [this]
        rfl
    have hkey : ∀ x, x ∈ order ↔ x ∈ w.nodeIds := by
      intro x
      rw [ho.2 x]
      by_cases hx : x ∈ w.nodeIds
      · simp [((hb x).1 hx).2.1, hx]
      · simp [((hb x).2 hx).2.1, hx]
    refine ⟨?_, hdeg, ?_, ?_⟩
    · simpa using ho.1.filter _
    · intro x
      simp only [List.nil_append, List.mem_filter, decide_eq_true_eq, hkey]
      by_cases hx : x ∈ w.nodeIds
      · have hsome := ((hb x).1 hx).2.1
        simp [GoMap.getD, hsome, hx]
      · simp [hx]
    · intro e _ het
      simp at het
  · simp
    omega

/-! ## Facts used to instantiate the statements -/

theorem no_cycle_of_rank (w : Workflow) (rank : String → Nat)
    (h : ∀ e ∈ w.Edges, rank e.Source < rank e.Target) : ¬ w.HasCycle := by
  have hmono : ∀ u v, Relation.TransGen w.Adj u v → rank u < rank v := by
    intro u v huv
    induction huv with
    | single hstep =>
      obtain ⟨e, he, rfl, rfl⟩ := hstep
      exact h e he
    | tail _ hstep ih =>
      obtain ⟨e, he, rfl, rfl⟩ := hstep
      exact ih.trans (h e he)
  rintro ⟨u, hu⟩
  exact lt_irrefl _ (hmono u u hu)

theorem isNodeOrder_length (w : Workflow) (order : List String) (ho : w.IsNodeOrder order) :
    order.length ≤ w.Nodes.length := by
  have hsub : order ⊆ w.nodeIds := fun x hx => (ho.2 x).1 hx
  have := (List.Nodup.subperm ho.1 hsub).length_le
  simpa [Workflow.nodeIds] using this

theorem isIterOrder_nodes (ids : List String) (es : List EdgeConfig) (d : DAG)
    (hb : BuiltFrom ids es d) (order : List String) :
    IsIterOrder d.Nodes order ↔ (order.Nodup ∧ ∀ k, k ∈ order ↔ k ∈ ids) := by
  have hkey : ∀ k, (d.Nodes k).isSome = true ↔ k ∈ ids := by
    intro k
    by_cases hk : k ∈ ids
    · obtain ⟨node, hn, _⟩ := ((hb k).1 hk).1
      simp [hn, hk]
    · simp [((hb k).2 hk).1, hk]
  unfold IsIterOrder
  simp only [hkey]

theorem isIterOrder_inDegrees (ids : List String) (es : List EdgeConfig) (d : DAG)
    (hb : BuiltFrom ids es d) (order : List String) :
    IsIterOrder d.InDegrees order ↔ (order.Nodup ∧ ∀ k, k ∈ order ↔ k ∈ ids) := by
  have hkey : ∀ k, (d.InDegrees k).isSome = true ↔ k ∈ ids := by
    intro k
    by_cases hk : k ∈ ids
    · simp [((hb k).1 hk).2.1, hk]
    · simp [((hb k).2 hk).2.1, hk]
  unfold IsIterOrder
  simp only [hkey]

theorem newDAG_ok (w : Workflow) (order : List String) (fuel : Nat)
    (hv : w.EdgesValid) (hac : ¬ w.HasCycle) (ho : w.IsNodeOrder order)
    (hf : w.Nodes.length ≤ fuel) :
    ∃ d, NewDAG w order fuel = some (Outcome.ok d) ∧ BuiltFrom w.nodeIds w.Edges d := by
  obtain ⟨d, hd, hb⟩ := buildGraph_ok w hv
  have hval := (validate_spec w d order fuel hv hb ho.2
    ((isNodeOrder_length w order ho).trans hf)).2 hac
  exact ⟨d, by simp only [NewDAG, hd, hval], hb⟩

theorem builtOrEmpty_spec (w : Workflow) (hv : w.EdgesValid) :
    buildGraph w = Outcome.ok (builtOrEmpty w) ∧ BuiltFrom w.nodeIds w.Edges (builtOrEmpty w) := by
  obtain ⟨d, hd, hb⟩ := buildGraph_ok w hv
  have : builtOrEmpty w = d := by simp only [builtOrEmpty, hd]
  rw [this]
  exact ⟨hd, hb⟩

theorem diamond_valid : diamond.EdgesValid := by
  unfold Workflow.EdgesValid
  decide

theorem diamond_acyclic : ¬ diamond.HasCycle :=
  no_cycle_of_rank diamond diamondRank (by decide)

theorem diamond_order : diamond.IsNodeOrder ["n3", "n1", "n4", "n2"] := by
  refine ⟨by decide, fun k => ?_⟩
  simp only [diamond, Workflow.nodeIds, List.map, List.mem_cons, List.mem_singleton,
    List.not_mem_nil, or_false]
  tauto

/-! ## Specification properties -/

/-- C1: for a workflow whose edges reference existing nodes and that has no directed
cycle, `NewDAG` builds a DAG and `TopologicalSort` on it returns (with enough fuel, for
every iteration order of the maps) a list that holds every node id exactly once and in
which the source of every edge stands before its target. -/
theorem c1_topologicalSort_order (w : Workflow) (order1 order2 : List String)
    (fuel1 fuel2 : Nat) (hv : w.EdgesValid) (hac : ¬ w.HasCycle)
    (ho1 : w.IsNodeOrder order1) (hf1 : w.Nodes.length ≤ fuel1)
    (ho2 : w.IsNodeOrder order2) (hf2 : w.Nodes.length < fuel2) :
    ∃ d r, NewDAG w order1 fuel1 = some (Outcome.ok d) ∧
      IsIterOrder d.InDegrees order2 ∧
      d.TopologicalSort order2 fuel2 = some r ∧ r.Nodup ∧
      (∀ id, id ∈ r ↔ id ∈ w.nodeIds) ∧
      ∀ e ∈ w.Edges, r.indexOf e.Source < r.indexOf e.Target := by
  obtain ⟨d, hd, hb⟩ := newDAG_ok w order1 fuel1 hv hac ho1 hf1
  have hio : IsIterOrder d.InDegrees order2 :=
    (isIterOrder_inDegrees _ _ d hb order2).2 ho2
  obtain ⟨r, hr, hrest⟩ := topologicalSort_spec w d hv hac hb order2 hio fuel2
    (by simpa [Workflow.nodeIds] using hf2)
  exact ⟨d, r, hd, hio, hr, hrest⟩

/-- Witness of C1 on the diamond workflow. -/
theorem c1_topologicalSort_order_witness :
    diamond.EdgesValid ∧ ¬ diamond.HasCycle ∧ diamond.IsNodeOrder ["n3", "n1", "n4", "n2"] ∧
    ∃ d r, NewDAG diamond ["n3", "n1", "n4", "n2"] 4 = some (Outcome.ok d) ∧
      IsIterOrder d.InDegrees ["n3", "n1", "n4", "n2"] ∧
      d.TopologicalSort ["n3", "n1", "n4", "n2"] 5 = some r ∧ r.Nodup ∧
      (∀ id, id ∈ r ↔ id ∈ diamond.nodeIds) ∧
      ∀ e ∈ diamond.Edges, r.indexOf e.Source < r.indexOf e.Target :=
  ⟨diamond_valid, diamond_acyclic, diamond_order,
    c1_topologicalSort_order diamond ["n3", "n1", "n4", "n2"] ["n3", "n1", "n4", "n2"] 4 5
      diamond_valid diamond_acyclic diamond_order (by decide) diamond_order (by decide)⟩

/-- C2: for a workflow whose edges reference existing nodes and contain a directed cycle
(a self-loop included), `NewDAG` returns (with enough fuel, for every iteration order)
the error "cycle detected in workflow DAG" and no DAG. -/
theorem c2_cycle_rejected (w : Workflow) (order : List String) (fuel : Nat)
    (hv : w.EdgesValid) (hc : w.HasCycle) (ho : w.IsNodeOrder order)
    (hf : w.Nodes.length ≤ fuel) :
    NewDAG w order fuel = some (Outcome.err "cycle detected in workflow DAG") := by
  obtain ⟨d, hd, hb⟩ := buildGraph_ok w hv
  have hval := (validate_spec w d order fuel hv hb ho.2
    ((isNodeOrder_length w order ho).trans hf)).1 hc
  simp only [NewDAG, hd, hval]

/-- Witness of C2 on the two-node cycle. -/
theorem c2_cycle_rejected_witness :
    twoCycle.EdgesValid ∧ twoCycle.HasCycle ∧ twoCycle.IsNodeOrder ["n2", "n1"] ∧
    NewDAG twoCycle ["n2", "n1"] 2 = some (Outcome.err "cycle detected in workflow DAG") :=
  have hv : twoCycle.EdgesValid := by
    unfold Workflow.EdgesValid
    decide
  have hc : twoCycle.HasCycle :=
    ⟨"n1", Relation.TransGen.tail (Relation.TransGen.single ⟨⟨"e1", "n1", "n2"⟩, by decide, rfl, rfl⟩)
      ⟨⟨"e2", "n2", "n1"⟩, by decide, rfl, rfl⟩⟩
  have ho : twoCycle.IsNodeOrder ["n2", "n1"] := by
    refine ⟨by decide, fun k => ?_⟩
    simp only [twoCycle, Workflow.nodeIds, List.map, List.mem_cons, List.mem_singleton,
      List.not_mem_nil, or_false]
    tauto
  ⟨hv, hc, ho, c2_cycle_rejected twoCycle ["n2", "n1"] 2 hv hc ho (by decide)⟩

/-- C3 (the code at the failing input): for the workflow with the single node n1 and the
edge n1 → n2, whose target is no node, `NewDAG` neither returns an error nor a DAG: it
panics on the nil `dag.Nodes[edge.Target]`. -/
theorem c3_dangling_edge_panics :
    NewDAG dangling ["n1"] 1 = some Outcome.fault ∧ ¬ dangling.EdgesValid := by
  refine ⟨rfl, ?_⟩
  unfold Workflow.EdgesValid
  decide

theorem newDAG_fault (w : Workflow) (order : List String) (fuel : Nat)
    (h : ¬ w.EdgesValid) : NewDAG w order fuel = some Outcome.fault := by
  simp only [NewDAG, buildGraph_fault w h]

theorem allDepsComplete_iff (completed : GoMap Bool) (deps : List String) :
    allDepsComplete completed deps = true ↔ ∀ dep ∈ deps, completed.getD dep false = true := by
  induction deps with
  | nil => simp [allDepsComplete]
  | cons dep rest ih =>
    by_cases h : completed.getD dep false = false
    · simp [allDepsComplete, h]
    · have h2 : completed.getD dep false = true := by simpa using h
      simp [allDepsComplete, h2, ih]

/-- C4: for every DAG and every completed map, `GetReadyNodes` returns an id exactly when
it is a node of the DAG, is not completed, and all entries of its `DependsOn` are
completed; no id is returned twice. -/
theorem c4_getReadyNodes (d : DAG) (order : List String) (completed : GoMap Bool)
    (ho : IsIterOrder d.Nodes order) :
    (d.GetReadyNodes order completed).Nodup ∧
    ∀ id, id ∈ d.GetReadyNodes order completed ↔
      ∃ node, d.Nodes id = some node ∧ completed.getD id false = false ∧
        ∀ dep ∈ node.DependsOn, completed.getD dep false = true := by
  refine ⟨ho.1.filter _, fun id => ?_⟩
  unfold DAG.GetReadyNodes
  rw [List.mem_filter, ho.2 id]
  cases hn : d.Nodes id with
  | none => simp
  | some node =>
    by_cases hc : completed.getD id false = true
    · simp [hc]
    · have hc2 : completed.getD id false = false := by simpa using hc
      simp [hc2, allDepsComplete_iff]

/-- Witness of C4 on the diamond graph. -/
theorem c4_getReadyNodes_witness :
    IsIterOrder (builtOrEmpty diamond).Nodes ["n3", "n1", "n4", "n2"] ∧
    ((builtOrEmpty diamond).GetReadyNodes ["n3", "n1", "n4", "n2"]
        (GoMap.empty.set "n1" true)).Nodup ∧
    ∀ id, id ∈ (builtOrEmpty diamond).GetReadyNodes ["n3", "n1", "n4", "n2"]
        (GoMap.empty.set "n1" true) ↔
      ∃ node, (builtOrEmpty diamond).Nodes id = some node ∧
        (GoMap.empty.set "n1" true).getD id false = false ∧
        ∀ dep ∈ node.DependsOn, (GoMap.empty.set "n1" true).getD dep false = true :=
  have ho : IsIterOrder (builtOrEmpty diamond).Nodes ["n3", "n1", "n4", "n2"] :=
    (isIterOrder_nodes _ _ _ (builtOrEmpty_spec diamond diamond_valid).2 _).2 diamond_order
  ⟨ho, c4_getReadyNodes (builtOrEmpty diamond) ["n3", "n1", "n4", "n2"]
    (GoMap.empty.set "n1" true) ho⟩

/-- C5: whenever `NewDAG` returns a DAG, every node `n` of the workflow has a record in
it; `InDegrees[n]` is the number of workflow edges with target `n` and the length of
`n.DependsOn`; `n.DependsOn` lists the sources of the edges into `n` in edge-list order;
`n.Downstream` equals `OutEdges[n]` and lists the targets of the edges out of `n` in
edge-list order. -/
theorem c5_adjacency (w : Workflow) (order : List String) (fuel : Nat) (d : DAG)
    (h : NewDAG w order fuel = some (Outcome.ok d)) :
    ∀ n ∈ w.nodeIds, ∃ node, d.Nodes n = some node ∧
      d.InDegrees n = some ((w.Edges.filter (fun e => e.Target = n)).length : Int) ∧
      (w.Edges.filter (fun e => e.Target = n)).length = node.DependsOn.length ∧
      node.DependsOn = (w.Edges.filter (fun e => e.Target = n)).map (fun e => e.Source) ∧
      node.Downstream = (w.Edges.filter (fun e => e.Source = n)).map (fun e => e.Target) ∧
      d.OutEdges n = some node.Downstream := by
  intro n hn
  obtain ⟨_, hb⟩ := buildGraph_inv w d (newDAG_inv w order fuel d h).1
  obtain ⟨⟨node, hnode, _, hdep, hdown⟩, hin, hout⟩ := (hb n).1 hn
  refine ⟨node, hnode, ?_, ?_, hdep, hdown, ?_⟩
  · rw [hin]
    simp [sourcesInto]
  · rw [hdep]
    simp [sourcesInto]
  · rw [hout, hdown]

/-- Witness of C5 on the diamond workflow. -/
theorem c5_adjacency_witness :
    NewDAG diamond ["n1", "n2", "n3", "n4"] 4 = some (Outcome.ok (builtOrEmpty diamond)) ∧
    ∀ n ∈ diamond.nodeIds, ∃ node, (builtOrEmpty diamond).Nodes n = some node ∧
      (builtOrEmpty diamond).InDegrees n =
        some ((diamond.Edges.filter (fun e => e.Target = n)).length : Int) ∧
      (diamond.Edges.filter (fun e => e.Target = n)).length = node.DependsOn.length ∧
      node.DependsOn = (diamond.Edges.filter (fun e => e.Target = n)).map (fun e => e.Source) ∧
      node.Downstream = (diamond.Edges.filter (fun e => e.Source = n)).map (fun e => e.Target) ∧
      (builtOrEmpty diamond).OutEdges n = some node.Downstream :=
  ⟨rfl, c5_adjacency diamond ["n1", "n2", "n3", "n4"] 4 (builtOrEmpty diamond) rfl⟩

/-- C6 (as stated, refuted): for the workflow that lists the edge a → b twice, the DAG
built by `NewDAG` gives `b` indegree 2, lists `a` twice in `b.DependsOn` and lists `b`
twice in `a.Downstream`. -/
theorem c6_duplicate_edge_counted_twice :
    dupEdges.EdgesValid ∧
    NewDAG dupEdges ["a", "b"] 2 = some (Outcome.ok (builtOrEmpty dupEdges)) ∧
    (builtOrEmpty dupEdges).InDegrees "b" = some 2 ∧
    ((builtOrEmpty dupEdges).Nodes "b").map (fun n => n.DependsOn) = some ["a", "a"] ∧
    ((builtOrEmpty dupEdges).Nodes "a").map (fun n => n.Downstream) = some ["b", "b"] := by
  refine ⟨?_, rfl, rfl, rfl, rfl⟩
  unfold Workflow.EdgesValid
  decide

/-- C6 (amended): whenever `NewDAG` returns a DAG, every listed occurrence of an edge
counts: for nodes `s` and `t`, `s` occurs in `t.DependsOn` and `t` occurs in
`s.Downstream` as many times as the edge list holds an edge from `s` to `t`, and the
indegree of `t` is the number of listed edges with target `t`, which is at least that
number. -/
theorem c6_edges_counted_with_multiplicity (w : Workflow) (order : List String) (fuel : Nat)
    (d : DAG) (h : NewDAG w order fuel = some (Outcome.ok d)) (s t : String)
    (hs : s ∈ w.nodeIds) (ht : t ∈ w.nodeIds) :
    ∃ ns nt, d.Nodes s = some ns ∧ d.Nodes t = some nt ∧
      d.InDegrees t = some ((w.Edges.filter (fun e => e.Target = t)).length : Int) ∧
      nt.DependsOn.count s = (w.Edges.filter (fun e => e.Source = s ∧ e.Target = t)).length ∧
      ns.Downstream.count t = (w.Edges.filter (fun e => e.Source = s ∧ e.Target = t)).length ∧
      (w.Edges.filter (fun e => e.Source = s ∧ e.Target = t)).length ≤
        (w.Edges.filter (fun e => e.Target = t)).length := by
  obtain ⟨_, hb⟩ := buildGraph_inv w d (newDAG_inv w order fuel d h).1
  obtain ⟨⟨ns, hns, _, _, hsdown⟩, _, _⟩ := (hb s).1 hs
  obtain ⟨⟨nt, hnt, _, htdep, _⟩, htin, _⟩ := (hb t).1 ht
  have hcount1 : ∀ es : List EdgeConfig, (sourcesInto es t).count s =
      (es.filter (fun e => e.Source = s ∧ e.Target = t)).length := by
    intro es
    induction es with
    | nil => simp [sourcesInto]
    | cons e es ih =>
      unfold sourcesInto at ih ⊢
      by_cases h1 : e.Target = t <;> by_cases h2 : e.Source = s <;>
        simp [List.filter_cons, h1, h2, List.count_cons] at ih ⊢ <;> omega
  have hcount2 : ∀ es : List EdgeConfig, (targetsFrom es s).count t =
      (es.filter (fun e => e.Source = s ∧ e.Target = t)).length := by
    intro es
    induction es with
    | nil => simp [targetsFrom]
    | cons e es ih =>
      unfold targetsFrom at ih ⊢
      by_cases h1 : e.Target = t <;> by_cases h2 : e.Source = s <;>
        simp [List.filter_cons, h1, h2, List.count_cons] at ih ⊢ <;> omega
  have hlen : (sourcesInto w.Edges t).length =
      (w.Edges.filter (fun e => e.Target = t)).length := by
    simp [sourcesInto]
  refine ⟨ns, nt, hns, hnt, ?_, ?_, ?_, ?_⟩
  · rw [htin, hlen]
  · rw [htdep, hcount1]
  · rw [hsdown, hcount2]
  · rw [← hcount1 w.Edges, ← hlen]
    exact List.count_le_length _ _

/-- Witness of the amended C6 on the workflow with a doubled edge. -/
theorem c6_edges_counted_with_multiplicity_witness :
    NewDAG dupEdges ["a", "b"] 2 = some (Outcome.ok (builtOrEmpty dupEdges)) ∧
    "a" ∈ dupEdges.nodeIds ∧ "b" ∈ dupEdges.nodeIds ∧
    ∃ ns nt, (builtOrEmpty dupEdges).Nodes "a" = some ns ∧
      (builtOrEmpty dupEdges).Nodes "b" = some nt ∧
      (builtOrEmpty dupEdges).InDegrees "b" =
        some ((dupEdges.Edges.filter (fun e => e.Target = "b")).length : Int) ∧
      nt.DependsOn.count "a" =
        (dupEdges.Edges.filter (fun e => e.Source = "a" ∧ e.Target = "b")).length ∧
      ns.Downstream.count "b" =
        (dupEdges.Edges.filter (fun e => e.Source = "a" ∧ e.Target = "b")).length ∧
      (dupEdges.Edges.filter (fun e => e.Source = "a" ∧ e.Target = "b")).length ≤
        (dupEdges.Edges.filter (fun e => e.Target = "b")).length :=
  ⟨rfl, by decide, by decide,
    c6_edges_counted_with_multiplicity dupEdges ["a", "b"] 2 (builtOrEmpty dupEdges) rfl
      "a" "b" (by decide) (by decide)⟩

theorem relax_queue_append (nbrs : List String) :
    ∀ (inDegree : GoMap Int) (queue : List String),
      ∃ added, (relax nbrs inDegree queue).2 = queue ++ added := by
  induction nbrs with
  | nil => intro inDegree queue; exact ⟨[], by simp [relax]⟩
  | cons w rest ih =>
    intro inDegree queue
    rw [relax_cons]
    by_cases hz : inDegree.getD w 0 - 1 = 0
    · obtain ⟨added, ha⟩ := ih (inDegree.set w (inDegree.getD w 0 - 1)) (queue ++ [w])
      exact ⟨w :: added, by rw [if_pos hz, ha]; simp⟩
    · obtain ⟨added, ha⟩ := ih (inDegree.set w (inDegree.getD w 0 - 1)) queue
      exact ⟨added, by rw [if_neg hz, ha]⟩

theorem topoLoop_extends (d : DAG) :
    ∀ (fuel : Nat) (queue : List String) (inDegree : GoMap Int) (result r : List String),
      topoLoop d fuel queue inDegree result = some r → ∃ tail, r = result ++ queue ++ tail := by
  intro fuel
  induction fuel with
  | zero => intro queue inDegree result r h; simp [topoLoop] at h
  | succ fuel ih =>
    intro queue inDegree result r h
    cases queue with
    | nil =>
      simp only [topoLoop, Option.some.injEq] at h
      exact ⟨[], by simp [h]⟩
    | cons n queue =>
      simp only [topoLoop] at h
      obtain ⟨tail, ht⟩ := ih _ _ _ _ h
      obtain ⟨added, ha⟩ := relax_queue_append (d.OutEdges.getD n []) inDegree queue
      rw [ha] at ht
      exact ⟨added ++ tail, by rw [ht]; simp⟩

/-- C7 (as stated, refuted): on the graph of two isolated nodes a and b both iteration
orders are possible, and `TopologicalSort` returns b before a under one of them and a
before b under the other. -/
theorem c7_order_follows_map_iteration :
    IsIterOrder (builtOrEmpty twoIsolated).InDegrees ["b", "a"] ∧
    IsIterOrder (builtOrEmpty twoIsolated).InDegrees ["a", "b"] ∧
    NewDAG twoIsolated ["a", "b"] 2 = some (Outcome.ok (builtOrEmpty twoIsolated)) ∧
    (builtOrEmpty twoIsolated).TopologicalSort ["b", "a"] 3 = some ["b", "a"] ∧
    (builtOrEmpty twoIsolated).TopologicalSort ["a", "b"] 3 = some ["a", "b"] := by
  have hv : twoIsolated.EdgesValid := by
    unfold Workflow.EdgesValid
    decide
  have hb := (builtOrEmpty_spec twoIsolated hv).2
  refine ⟨?_, ?_, rfl, rfl, rfl⟩
  · refine (isIterOrder_inDegrees _ _ _ hb _).2 ⟨by decide, fun k => ?_⟩
    simp only [twoIsolated, Workflow.nodeIds, List.map, List.mem_cons, List.mem_singleton,
      List.not_mem_nil, or_false]
    tauto
  · refine (isIterOrder_inDegrees _ _ _ hb _).2 ⟨by decide, fun k => ?_⟩
    simp only [twoIsolated, Workflow.nodeIds, List.map, List.mem_cons, List.mem_singleton,
      List.not_mem_nil, or_false]

/-- C7 (amended): for a valid acyclic workflow, `TopologicalSort` returns a list that
starts with the zero-indegree nodes in the order in which the iteration over the indegree
map yields them; the result is a function of the DAG and of that iteration order. -/
theorem c7_seeds_in_iteration_order (w : Workflow) (order1 order2 : List String)
    (fuel1 fuel2 : Nat) (hv : w.EdgesValid) (hac : ¬ w.HasCycle)
    (ho1 : w.IsNodeOrder order1) (hf1 : w.Nodes.length ≤ fuel1)
    (ho2 : w.IsNodeOrder order2) (hf2 : w.Nodes.length < fuel2) :
    ∃ d r tail, NewDAG w order1 fuel1 = some (Outcome.ok d) ∧
      d.TopologicalSort order2 fuel2 = some r ∧
      r = order2.filter (fun nodeID => d.InDegrees nodeID = some 0) ++ tail := by
  obtain ⟨d, hd, hb⟩ := newDAG_ok w order1 fuel1 hv hac ho1 hf1
  have hio : IsIterOrder d.InDegrees order2 :=
    (isIterOrder_inDegrees _ _ d hb order2).2 ho2
  obtain ⟨r, hr, _⟩ := topologicalSort_spec w d hv hac hb order2 hio fuel2
    (by simpa [Workflow.nodeIds] using hf2)
  obtain ⟨tail, ht⟩ := topoLoop_extends d fuel2 _ _ _ r hr
  exact ⟨d, r, tail, hd, hr, by simpa using ht⟩

/-- Witness of the amended C7 on a workflow with two zero-indegree nodes: c depends on b
and a, and the iteration over the indegree map yields b, c, a.  The seeds are b and a in
that order, not in ascending id order, and the sort returns b, a, c. -/
theorem c7_seeds_in_iteration_order_witness :
    reversedDeps.EdgesValid ∧ ¬ reversedDeps.HasCycle ∧
    reversedDeps.IsNodeOrder ["b", "c", "a"] ∧
    NewDAG reversedDeps ["b", "c", "a"] 3 = some (Outcome.ok (builtOrEmpty reversedDeps)) ∧
    ["b", "c", "a"].filter
        (fun nodeID => (builtOrEmpty reversedDeps).InDegrees nodeID = some 0) = ["b", "a"] ∧
    (builtOrEmpty reversedDeps).TopologicalSort ["b", "c", "a"] 4 = some ["b", "a", "c"] ∧
    ∃ d r tail, NewDAG reversedDeps ["b", "c", "a"] 3 = some (Outcome.ok d) ∧
      d.TopologicalSort ["b", "c", "a"] 4 = some r ∧
      r = ["b", "c", "a"].filter (fun nodeID => d.InDegrees nodeID = some 0) ++ tail :=
  have hv : reversedDeps.EdgesValid := by
    unfold Workflow.EdgesValid
    decide
  have hac : ¬ reversedDeps.HasCycle :=
    no_cycle_of_rank reversedDeps (fun id => if id = "c" then 1 else 0) (by decide)
  have ho : reversedDeps.IsNodeOrder ["b", "c", "a"] := by
    refine ⟨by decide, fun k => ?_⟩
    simp only [reversedDeps, Workflow.nodeIds, List.map, List.mem_cons, List.mem_singleton,
      List.not_mem_nil, or_false]
    tauto
  ⟨hv, hac, ho, rfl, by decide, rfl,
    c7_seeds_in_iteration_order reversedDeps ["b", "c", "a"] ["b", "c", "a"] 3 4 hv hac ho
      (by decide) ho (by decide)⟩

/-! ## Input aggregation -/

theorem combineInputs_eq (inputs : List String) :
    ∀ (acc : String) (i : Nat),
      combineInputs acc i inputs = acc ++ concatStrings (inputLines i inputs) := by
  induction inputs with
  | nil => intro acc i; simp [combineInputs, inputLines, concatStrings]
  | cons x rest ih =>
    intro acc i
    simp only [combineInputs, inputLines, concatStrings, ih, String.append_assoc]

theorem foldl_readInput (results : GoMap NodeResult) (deps : List String)
    (h : ∀ dep ∈ deps, ∃ r, results dep = some r) :
    ∀ acc, deps.foldl (readInput results) acc = acc ++ deps.map (outputOf results) := by
  induction deps with
  | nil => intro acc; simp
  | cons dep rest ih =>
    intro acc
    obtain ⟨r, hr⟩ := h dep (List.mem_cons_self _ _)
    rw [List.foldl_cons, ih (fun x hx => h x (List.mem_cons_of_mem _ hx))]
    simp [readInput, outputOf, hr]

theorem buildInput_eq (d : DAG) (results : GoMap NodeResult) (nodeID : String) (node : Node)
    (hn : d.Nodes nodeID = some node)
    (hrec : ∀ dep ∈ node.DependsOn, ∃ r, results dep = some r) :
    buildInput d results nodeID =
      Outcome.ok (concatStrings (inputLines 0 (node.DependsOn.map (outputOf results)))) := by
  simp only [buildInput, hn, foldl_readInput results node.DependsOn hrec [], List.nil_append,
    combineInputs_eq]
  simp

/-- C8 (as stated, refuted): node c depends on b and a, the edge from b listed first, and
both have a recorded result; `buildInput` puts the output of b on line 1 and that of a on
line 2, while the ascending id order asks for a first. -/
theorem c8_input_follows_edge_order :
    ((builtOrEmpty reversedDeps).Nodes "c").map (fun n => n.DependsOn) = some ["b", "a"] ∧
    (∀ dep ∈ ["b", "a"], ∃ r, reversedResults dep = some r) ∧
    buildInput (builtOrEmpty reversedDeps) reversedResults "c" =
      Outcome.ok "Input 1: y\nInput 2: x\n" ∧
    specInput reversedResults ["b", "a"] = "Input 1: x\nInput 2: y\n" ∧
    buildInput (builtOrEmpty reversedDeps) reversedResults "c" ≠
      Outcome.ok (specInput reversedResults ["b", "a"]) := by
  refine ⟨rfl, ?_, rfl, rfl, ?_⟩
  · intro dep hdep
    simp only [List.mem_cons, List.mem_singleton, List.not_mem_nil, or_false] at hdep
    rcases hdep with rfl | rfl
    · exact ⟨_, rfl⟩
    · exact ⟨_, rfl⟩
  · have h1 : buildInput (builtOrEmpty reversedDeps) reversedResults "c" =
        Outcome.ok "Input 1: y\nInput 2: x\n" := rfl
    have h2 : specInput reversedResults ["b", "a"] = "Input 1: x\nInput 2: y\n" := rfl
    rw [h1, h2]
    decide

/-- C8 (amended): for a node that has dependencies, all with a recorded result,
`buildInput` returns the concatenation of the lines "Input i: <output>\n" (i from 1) over
the node's `DependsOn` list in its stored order, which is the order of the workflow's edge
list; this is the ascending id order when that list is ascending. -/
theorem c8_input_in_dependsOn_order (d : DAG) (results : GoMap NodeResult) (nodeID : String)
    (node : Node) (hn : d.Nodes nodeID = some node) (_hdeps : node.DependsOn ≠ [])
    (hrec : ∀ dep ∈ node.DependsOn, ∃ r, results dep = some r) :
    buildInput d results nodeID =
      Outcome.ok (concatStrings (inputLines 0 (node.DependsOn.map (outputOf results)))) ∧
    (node.DependsOn.Sorted idLe →
      buildInput d results nodeID = Outcome.ok (specInput results node.DependsOn)) := by
  have h := buildInput_eq d results nodeID node hn hrec
  refine ⟨h, fun hs => ?_⟩
  rw [h, specInput, List.Sorted.insertionSort_eq hs]

/-- Witness of the amended C8 on node n4 of the diamond. -/
theorem c8_input_in_dependsOn_order_witness :
    (builtOrEmpty diamond).Nodes "n4" =
      some { ID := "n4", AgentID := "a4", DependsOn := ["n2", "n3"], Downstream := [] } ∧
    (∀ dep ∈ ["n2", "n3"], ∃ r, diamondResults dep = some r) ∧
    buildInput (builtOrEmpty diamond) diamondResults "n4" =
      Outcome.ok (concatStrings (inputLines 0 (["n2", "n3"].map (outputOf diamondResults)))) ∧
    (["n2", "n3"].Sorted idLe →
      buildInput (builtOrEmpty diamond) diamondResults "n4" =
        Outcome.ok (specInput diamondResults ["n2", "n3"])) :=
  have hrec : ∀ dep ∈ ["n2", "n3"], ∃ r, diamondResults dep = some r := by
    intro dep hdep
    simp only [List.mem_cons, List.mem_singleton, List.not_mem_nil, or_false] at hdep
    rcases hdep with rfl | rfl
    · exact ⟨_, rfl⟩
    · exact ⟨_, rfl⟩
  ⟨rfl, hrec,
    c8_input_in_dependsOn_order (builtOrEmpty diamond) diamondResults "n4"
      { ID := "n4", AgentID := "a4", DependsOn := ["n2", "n3"], Downstream := [] } rfl
      (by decide) hrec⟩

theorem buildInput_entry (d : DAG) (results : GoMap NodeResult) (nodeID : String)
    (node : Node) (hn : d.Nodes nodeID = some node) (hdeps : node.DependsOn = []) :
    buildInput d results nodeID = Outcome.ok "" := by
  simp [buildInput, hn, hdeps, combineInputs]

theorem seedResults_output (d : DAG) (input : InitialInput) (order : List String) :
    ∀ (results : GoMap NodeResult) (n : String) (r : NodeResult),
      seedResults d input order results n = some r → results n = some r ∨ r.Output = "" := by
  induction order with
  | nil => intro results n r h; exact Or.inl h
  | cons k rest ih =>
    intro results n r h
    simp only [seedResults] at h
    cases hk : d.Nodes k with
    | none =>
      rw [hk] at h
      exact ih results n r h
    | some node =>
      rw [hk] at h
      by_cases hlen : node.DependsOn.length = 0
      · simp only [hlen, if_true] at h
        rcases ih _ n r h with h2 | h2
        · by_cases hnk : n = k
          · subst hnk
            rw [GoMap.set_same] at h2
            cases h2
            exact Or.inr rfl
          · rw [GoMap.set_other _ _ _ _ hnk] at h2
            exact Or.inl h2
        · exact Or.inr h2
      · simp only [hlen, if_false] at h
        exact ih results n r h

/-- C9 (the code at the failing input): for the workflow with the single entry node n1,
whatever initial input is handed to `Run`, the seed result recorded for n1 has the empty
output, `buildInput` returns the empty string, and the goroutine of n1 reaches the
Executor call with the empty string as input: neither the JSON encoding of the initial
input nor the empty JSON object. -/
theorem c9_entry_input_is_empty (input : InitialInput) :
    ((builtOrEmpty oneNode).Nodes "n1").map (fun n => n.DependsOn) = some [] ∧
    (runStart (builtOrEmpty oneNode) ["n1"] ["n1"] input).results "n1" =
      some (sampleResult "n1" "") ∧
    buildInput (builtOrEmpty oneNode)
      (runStart (builtOrEmpty oneNode) ["n1"] ["n1"] input).results "n1" = Outcome.ok "" ∧
    (runSteps (builtOrEmpty oneNode) (runStart (builtOrEmpty oneNode) ["n1"] ["n1"] input)
        [Label.worker 0 envOk, Label.worker 0 envOk, Label.worker 0 envOk]).map
      (fun s => s.workers) =
      some [{ nodeID := "n1"
              pc := PC.call { SystemPrompt := "sys", provider := some "p", model := some "m" }
                10 ""
              inWaitGroup := true }] ∧
    ("" : String) ≠ "\x7b\x7d" := by
  refine ⟨rfl, rfl, rfl, rfl, by decide⟩

/-! ## Scheduler invariant -/

theorem runStart_entry (d : DAG) (order1 order2 : List String) (input : InitialInput) :
    ∀ w ∈ (runStart d order1 order2 input).workers,
      w.pc = PC.start ∧ ∀ node, d.Nodes w.nodeID = some node → node.DependsOn = [] := by
  intro w hw
  simp only [runStart, List.mem_map] at hw
  obtain ⟨n, hn, rfl⟩ := hw
  refine ⟨rfl, fun node hnode => ?_⟩
  unfold DAG.GetReadyNodes at hn
  rw [List.mem_filter] at hn
  have h2 := hn.2
  simp only [hnode] at h2
  have hc : ¬ (GoMap.empty : GoMap Bool).getD n false = true := by
    simp [GoMap.getD, GoMap.empty]
  simp only [hc, if_false] at h2
  have hall := (allDepsComplete_iff _ _).1 h2
  cases hdeps : node.DependsOn with
  | nil => rfl
  | cons dep rest =>
    have := hall dep (by rw [hdeps]; exact List.mem_cons_self _ _)
    simp [GoMap.getD, GoMap.empty] at this

/-- C11 (the code at the failing input): on the diamond, with the Executor of n2 failing
and n3 succeeding afterwards, n2 ends in `markFailed` (its result carries the error),
and still a goroutine is started for n4, which lists n2 in `DependsOn`, and reaches the
return of its Executor call. -/
theorem c11_child_of_failed_parent_runs :
    ((builtOrEmpty diamond).Nodes "n4").map (fun n => n.DependsOn) = some ["n2", "n3"] ∧
    (runSteps (builtOrEmpty diamond) diamondStart failedParentSchedule).map
      (fun s => (s.results "n2").map (fun r => r.Error)) = some (some (some "boom")) ∧
    (runSteps (builtOrEmpty diamond) diamondStart failedParentSchedule).map
      (fun s => s.events.map (fun e => (e.Type_, e.NodeID))) =
      some [("step_complete", "n1"), ("node_failed", "n2"), ("step_complete", "n3")] ∧
    (runSteps (builtOrEmpty diamond) diamondStart failedParentSchedule).map
      (fun s => s.workers.map (fun w => w.nodeID)) = some ["n1", "n2", "n3", "n4"] ∧
    (runSteps (builtOrEmpty diamond) diamondStart failedParentSchedule).map
      (fun s => (s.workers.get? 3).map (fun w => w.pc)) =
      some (some (PC.emit 10 10
        { StepID := "s1", Type_ := "think", Input := "Input 1: \nInput 2: out\n",
          Output := "out", Prompt := "sys", Tokens := 7, LatencyMs := 3, Timestamp := 10 })) := by
  refine ⟨rfl, rfl, rfl, rfl, rfl⟩

/-- C12 (the code at the failing input): on the single-node workflow whose agent lookup
fails, the node ends in `markFailed`, `Run` returns the nil error, and the status the
`Execute` handler derives from it is "success". -/
theorem c12_run_returns_nil_after_failure :
    (runSteps (builtOrEmpty oneNode) oneNodeStart failingRunSchedule).map
      (fun s => (s.results "n1").map (fun r => r.Error)) =
      some (some (some "agent not found")) ∧
    (runSteps (builtOrEmpty oneNode) oneNodeStart failingRunSchedule).map
      (fun s => s.events.map (fun e => (e.Type_, e.NodeID))) = some [("node_failed", "n1")] ∧
    (runSteps (builtOrEmpty oneNode) oneNodeStart failingRunSchedule).map runError =
      some (some none) ∧
    (runSteps (builtOrEmpty oneNode) oneNodeStart failingRunSchedule).map
      (fun s => (runError s).map executeStatus) = some (some "success") := by
  refine ⟨rfl, rfl, rfl, rfl⟩

/-- C13 (the code at the failing input): on the diamond, when n2 and n3 have both stored
their results before either walks its downstream list, each of them finds the
dependencies of n4 completed and n4 not completed, so two goroutines are started for n4
and both return from the Executor call: two `step_complete` events are sent for n4. -/
theorem c13_double_dispatch :
    (runSteps (builtOrEmpty diamond) diamondStart doubleDispatchSchedule).map
      (fun s => s.workers.map (fun w => w.nodeID)) = some ["n1", "n2", "n3", "n4", "n4"] ∧
    (runSteps (builtOrEmpty diamond) diamondStart doubleDispatchSchedule).map
      (fun s => s.events.map (fun e => (e.Type_, e.NodeID))) =
      some [("step_complete", "n1"), ("step_complete", "n2"), ("step_complete", "n3"),
        ("step_complete", "n4"), ("step_complete", "n4")] ∧
    (runSteps (builtOrEmpty diamond) diamondStart doubleDispatchSchedule).map
      (fun s => s.panicked) = some false := by
  refine ⟨rfl, rfl, rfl⟩

/-- C14 (the code at the failing input): when the agent record has no string under
`provider`, the goroutine panics at the type assertion: no result is recorded beyond the
seed, no event is sent.  The same happens at the assertion on `model`.  With a provider
that has no registered Executor the node does end in `markFailed`. -/
theorem c14_missing_provider_panics :
    (runSteps (builtOrEmpty oneNode) oneNodeStart (workerSteps 2 0 envNoProvider)).map
      (fun s => (s.panicked, s.events, s.results "n1", s.completed.getD "n1" false)) =
      some (true, [], some (sampleResult "n1" ""), false) ∧
    (runSteps (builtOrEmpty oneNode) oneNodeStart (workerSteps 3 0 envNoModel)).map
      (fun s => (s.panicked, s.events, s.results "n1", s.completed.getD "n1" false)) =
      some (true, [], some (sampleResult "n1" ""), false) ∧
    (runSteps (builtOrEmpty oneNode) oneNodeStart (workerSteps 4 0 envUnregistered)).map
      (fun s => (s.panicked, s.events.map (fun e => (e.Type_, e.NodeID)),
        (s.results "n1").map (fun r => r.Error), s.workers.map (fun w => w.pc))) =
      some (false, [("node_failed", "n1")], some (some "no executor for provider: p"),
        [PC.finished]) := by
  refine ⟨rfl, rfl, rfl⟩

/-! ## Snapshot builder -/

theorem wrapInt64_add_left (a b : Int) : wrapInt64 (wrapInt64 a + b) = wrapInt64 (a + b) := by
  unfold wrapInt64
  omega

theorem wrapInt64_of_fits (x : Int) (h1 : -(2 : Int) ^ 63 ≤ x) (h2 : x < (2 : Int) ^ 63) :
    wrapInt64 x = x := by
  unfold wrapInt64
  omega

theorem wrapInt64_idem (x : Int) : wrapInt64 (wrapInt64 x) = wrapInt64 x := by
  unfold wrapInt64
  omega

theorem addSteps_spec (steps : List Step) :
    ∀ totals : Int × Int, wrapInt64 totals.1 = totals.1 → wrapInt64 totals.2 = totals.2 →
      (addSteps steps totals).1 = wrapInt64 (totals.1 + sumTokens steps) ∧
      (addSteps steps totals).2 = wrapInt64 (totals.2 + sumLatency steps) := by
  induction steps with
  | nil =>
    intro totals h1 h2
    simp [addSteps, sumTokens, sumLatency, h1, h2]
  | cons st rest ih =>
    intro totals h1 h2
    obtain ⟨ih1, ih2⟩ := ih (addInt64 totals.1 st.Tokens, addInt64 totals.2 st.LatencyMs)
      (wrapInt64_idem _) (wrapInt64_idem _)
    simp only [addSteps]
    rw [ih1, ih2]
    simp only [addInt64, sumTokens, sumLatency, List.map_cons, List.sum_cons,
      wrapInt64_add_left]
    constructor <;> congr 1 <;> ring

theorem allSteps_append (xs ys : List NodeSnapshot) :
    allSteps (xs ++ ys) = allSteps xs ++ allSteps ys := by
  induction xs with
  | nil => rfl
  | cons x rest ih => simp [allSteps, ih]

theorem sumTokens_append (xs ys : List Step) :
    sumTokens (xs ++ ys) = sumTokens xs + sumTokens ys := by
  simp [sumTokens]

theorem sumLatency_append (xs ys : List Step) :
    sumLatency (xs ++ ys) = sumLatency xs + sumLatency ys := by
  simp [sumLatency]

theorem snapshotLoop_spec (results : GoMap NodeResult) (order : List String) :
    ∀ (nodes : List NodeSnapshot) (totals : Int × Int)
      (res : List NodeSnapshot × Int × Int),
      snapshotLoop results order nodes totals = Outcome.ok res →
      wrapInt64 totals.1 = totals.1 → wrapInt64 totals.2 = totals.2 →
      ∃ added, res.1 = nodes ++ added ∧
        added.map (fun ns => ns.AgentName) =
          order.filter (fun k => (results k).isSome) ∧
        (∀ ns ∈ added, ∃ r, results ns.AgentName = some r ∧ ns.Steps = r.Steps ∧
          ns.FinalOutput = r.Output ∧ uuidParse ns.AgentName = some ns.NodeID) ∧
        res.2.1 = wrapInt64 (totals.1 + sumTokens (allSteps added)) ∧
        res.2.2 = wrapInt64 (totals.2 + sumLatency (allSteps added)) := by
  induction order with
  | nil =>
    intro nodes totals res h h1 h2
    simp only [snapshotLoop, Outcome.ok.injEq] at h
    subst h
    exact ⟨[], by simp, by simp, by simp, by simp [allSteps, sumTokens, h1],
      by simp [allSteps, sumLatency, h2]⟩
  | cons k rest ih =>
    intro nodes totals res h h1 h2
    simp only [snapshotLoop] at h
    cases hk : results k with
    | none =>
      rw [hk] at h
      obtain ⟨added, ha, hn, hall, ht, hd⟩ := ih nodes totals res h h1 h2
      exact ⟨added, ha, by simp [List.filter_cons, hk, hn], hall, ht, hd⟩
    | some r =>
      rw [hk] at h
      cases hu : uuidParse k with
      | none =>
        rw [hu] at h
        cases h
      | some id =>
        rw [hu] at h
        simp only at h
        obtain ⟨hs1, hs2⟩ := addSteps_spec r.Steps totals h1 h2
        obtain ⟨added, ha, hn, hall, ht, hd⟩ := ih _ _ res h
          (by rw [hs1]; exact wrapInt64_idem _) (by rw [hs2]; exact wrapInt64_idem _)
        refine ⟨{ NodeID := id, AgentName := k, Steps := r.Steps, FinalOutput := r.Output } ::
          added, by rw [ha]; simp, by simp [List.filter_cons, hk, hn], ?_, ?_, ?_⟩
        · intro ns hns
          rcases List.mem_cons.1 hns with rfl | hns
          · exact ⟨r, hk, rfl, rfl, hu⟩
          · exact hall ns hns
        · rw [ht, hs1, wrapInt64_add_left]
          simp only [allSteps, sumTokens_append]
          congr 1
          ring
        · rw [hd, hs2, wrapInt64_add_left]
          simp only [allSteps, sumLatency_append]
          congr 1
          ring

theorem buildSnapshot_spec (workflowID executionID : UUID) (results : GoMap NodeResult)
    (order : List String) (edges : List EdgeConfig) (snap : Snapshot)
    (h : buildSnapshot workflowID executionID results order edges = Outcome.ok snap) :
    snap.Edges = edges ∧
    snap.Nodes.map (fun ns => ns.AgentName) = order.filter (fun k => (results k).isSome) ∧
    (∀ ns ∈ snap.Nodes, ∃ r, results ns.AgentName = some r ∧ ns.Steps = r.Steps ∧
      ns.FinalOutput = r.Output ∧ uuidParse ns.AgentName = some ns.NodeID) ∧
    snap.ExecutionMeta.TotalTokens = wrapInt64 (sumTokens (allSteps snap.Nodes)) ∧
    snap.ExecutionMeta.DurationMs = wrapInt64 (sumLatency (allSteps snap.Nodes)) := by
  unfold buildSnapshot at h
  cases hl : snapshotLoop results order [] (0, 0) with
  | ok res =>
    rw [hl] at h
    obtain ⟨nodes, tok, dur⟩ := res
    simp only [Outcome.ok.injEq] at h
    subst h
    obtain ⟨added, ha, hn, hall, ht, hd⟩ := snapshotLoop_spec results order [] (0, 0) _ hl
      (by decide) (by decide)
    simp only [List.nil_append] at ha
    subst ha
    exact ⟨rfl, hn, hall, by simpa using ht, by simpa using hd⟩
  | err msg => rw [hl] at h; cases h
  | fault => rw [hl] at h; cases h

theorem snapshotLoop_fault (results : GoMap NodeResult) (order : List String)
    (h : ∃ k ∈ order, (results k).isSome = true ∧ uuidParse k = none) :
    ∀ (nodes : List NodeSnapshot) (totals : Int × Int),
      snapshotLoop results order nodes totals = Outcome.fault := by
  induction order with
  | nil => simp at h
  | cons k rest ih =>
    intro nodes totals
    simp only [snapshotLoop]
    obtain ⟨x, hx, hsome, hparse⟩ := h
    cases hk : results k with
    | none =>
      rcases List.mem_cons.1 hx with rfl | hx
      · rw [hk] at hsome
        cases hsome
      · exact ih ⟨x, hx, hsome, hparse⟩ nodes totals
    | some r =>
      cases hu : uuidParse k with
      | none => rfl
      | some id =>
        rcases List.mem_cons.1 hx with rfl | hx
        · rw [hu] at hparse
          cases hparse
        · exact ih ⟨x, hx, hsome, hparse⟩ _ _

theorem overflowResults_order : IsIterOrder overflowResults [idA, idB] := by
  refine ⟨by decide, fun k => ?_⟩
  by_cases hb : k = idB
  · subst hb
    simp [overflowResults, GoMap.set]
  · by_cases ha : k = idA
    · subst ha
      simp [overflowResults, GoMap.set, hb]
    · simp [overflowResults, GoMap.set, GoMap.empty, ha, hb]

/-- C17 (as stated, refuted): for a results map whose two steps carry the token counts
2^63 - 1 and 1, `buildSnapshot` returns a snapshot whose steps have these token counts,
so that their sum is 2^63, while its `total_tokens` is -2^63: the addition in Go `int`
has wrapped. -/
theorem c17_total_tokens_wraps :
    IsIterOrder overflowResults [idA, idB] ∧
    (buildSnapshot [] [] overflowResults [idA, idB] chainUuid.Edges).toOption.map
      (fun snap => (allSteps snap.Nodes).map (fun st => st.Tokens)) =
      some [9223372036854775807, 1] ∧
    (buildSnapshot [] [] overflowResults [idA, idB] chainUuid.Edges).toOption.map
      (fun snap => sumTokens (allSteps snap.Nodes)) = some 9223372036854775808 ∧
    (buildSnapshot [] [] overflowResults [idA, idB] chainUuid.Edges).toOption.map
      (fun snap => snap.ExecutionMeta.TotalTokens) = some (-9223372036854775808) := by
  refine ⟨overflowResults_order, ?_, ?_, ?_⟩
  · decide
  · decide
  · decide

/-- C17 (amended): whenever `buildSnapshot` returns a snapshot, its `total_tokens` is the
sum of `tokens` over all steps of all node snapshots in it, taken in Go `int` arithmetic:
the 64-bit wrap of the exact sum, hence the exact sum whenever that fits in 64 bits. -/
theorem c17_total_tokens (workflowID executionID : UUID) (results : GoMap NodeResult)
    (order : List String) (edges : List EdgeConfig) (snap : Snapshot)
    (h : buildSnapshot workflowID executionID results order edges = Outcome.ok snap) :
    snap.ExecutionMeta.TotalTokens = wrapInt64 (sumTokens (allSteps snap.Nodes)) ∧
    (-(2 : Int) ^ 63 ≤ sumTokens (allSteps snap.Nodes) →
      sumTokens (allSteps snap.Nodes) < (2 : Int) ^ 63 →
      snap.ExecutionMeta.TotalTokens = sumTokens (allSteps snap.Nodes)) := by
  have hs := (buildSnapshot_spec workflowID executionID results order edges snap h).2.2.2.1
  exact ⟨hs, fun h1 h2 => by rw [hs, wrapInt64_of_fits _ h1 h2]⟩

/-- Witness of the amended C17 on the results of the chain. -/
theorem c17_total_tokens_witness :
    ∃ snap, buildSnapshot [] [] chainResults [idA, idB] chainUuid.Edges = Outcome.ok snap ∧
      sumTokens (allSteps snap.Nodes) = 14 ∧
      snap.ExecutionMeta.TotalTokens = wrapInt64 (sumTokens (allSteps snap.Nodes)) ∧
      (-(2 : Int) ^ 63 ≤ sumTokens (allSteps snap.Nodes) →
        sumTokens (allSteps snap.Nodes) < (2 : Int) ^ 63 →
        snap.ExecutionMeta.TotalTokens = sumTokens (allSteps snap.Nodes)) :=
  ⟨_, rfl, rfl, c17_total_tokens [] [] chainResults [idA, idB] chainUuid.Edges _ rfl⟩

/-- C18 (as stated, refuted): for the results of the chain, whose two steps both carry
timestamp 10 and latency 3, `buildSnapshot` returns `duration_ms` 6, the sum of the
latencies, while the largest `timestamp + latency_ms` minus the smallest `timestamp`
is 3. -/
theorem c18_duration_is_latency_sum :
    (buildSnapshot [] [] chainResults [idA, idB] chainUuid.Edges).toOption.map
      (fun snap => snap.ExecutionMeta.DurationMs) = some 6 ∧
    (buildSnapshot [] [] chainResults [idA, idB] chainUuid.Edges).toOption.map
      (fun snap => (allSteps snap.Nodes).map (fun st => (st.Timestamp, st.LatencyMs))) =
      some [(10, 3), (10, 3)] ∧
    (buildSnapshot [] [] chainResults [idA, idB] chainUuid.Edges).toOption.map
      (fun snap => specDuration (allSteps snap.Nodes)) = some 3 := by
  refine ⟨rfl, rfl, rfl⟩

/-- C18 (amended): whenever `buildSnapshot` returns a snapshot, its `duration_ms` is the
sum of `latency_ms` over all steps of all node snapshots in it, taken in `int64`
arithmetic: the 64-bit wrap of the exact sum, hence the exact sum whenever that fits. -/
theorem c18_duration_sums_latencies (workflowID executionID : UUID)
    (results : GoMap NodeResult) (order : List String) (edges : List EdgeConfig)
    (snap : Snapshot)
    (h : buildSnapshot workflowID executionID results order edges = Outcome.ok snap) :
    snap.ExecutionMeta.DurationMs = wrapInt64 (sumLatency (allSteps snap.Nodes)) ∧
    (-(2 : Int) ^ 63 ≤ sumLatency (allSteps snap.Nodes) →
      sumLatency (allSteps snap.Nodes) < (2 : Int) ^ 63 →
      snap.ExecutionMeta.DurationMs = sumLatency (allSteps snap.Nodes)) := by
  have hs := (buildSnapshot_spec workflowID executionID results order edges snap h).2.2.2.2
  exact ⟨hs, fun h1 h2 => by rw [hs, wrapInt64_of_fits _ h1 h2]⟩

/-- Witness of the amended C18 on the results of the chain. -/
theorem c18_duration_sums_latencies_witness :
    ∃ snap, buildSnapshot [] [] chainResults [idA, idB] chainUuid.Edges = Outcome.ok snap ∧
      sumLatency (allSteps snap.Nodes) = 6 ∧
      snap.ExecutionMeta.DurationMs = wrapInt64 (sumLatency (allSteps snap.Nodes)) ∧
      (-(2 : Int) ^ 63 ≤ sumLatency (allSteps snap.Nodes) →
        sumLatency (allSteps snap.Nodes) < (2 : Int) ^ 63 →
        snap.ExecutionMeta.DurationMs = sumLatency (allSteps snap.Nodes)) :=
  ⟨_, rfl, rfl, c18_duration_sums_latencies [] [] chainResults [idA, idB] chainUuid.Edges _ rfl⟩

theorem chainResults_order_ba : IsIterOrder chainResults [idB, idA] := by
  refine ⟨by decide, fun k => ?_⟩
  by_cases hb : k = idB
  · subst hb
    simp [chainResults, GoMap.set]
  · by_cases ha : k = idA
    · subst ha
      simp [chainResults, GoMap.set, hb]
    · simp [chainResults, GoMap.set, GoMap.empty, ha, hb]

theorem chainResults_order_ab : IsIterOrder chainResults [idA, idB] := by
  refine ⟨by decide, fun k => ?_⟩
  by_cases hb : k = idB
  · subst hb
    simp [chainResults, GoMap.set]
  · by_cases ha : k = idA
    · subst ha
      simp [chainResults, GoMap.set, hb]
    · simp [chainResults, GoMap.set, GoMap.empty, ha, hb]

/-- C19 (as stated, refuted): a run of the chain idA → idB in which both nodes succeed
leaves a results map with the two keys; both iteration orders of that map are possible,
and `buildSnapshot` lists the node snapshot of idB before that of idA under one of them
and after it under the other. -/
theorem c19_snapshot_order_follows_map_iteration :
    (runSteps (builtOrEmpty chainUuid) (runStart (builtOrEmpty chainUuid) [idA, idB] [idA, idB] none)
        chainSchedule).map (fun s => (s.results idA, s.results idB, s.returned)) =
      some (chainResults idA, chainResults idB, true) ∧
    chainUuid.Edges = [⟨"e1", idA, idB⟩] ∧
    IsIterOrder chainResults [idB, idA] ∧ IsIterOrder chainResults [idA, idB] ∧
    (buildSnapshot [] [] chainResults [idB, idA] chainUuid.Edges).toOption.map
      (fun snap => snap.Nodes.map (fun ns => ns.AgentName)) = some [idB, idA] ∧
    (buildSnapshot [] [] chainResults [idA, idB] chainUuid.Edges).toOption.map
      (fun snap => snap.Nodes.map (fun ns => ns.AgentName)) = some [idA, idB] := by
  refine ⟨rfl, rfl, chainResults_order_ba, chainResults_order_ab, rfl, rfl⟩

/-- C19 (amended): whenever `buildSnapshot` returns a snapshot, its `nodes` list holds one
node snapshot per key of the results map, in the order in which the iteration over that
map yields the keys; each carries the steps and the output recorded under its key. -/
theorem c19_snapshot_nodes_in_iteration_order (workflowID executionID : UUID)
    (results : GoMap NodeResult) (order : List String) (edges : List EdgeConfig)
    (snap : Snapshot) (ho : IsIterOrder results order)
    (h : buildSnapshot workflowID executionID results order edges = Outcome.ok snap) :
    snap.Nodes.map (fun ns => ns.AgentName) = order ∧
    (∀ k, (results k).isSome = true ↔ ∃ ns ∈ snap.Nodes, ns.AgentName = k) ∧
    (∀ ns ∈ snap.Nodes, ∃ r, results ns.AgentName = some r ∧ ns.Steps = r.Steps ∧
      ns.FinalOutput = r.Output ∧ uuidParse ns.AgentName = some ns.NodeID) := by
  obtain ⟨_, hn, hall, _, _⟩ :=
    buildSnapshot_spec workflowID executionID results order edges snap h
  have hfilter : order.filter (fun k => (results k).isSome) = order := by
    rw [List.filter_eq_self]
    intro k hk
    exact (ho.2 k).1 hk
  rw [hfilter] at hn
  refine ⟨hn, fun k => ?_, hall⟩
  rw [← ho.2 k, ← hn]
  simp

/-- Witness of the amended C19 on the results of the chain. -/
theorem c19_snapshot_nodes_in_iteration_order_witness :
    IsIterOrder chainResults [idB, idA] ∧
    ∃ snap, buildSnapshot [] [] chainResults [idB, idA] chainUuid.Edges = Outcome.ok snap ∧
      snap.Nodes.map (fun ns => ns.AgentName) = [idB, idA] ∧
      (∀ k, (chainResults k).isSome = true ↔ ∃ ns ∈ snap.Nodes, ns.AgentName = k) ∧
      (∀ ns ∈ snap.Nodes, ∃ r, chainResults ns.AgentName = some r ∧ ns.Steps = r.Steps ∧
        ns.FinalOutput = r.Output ∧ uuidParse ns.AgentName = some ns.NodeID) :=
  ⟨chainResults_order_ba, _, rfl,
    c19_snapshot_nodes_in_iteration_order [] [] chainResults [idB, idA] chainUuid.Edges _
      chainResults_order_ba rfl⟩

/-- C20 (the code at the failing input): after a run of the single-node workflow with
node id "n1" in which the node succeeds and `Run` returns, the results map holds a result
under "n1", and `buildSnapshot` panics in `uuid.MustParse`. -/
theorem c20_buildSnapshot_panics_on_plain_id :
    oneNode.nodeIds = ["n1"] ∧ uuidParse "n1" = none ∧
    (runSteps (builtOrEmpty oneNode) oneNodeStart successRunSchedule).map
      (fun s => (s.results "n1", s.panicked, s.returned)) =
      some (some (storedResult "n1" ""), false, true) ∧
    (runSteps (builtOrEmpty oneNode) oneNodeStart successRunSchedule).map
      (fun s => buildSnapshot [] [] s.results ["n1"] oneNode.Edges) =
      some Outcome.fault := by
  refine ⟨rfl, rfl, rfl, rfl⟩

/-! ## Events -/

theorem sendEvent_results (s : SchedState) (ev : ExecutionEvent) (sent : SchedState)
    (h : sendEvent s ev = some sent) : sent.results = s.results := by
  unfold sendEvent at h
  split at h
  · cases h
    rfl
  · split at h
    · cases h
      rfl
    · cases h

theorem resultShape_set (results : GoMap NodeResult) (n : String) (r0 : NodeResult)
    (h0 : ResultShape n r0) (hres : ∀ k r, results k = some r → ResultShape k r) :
    ∀ k r, (results.set n r0) k = some r → ResultShape k r := by
  intro k r hk
  by_cases hkn : k = n
  · subst hkn
    rw [GoMap.set_same] at hk
    cases hk
    exact h0
  · rw [GoMap.set_other _ _ _ _ hkn] at hk
    exact hres k r hk

theorem workerStep_results (d : DAG) (s : SchedState) (n : String) (pc : PC) (env : Env)
    (s2 : SchedState) (pc2 : PC) (spawn : Option String)
    (h : workerStep d s n pc env = some (s2, pc2, spawn))
    (hpc : StepPcInv pc) (hres : ∀ k r, s.results k = some r → ResultShape k r) :
    StepPcInv pc2 ∧ (∀ k r, s2.results k = some r → ResultShape k r) := by
  cases pc with
  | emit startTime endTime step =>
    simp only [workerStep] at h
    split at h
    · cases h
    · rename_i sent hsent
      simp only [Option.some.injEq, Prod.mk.injEq] at h
      obtain ⟨rfl, rfl, rfl⟩ := h
      exact ⟨hpc, by rw [sendEvent_results _ _ _ hsent]; exact hres⟩
  | failEmit =>
    simp only [workerStep] at h
    split at h
    · cases h
    · rename_i sent hsent
      simp only [Option.some.injEq, Prod.mk.injEq] at h
      obtain ⟨rfl, rfl, rfl⟩ := h
      exact ⟨trivial, by rw [sendEvent_results _ _ _ hsent]; exact hres⟩
  | store startTime endTime step =>
    have hshape : ResultShape n
        { NodeID := n, Output := step.Output, Steps := [step], StartTime := startTime,
          EndTime := endTime, Error := none } :=
      ⟨rfl, Or.inr ⟨rfl, step, rfl, hpc, rfl⟩⟩
    simp only [workerStep] at h
    split at h <;>
    · simp only [Option.some.injEq, Prod.mk.injEq] at h
      obtain ⟨rfl, rfl, rfl⟩ := h
      first
        | exact ⟨hpc, resultShape_set _ _ _ hshape hres⟩
        | exact ⟨trivial, resultShape_set _ _ _ hshape hres⟩
  | failing err startTime =>
    simp only [workerStep, Option.some.injEq, Prod.mk.injEq] at h
    obtain ⟨rfl, rfl, rfl⟩ := h
    exact ⟨trivial, resultShape_set _ _ _ ⟨rfl, Or.inl ⟨rfl, rfl⟩⟩ hres⟩
  | call agent startTime input =>
    simp only [workerStep] at h
    split at h <;>
    · simp only [Option.some.injEq, Prod.mk.injEq] at h
      obtain ⟨rfl, rfl, rfl⟩ := h
      first
        | exact ⟨trivial, hres⟩
        | exact ⟨rfl, hres⟩
  | start =>
    simp only [workerStep] at h
    split at h
    · simp only [Option.some.injEq, Prod.mk.injEq] at h
      obtain ⟨rfl, rfl, rfl⟩ := h
      exact ⟨trivial, hres⟩
    · split at h <;>
      · simp only [Option.some.injEq, Prod.mk.injEq] at h
        obtain ⟨rfl, rfl, rfl⟩ := h
        exact ⟨trivial, hres⟩
  | gotAgent agent startTime =>
    simp only [workerStep] at h
    split at h
    · simp only [Option.some.injEq, Prod.mk.injEq] at h
      obtain ⟨rfl, rfl, rfl⟩ := h
      exact ⟨trivial, hres⟩
    · split at h
      · split at h <;>
        · simp only [Option.some.injEq, Prod.mk.injEq] at h
          obtain ⟨rfl, rfl, rfl⟩ := h
          exact ⟨trivial, hres⟩
      · simp only [Option.some.injEq, Prod.mk.injEq] at h
        obtain ⟨rfl, rfl, rfl⟩ := h
        exact ⟨trivial, hres⟩
  | build agent startTime deps inputs =>
    cases deps with
    | nil =>
      simp only [workerStep] at h
      split at h <;>
      · simp only [Option.some.injEq, Prod.mk.injEq] at h
        obtain ⟨rfl, rfl, rfl⟩ := h
        exact ⟨trivial, hres⟩
    | cons dep rest =>
      simp only [workerStep, Option.some.injEq, Prod.mk.injEq] at h
      obtain ⟨rfl, rfl, rfl⟩ := h
      exact ⟨trivial, hres⟩
  | down downs =>
    cases downs with
    | nil =>
      simp only [workerStep, Option.some.injEq, Prod.mk.injEq] at h
      obtain ⟨rfl, rfl, rfl⟩ := h
      exact ⟨trivial, hres⟩
    | cons downstreamID rest =>
      simp only [workerStep] at h
      split at h <;>
      · simp only [Option.some.injEq, Prod.mk.injEq] at h
        obtain ⟨rfl, rfl, rfl⟩ := h
        exact ⟨trivial, hres⟩
  | deps current downs rest =>
    cases rest with
    | nil =>
      simp only [workerStep, Option.some.injEq, Prod.mk.injEq] at h
      obtain ⟨rfl, rfl, rfl⟩ := h
      exact ⟨trivial, hres⟩
    | cons dep rest =>
      simp only [workerStep] at h
      split at h <;>
      · simp only [Option.some.injEq, Prod.mk.injEq] at h
        obtain ⟨rfl, rfl, rfl⟩ := h
        exact ⟨trivial, hres⟩
  | check current downs =>
    simp only [workerStep] at h
    split at h <;>
    · simp only [Option.some.injEq, Prod.mk.injEq] at h
      obtain ⟨rfl, rfl, rfl⟩ := h
      exact ⟨trivial, hres⟩
  | finished => simp [workerStep] at h

theorem next_results (d : DAG) (s : SchedState) (l : Label) (s2 : SchedState)
    (hinv : ResultsInv s) (h : next d s l = some s2) : ResultsInv s2 := by
  cases l with
  | runReturns =>
    simp only [next] at h
    split at h
    · cases h
    · split at h
      · cases h
      · split at h
        · simp only [Option.some.injEq] at h
          subst h
          exact hinv
        · cases h
  | worker i env =>
    simp only [next] at h
    split at h
    · cases h
    · split at h
      · cases h
      · rename_i w hget
        have hw : w ∈ s.workers := List.get?_mem hget
        split at h
        · cases h
        · rename_i s3 pc2 spawn hstep
          obtain ⟨hpc2, hres2⟩ :=
            workerStep_results d s w.nodeID w.pc env s3 pc2 spawn hstep (hinv.1 w hw) hinv.2
          have hold : ∀ w2 ∈ s.workers.set i { w with pc := pc2 }, StepPcInv w2.pc := by
            intro w2 hw2
            rcases List.mem_or_eq_of_mem_set hw2 with hmem | heq
            · exact hinv.1 w2 hmem
            · subst heq
              exact hpc2
          split at h
          · simp only [Option.some.injEq] at h
            subst h
            exact ⟨hold, hres2⟩
          · simp only [Option.some.injEq] at h
            subst h
            refine ⟨fun w2 hw2 => ?_, hres2⟩
            rcases List.mem_append.1 hw2 with hmem | hnew
            · exact hold w2 hmem
            · have hw2eq : w2.pc = PC.start := by
                simp only [List.mem_singleton] at hnew
                rw [hnew]
              rw [hw2eq]
              trivial

theorem seedResults_shape (d : DAG) (input : InitialInput) (order : List String) :
    ∀ (results : GoMap NodeResult), (∀ k r, results k = some r → ResultShape k r) →
      ∀ k r, seedResults d input order results k = some r → ResultShape k r := by
  induction order with
  | nil => intro results h; exact h
  | cons n rest ih =>
    intro results h
    simp only [seedResults]
    cases hn : d.Nodes n with
    | none => exact ih results h
    | some node =>
      by_cases hlen : node.DependsOn.length = 0
      · simp only [hlen, if_true]
        exact ih _ (resultShape_set _ _ _ ⟨rfl, Or.inl ⟨rfl, rfl⟩⟩ h)
      · simp only [hlen, if_false]
        exact ih results h

theorem runStart_results (d : DAG) (order1 order2 : List String) (input : InitialInput) :
    ResultsInv (runStart d order1 order2 input) := by
  refine ⟨fun w hw => ?_, ?_⟩
  · rw [(runStart_entry d order1 order2 input w hw).1]
    trivial
  · exact seedResults_shape d input order1 GoMap.empty
      (fun k r hk => by simp [GoMap.empty] at hk)

theorem runSteps_results (d : DAG) (labels : List Label) :
    ∀ (s s2 : SchedState), ResultsInv s → runSteps d s labels = some s2 → ResultsInv s2 := by
  induction labels with
  | nil =>
    intro s s2 hinv h
    simp only [runSteps, Option.some.injEq] at h
    subst h
    exact hinv
  | cons l rest ih =>
    intro s s2 hinv h
    simp only [runSteps] at h
    split at h
    · cases h
    · rename_i s3 hnext
      exact ih s3 s2 (next_results d s l s3 hinv hnext) h

theorem next_of_workerStep (d : DAG) (s : SchedState) (i : Nat) (env : Env) (n : String)
    (pc : PC) (wg : Bool) (s2 : SchedState) (pc2 : PC) (hat : WorkerAt s i n pc wg)
    (hstep : workerStep d s n pc env = some (s2, pc2, none)) (hp2 : s2.panicked = false) :
    ∃ s3, next d s (Label.worker i env) = some s3 ∧ WorkerAt s3 i n pc2 wg ∧
      s3.completed = s2.completed ∧ s3.results = s2.results ∧ s3.events = s2.events ∧
      s3.closed = s2.closed := by
  obtain ⟨hget, hp⟩ := hat
  have hi : i < s.workers.length := by
    rw [List.get?_eq_getElem?, List.getElem?_eq_some] at hget
    exact hget.1
  refine ⟨{ s2 with workers := s.workers.set i { nodeID := n, pc := pc2, inWaitGroup := wg } },
    ?_, ⟨?_, hp2⟩, rfl, rfl, rfl, rfl⟩
  · have hget2 : s.workers[i]? = some { nodeID := n, pc := pc, inWaitGroup := wg } := by
      rw [← List.get?_eq_getElem?]
      exact hget
    simp [next, hp, hget2, hstep]
  · show (s.workers.set i { nodeID := n, pc := pc2, inWaitGroup := wg }).get? i = _
    rw [List.get?_eq_getElem?, List.getElem?_set_self hi]

theorem runSteps_append (d : DAG) (l1 l2 : List Label) :
    ∀ (s s1 : SchedState), runSteps d s l1 = some s1 →
      runSteps d s (l1 ++ l2) = runSteps d s1 l2 := by
  induction l1 with
  | nil =>
    intro s s1 h
    simp only [runSteps, Option.some.injEq] at h
    subst h
    rfl
  | cons l rest ih =>
    intro s s1 h
    simp only [runSteps] at h
    split at h
    · cases h
    · rename_i s2 hnext
      simp only [List.cons_append, runSteps, hnext]
      exact ih s2 s1 h

theorem runSteps_one (d : DAG) (s s2 : SchedState) (l : Label) (h : next d s l = some s2) :
    runSteps d s [l] = some s2 := by
  simp only [runSteps, h]

theorem build_loop (d : DAG) (i : Nat) (n : String) (wg : Bool) (agent : AgentRecord)
    (startTime : Int) (env : Env) (deps : List String) :
    ∀ (inputs : List String) (s : SchedState),
      WorkerAt s i n (PC.build agent startTime deps inputs) wg →
      ∃ s2, runSteps d s (workerSteps deps.length i env) = some s2 ∧
        WorkerAt s2 i n
          (PC.build agent startTime [] (deps.foldl (readInput s.results) inputs)) wg ∧
        s2.completed = s.completed ∧ s2.results = s.results ∧ s2.events = s.events ∧
        s2.closed = s.closed := by
  induction deps with
  | nil =>
    intro inputs s hat
    exact ⟨s, rfl, hat, rfl, rfl, rfl, rfl⟩
  | cons dep rest ih =>
    intro inputs s hat
    obtain ⟨s1, hn1, hat1, hc1, hr1, he1, hcl1⟩ :=
      next_of_workerStep d s i env n _ wg s _ hat
        (show workerStep d s n (PC.build agent startTime (dep :: rest) inputs) env =
          some (s, PC.build agent startTime rest (readInput s.results inputs dep), none) from rfl)
        hat.2
    obtain ⟨s2, hrun, hat2, hc2, hr2, he2, hcl2⟩ := ih _ s1 hat1
    refine ⟨s2, ?_, ?_, hc2.trans hc1, hr2.trans hr1, he2.trans he1, hcl2.trans hcl1⟩
    · simp only [workerSteps, List.length_cons, List.replicate_succ, runSteps, hn1]
      exact hrun
    · rw [hr1] at hat2
      exact hat2

theorem executeNode_success (d : DAG) (s : SchedState) (i : Nat) (n : String) (wg : Bool)
    (node : Node) (agent : AgentRecord) (provider model : String) (res : ExecResult)
    (env : Env) (hat : WorkerAt s i n PC.start wg) (hclosed : s.closed = false)
    (hroom : s.events.length < 100)
    (hn : d.Nodes n = some node) (ha : env.agent = Except.ok agent)
    (hprov : agent.provider = some provider) (hmod : agent.model = some model)
    (hreg : env.registered = true) (hex : env.exec = Except.ok res) :
    ∃ s2 input, runSteps d s (workerSteps (node.DependsOn.length + 6) i env) = some s2 ∧
      buildInput d s.results n = Outcome.ok input ∧
      s2.results n = some
        { NodeID := n, Output := res.Content
          Steps := [{ StepID := env.uuid, Type_ := "think", Input := input,
                      Output := res.Content, Prompt := agent.SystemPrompt,
                      Tokens := res.TotalTokens, LatencyMs := res.LatencyMs,
                      Timestamp := env.now }]
          StartTime := env.now, EndTime := env.now, Error := none } ∧
      s2.completed.getD n false = true ∧
      WorkerAt s2 i n (PC.down node.Downstream) wg := by
  -- start: the agent is found
  obtain ⟨s1, hn1, hat1, _, hr1, he1, hcl1⟩ :=
    next_of_workerStep d s i env n _ wg s (PC.gotAgent agent env.now) hat
      (by simp only [workerStep, hn, ha]) hat.2
  -- the provider is a string with a registered Executor
  obtain ⟨s2, hn2, hat2, _, hr2, he2, hcl2⟩ :=
    next_of_workerStep d s1 i env n _ wg s1 (PC.build agent env.now node.DependsOn []) hat1
      (by simp [workerStep, hn, hprov, hreg]) hat1.2
  -- the dependency loop of buildInput
  obtain ⟨s3, hrun3, hat3, _, hr3, he3, hcl3⟩ :=
    build_loop d i n wg agent env.now env node.DependsOn [] s2 hat2
  -- the inputs are combined, the model is a string
  obtain ⟨s4, hn4, hat4, _, hr4, he4, hcl4⟩ :=
    next_of_workerStep d s3 i env n _ wg s3
      (PC.call agent env.now
        (combineInputs "" 0 (node.DependsOn.foldl (readInput s2.results) []))) hat3
      (by simp only [workerStep, hmod]) hat3.2
  -- the Executor call succeeds
  obtain ⟨s5, hn5, hat5, _, hr5, he5, hcl5⟩ :=
    next_of_workerStep d s4 i env n _ wg s4 _ hat4
      (show workerStep d s4 n (PC.call agent env.now
          (combineInputs "" 0 (node.DependsOn.foldl (readInput s2.results) []))) env =
        some (s4, PC.emit env.now env.now
          { StepID := env.uuid, Type_ := "think"
            Input := combineInputs "" 0 (node.DependsOn.foldl (readInput s2.results) [])
            Output := res.Content, Prompt := agent.SystemPrompt, Tokens := res.TotalTokens
            LatencyMs := res.LatencyMs, Timestamp := env.now }, none) by
        simp only [workerStep, hex]) hat4.2
  -- the event is sent on the open channel, whose buffer has room
  have hopen : s5.closed = false := by
    rw [hcl5, hcl4, hcl3, hcl2, hcl1, hclosed]
  have hroom5 : s5.events.length < 100 := by
    rw [he5, he4, he3, he2, he1]
    exact hroom
  obtain ⟨s6, hn6, hat6, _, hr6, _, _⟩ :=
    next_of_workerStep d s5 i env n _ wg
      { s5 with
        events := s5.events ++
          [{ Type_ := "step_complete", NodeID := n
             Step := some
               { StepID := env.uuid, Type_ := "think"
                 Input := combineInputs "" 0 (node.DependsOn.foldl (readInput s2.results) [])
                 Output := res.Content, Prompt := agent.SystemPrompt
                 Tokens := res.TotalTokens, LatencyMs := res.LatencyMs
                 Timestamp := env.now }
             Timestamp := env.now }] }
      (PC.store env.now env.now
        { StepID := env.uuid, Type_ := "think"
          Input := combineInputs "" 0 (node.DependsOn.foldl (readInput s2.results) [])
          Output := res.Content, Prompt := agent.SystemPrompt, Tokens := res.TotalTokens
          LatencyMs := res.LatencyMs, Timestamp := env.now }) hat5
      (by simp [workerStep, sendEvent, hopen, hroom5]) hat5.2
  -- the result is stored
  obtain ⟨s7, hn7, hat7, hc7, hr7, _, _⟩ :=
    next_of_workerStep d s6 i env n _ wg
      { s6 with
        completed := s6.completed.set n true
        results := s6.results.set n
          { NodeID := n, Output := res.Content
            Steps := [{ StepID := env.uuid, Type_ := "think"
                        Input := combineInputs "" 0
                          (node.DependsOn.foldl (readInput s2.results) [])
                        Output := res.Content, Prompt := agent.SystemPrompt
                        Tokens := res.TotalTokens, LatencyMs := res.LatencyMs
                        Timestamp := env.now }]
            StartTime := env.now, EndTime := env.now, Error := none } }
      (PC.down node.Downstream) hat6
      (by simp only [workerStep, hn]) hat6.2
  have hres : s2.results = s.results := hr2.trans hr1
  refine ⟨s7, combineInputs "" 0 (node.DependsOn.foldl (readInput s.results) []), ?_, ?_, ?_,
    ?_, hat7⟩
  · have hsplit : workerSteps (node.DependsOn.length + 6) i env =
        [Label.worker i env] ++ ([Label.worker i env] ++
          (workerSteps node.DependsOn.length i env ++ ([Label.worker i env] ++
            ([Label.worker i env] ++ ([Label.worker i env] ++ [Label.worker i env]))))) := by
      simp only [workerSteps, ← List.replicate_one, ← List.replicate_add]
      congr 1
      omega
    rw [hsplit, runSteps_append d _ _ s s1 (runSteps_one d s s1 _ hn1),
      runSteps_append d _ _ s1 s2 (runSteps_one d s1 s2 _ hn2),
      runSteps_append d _ _ s2 s3 hrun3,
      runSteps_append d _ _ s3 s4 (runSteps_one d s3 s4 _ hn4),
      runSteps_append d _ _ s4 s5 (runSteps_one d s4 s5 _ hn5),
      runSteps_append d _ _ s5 s6 (runSteps_one d s5 s6 _ hn6)]
    exact runSteps_one d s6 s7 _ hn7
  · simp only [buildInput, hn]
  · rw [hr7, hres]
    exact GoMap.set_same _ _ _
  · rw [hc7]
    exact GoMap.getD_set_same _ _ _ _

/-- C16 (the code at the failing input): on the chain idA → idB every agent is found and
every Executor call succeeds.  The goroutine of idA runs to its end and starts the one of
idB outside the wait group, so `Run` closes the event channel and returns; the snapshot
built from the results at that point holds a node snapshot for idA only.  The Executor
call of idB then returns the content "out", and the goroutine holds the `think` step for
it; its next statement, the send on the closed channel, panics, and no result is ever
stored for idB.  On the diamond, after the first of the two goroutines started for n4 has
stored its one-step result, the second one, whose agent lookup fails, overwrites it in
`markFailed` by a result that has no step and carries the error. -/
theorem c16_success_without_result :
    (runSteps (builtOrEmpty chainUuid) chainStart earlyReturnSchedule).map
      (fun s => (s.returned, s.closed, s.panicked, s.workers, s.results idA, s.results idB)) =
      some (true, true, false,
        [{ nodeID := idA, pc := PC.finished, inWaitGroup := true },
         { nodeID := idB, pc := PC.emit 10 10 (sampleStep "Input 1: out\n"),
           inWaitGroup := false }],
        some (storedResult idA ""), none) ∧
    (runSteps (builtOrEmpty chainUuid) chainStart earlyReturnSchedule).map
      (fun s => (buildSnapshot [] [] s.results [idA] chainUuid.Edges).toOption.map
        (fun snap => snap.Nodes.map (fun ns => ns.AgentName))) = some (some [idA]) ∧
    (runSteps (builtOrEmpty chainUuid) chainStart
      (earlyReturnSchedule ++ workerSteps 1 1 envOk)).map
      (fun s => (s.panicked, s.results idB, s.completed.getD idB false)) =
      some (true, none, false) ∧
    (runSteps (builtOrEmpty chainUuid) chainStart
      (earlyReturnSchedule ++ workerSteps 2 1 envOk)).isSome = false ∧
    (runSteps (builtOrEmpty diamond) diamondStart firstStoreSchedule).map
      (fun s => (s.workers.map (fun w => w.nodeID), s.results "n4")) =
      some (["n1", "n2", "n3", "n4", "n4"],
        some (storedResult "n4" "Input 1: out\nInput 2: out\n")) ∧
    (runSteps (builtOrEmpty diamond) diamondStart
      (firstStoreSchedule ++ workerSteps 2 4 envAgentMissing)).map
      (fun s => (s.panicked, s.results "n4")) =
      some (false,
        some { NodeID := "n4", Output := "", Steps := [], StartTime := 10, EndTime := 10,
               Error := some "agent not found" }) := by
  refine ⟨rfl, rfl, rfl, rfl, rfl, rfl⟩

/-! ## Replay: the modifications applied to the snapshot -/

theorem modificationMap_append (mods : List Modification) (mod : Modification) :
    modificationMap (mods ++ [mod]) = (modificationMap mods).set mod.StepID mod.NewOutput := by
  simp [modificationMap, List.foldl_append]

theorem lastModification_append (mods : List Modification) (mod : Modification)
    (stepID : String) :
    lastModification (mods ++ [mod]) stepID =
      if mod.StepID = stepID then some mod.NewOutput else lastModification mods stepID := by
  unfold lastModification
  rw [List.reverse_append, List.reverse_singleton, List.singleton_append, List.find?_cons]
  by_cases h : mod.StepID = stepID
  · simp [h]
  · simp [h]

theorem modificationMap_eq (mods : List Modification) (stepID : String) :
    modificationMap mods stepID = lastModification mods stepID := by
  induction mods using List.reverseRecOn with
  | nil => rfl
  | append_singleton mods mod ih =>
    rw [modificationMap_append, lastModification_append]
    by_cases h : mod.StepID = stepID
    · subst h
      simp [GoMap.set]
    · have h2 : ¬ stepID = mod.StepID := fun e => h e.symm
      simp [GoMap.set, h, h2, ih]

theorem lastModification_none (mods : List Modification) (stepID : String) :
    lastModification mods stepID = none ↔ ∀ mod ∈ mods, mod.StepID ≠ stepID := by
  simp [lastModification]

theorem modifyStep_eq (mods : List Modification) (step : Step) :
    modifyStep (modificationMap mods) step =
      { step with Output := (lastModification mods step.StepID).getD step.Output } := by
  unfold modifyStep
  rw [modificationMap_eq]
  cases lastModification mods step.StepID with
  | none => rfl
  | some o => rfl

theorem modifyStep_unnamed (mods : List Modification) (step : Step)
    (h : ∀ mod ∈ mods, mod.StepID ≠ step.StepID) :
    modifyStep (modificationMap mods) step = step := by
  rw [modifyStep_eq, (lastModification_none mods step.StepID).2 h]
  rfl

theorem applyModifications_unnamed (snapshot : Snapshot) (mods : List Modification)
    (h : ∀ mod ∈ mods, ∀ node ∈ snapshot.Nodes, ∀ step ∈ node.Steps,
      mod.StepID ≠ step.StepID) :
    applyModifications snapshot mods = snapshot := by
  have hn : snapshot.Nodes.map (modifyNode (modificationMap mods)) = snapshot.Nodes := by
    conv_rhs => rw [← List.map_id snapshot.Nodes]
    apply List.map_congr_left
    intro node hnode
    have hs : node.Steps.map (modifyStep (modificationMap mods)) = node.Steps := by
      conv_rhs => rw [← List.map_id node.Steps]
      apply List.map_congr_left
      intro step hstep
      exact modifyStep_unnamed mods step (fun mod hmod => h mod hmod node hnode step hstep)
    simp only [modifyNode, hs, id]
  simp only [applyModifications, hn]

/-- C21: the snapshot `Replay` holds in memory after applying the modifications differs
from the source snapshot only in step outputs.  The workflow id, execution id, edges
and execution meta are those of the source; the nodes are the same in number and order
with the same node id, agent name and final output; every step keeps every field other
than its output; the output of a step is the new output of the last modification listed
for its step id, and its old output when no modification names it.  An empty list of
modifications, or one that names only step ids absent from the snapshot, gives back the
source snapshot. -/
theorem c21_replay_frame (snapshot : Snapshot) (mods : List Modification) :
    (applyModifications snapshot mods).WorkflowID = snapshot.WorkflowID ∧
    (applyModifications snapshot mods).ExecutionID = snapshot.ExecutionID ∧
    (applyModifications snapshot mods).Edges = snapshot.Edges ∧
    (applyModifications snapshot mods).ExecutionMeta = snapshot.ExecutionMeta ∧
    (applyModifications snapshot mods).Nodes.map
        (fun node => (node.NodeID, node.AgentName, node.FinalOutput)) =
      snapshot.Nodes.map (fun node => (node.NodeID, node.AgentName, node.FinalOutput)) ∧
    (applyModifications snapshot mods).Nodes.map
        (fun node => node.Steps.map (fun step => { step with Output := "" })) =
      snapshot.Nodes.map
        (fun node => node.Steps.map (fun step => { step with Output := "" })) ∧
    (applyModifications snapshot mods).Nodes.map
        (fun node => node.Steps.map (fun step => step.Output)) =
      snapshot.Nodes.map (fun node => node.Steps.map
        (fun step => (lastModification mods step.StepID).getD step.Output)) ∧
    applyModifications snapshot [] = snapshot ∧
    ((∀ mod ∈ mods, ∀ node ∈ snapshot.Nodes, ∀ step ∈ node.Steps,
        mod.StepID ≠ step.StepID) →
      applyModifications snapshot mods = snapshot) := by
  refine ⟨rfl, rfl, rfl, rfl, ?_, ?_, ?_, ?_, applyModifications_unnamed snapshot mods⟩
  · simp only [applyModifications, List.map_map]
    rfl
  · simp only [applyModifications, List.map_map]
    apply List.map_congr_left
    intro node _
    simp only [Function.comp, modifyNode, List.map_map]
    apply List.map_congr_left
    intro step _
    simp only [Function.comp, modifyStep_eq]
  · simp only [applyModifications, List.map_map]
    apply List.map_congr_left
    intro node _
    simp only [Function.comp, modifyNode, List.map_map]
    apply List.map_congr_left
    intro step _
    simp only [Function.comp, modifyStep_eq]
  · exact applyModifications_unnamed snapshot [] (fun mod hmod => by cases hmod)

/-! ## The handlers `Replay` and `Execute` -/

theorem replay_accepted (executions : List ExecutionRow) (idParam : String)
    (mods : List Modification) (newExecutionID : UUID) (id : UUID) (row : ExecutionRow)
    (hid : uuidParse idParam = some id)
    (hrow : executions.find? (fun row => decide (row.ID = id)) = some row) :
    Replay executions idParam mods newExecutionID false =
      { code := 202
        executions := executions ++
          [{ ID := newExecutionID, WorkflowID := row.Snapshot.WorkflowID, Status := "replaying",
             Snapshot := row.Snapshot }]
        snapshot := some (applyModifications row.Snapshot mods)
        modificationsApplied := some mods.length } := by
  simp only [Replay, hid, hrow]
  rfl

theorem execute_rejected (workflows : List WorkflowRow) (executions : List ExecutionRow)
    (idParam : String) (executionID : UUID) (order : List String) (fuel : Nat)
    (workflowID : UUID) (row : WorkflowRow) (msg : String)
    (hid : uuidParse idParam = some workflowID)
    (hrow : workflows.find? (fun row => decide (row.ID = workflowID)) = some row)
    (hdag : NewDAG row.Workflow order fuel = some (Outcome.err msg)) :
    Execute workflows executions idParam executionID false order fuel =
      some { code := 400
             executions := executions ++
               [{ ID := executionID, WorkflowID := workflowID, Status := "running",
                  Snapshot := emptySnapshot }]
             started := false } := by
  simp only [Execute, hid, hrow, hdag]
  rfl

/-- C22 (the code at the failing input): the source execution holds the snapshot of the
chain, whose step s1 has the output "out", and the request names s1 with the new output
"hello".  `Replay` answers 202 and computes the modified snapshot, in which s1 has the
output "hello", but the row it inserts under the new execution id, with status
"replaying", holds the snapshot of the source: the stored output of s1 is "out". -/
theorem c22_replay_stores_source_snapshot :
    (Replay sampleExecutions sourceExecutionId [⟨"s1", "hello"⟩]
      (List.replicate 15 0 ++ [226]) false).code = 202 ∧
    (Replay sampleExecutions sourceExecutionId [⟨"s1", "hello"⟩]
      (List.replicate 15 0 ++ [226]) false).executions =
      sampleExecutions ++
        [{ ID := List.replicate 15 0 ++ [226], WorkflowID := chainSnapshot.WorkflowID,
           Status := "replaying", Snapshot := chainSnapshot }] ∧
    (Replay sampleExecutions sourceExecutionId [⟨"s1", "hello"⟩]
      (List.replicate 15 0 ++ [226]) false).snapshot =
      some (applyModifications chainSnapshot [⟨"s1", "hello"⟩]) ∧
    chainSnapshot.Nodes.map (fun node => node.Steps.map (fun step => (step.StepID, step.Output))) =
      [[("s1", "out")], [("s2", "out")]] ∧
    (applyModifications chainSnapshot [⟨"s1", "hello"⟩]).Nodes.map
        (fun node => node.Steps.map (fun step => (step.StepID, step.Output))) =
      [[("s1", "hello")], [("s2", "out")]] ∧
    ((Replay sampleExecutions sourceExecutionId [⟨"s1", "hello"⟩]
      (List.replicate 15 0 ++ [226]) false).executions.getLast?.map
        (fun row => (row.Status, row.Snapshot.Edges,
          row.Snapshot.Nodes.map
            (fun node => node.Steps.map (fun step => (step.StepID, step.Output)))))) =
      some ("replaying", chainSnapshot.Edges, [[("s1", "out")], [("s2", "out")]]) := by
  refine ⟨rfl, rfl, rfl, rfl, rfl, rfl⟩

/-- C23 (as stated, refuted): in the snapshot of the chain the last step of the first
node is s1 and the node's final output is "out"; the request overrides the output of s1
by "hello".  In the snapshot `Replay` holds after applying the modification the last step
of that node has the output "hello" and the node's final output is still "out". -/
theorem c23_final_output_not_recomputed :
    chainSnapshot.Nodes.map
        (fun node => (node.Steps.getLast?.map (fun step => step.StepID), node.FinalOutput)) =
      [(some "s1", "out"), (some "s2", "out")] ∧
    lastModification [⟨"s1", "hello"⟩] "s1" = some "hello" ∧
    (Replay sampleExecutions sourceExecutionId [⟨"s1", "hello"⟩]
      (List.replicate 15 0 ++ [226]) false).snapshot =
      some (applyModifications chainSnapshot [⟨"s1", "hello"⟩]) ∧
    (applyModifications chainSnapshot [⟨"s1", "hello"⟩]).Nodes.map
        (fun node => (node.Steps.getLast?.map (fun step => step.Output), node.FinalOutput)) =
      [(some "hello", "out"), (some "out", "out")] := by
  refine ⟨rfl, rfl, rfl, rfl⟩

/-- C23 (amended): for every snapshot, every node of it and every list of modifications
whose last entry for the step id of the node's last step carries the new output `o`,
after `Replay` applied the modifications the last step of that node has the output `o`,
and the node's final output is the one of the source snapshot: it is not recomputed. -/
theorem c23_final_output_kept (snapshot : Snapshot) (mods : List Modification) (i : Nat)
    (node : NodeSnapshot) (step : Step) (o : String)
    (hn : snapshot.Nodes[i]? = some node) (hl : node.Steps.getLast? = some step)
    (hm : lastModification mods step.StepID = some o) :
    ∃ node2, (applyModifications snapshot mods).Nodes[i]? = some node2 ∧
      node2.Steps.getLast?.map (fun st => st.Output) = some o ∧
      node2.FinalOutput = node.FinalOutput := by
  refine ⟨modifyNode (modificationMap mods) node, ?_, ?_, rfl⟩
  · simp only [applyModifications, List.getElem?_map, hn, Option.map_some']
  · simp only [modifyNode, List.getLast?_map, hl, Option.map_some', modifyStep_eq, hm,
      Option.getD_some]

/-- Witness of the amended C23 on the first node of the snapshot of the chain. -/
theorem c23_final_output_kept_witness :
    chainSnapshot.Nodes[0]?.map (fun node => node.FinalOutput) = some "out" ∧
    ∃ node2, (applyModifications chainSnapshot [⟨"s1", "hello"⟩]).Nodes[0]? = some node2 ∧
      node2.Steps.getLast?.map (fun st => st.Output) = some "hello" ∧
      node2.FinalOutput = "out" :=
  ⟨rfl,
    c23_final_output_kept chainSnapshot [⟨"s1", "hello"⟩] 0
      { NodeID := List.replicate 15 0 ++ [10], AgentName := idA
        Steps := [{ sampleStep "" with StepID := "s1" }], FinalOutput := "out" }
      { sampleStep "" with StepID := "s1" } "hello" rfl rfl rfl⟩

/-- C24 (the code at the failing input): the stored workflow is the two-node cycle
n1 → n2 → n1 and the executions table is empty.  `Execute` answers 400 and does not start
the scheduler, but it has inserted the execution row before it built the graph: the
table now holds one row, with status "running" and an empty snapshot. -/
theorem c24_rejected_execute_leaves_row :
    sampleWorkflows.map (fun row => row.Workflow) = [twoCycle] ∧
    twoCycle.HasCycle ∧
    NewDAG twoCycle ["n2", "n1"] 2 = some (Outcome.err "cycle detected in workflow DAG") ∧
    Execute sampleWorkflows [] cyclicWorkflowId (List.replicate 15 0 ++ [226]) false
        ["n2", "n1"] 2 =
      some { code := 400
             executions :=
               [{ ID := List.replicate 15 0 ++ [226], WorkflowID := List.replicate 15 0 ++ [193],
                  Status := "running", Snapshot := emptySnapshot }]
             started := false } := by
  have hc : twoCycle.HasCycle :=
    ⟨"n1", Relation.TransGen.tail
      (Relation.TransGen.single ⟨⟨"e1", "n1", "n2"⟩, by decide, rfl, rfl⟩)
      ⟨⟨"e2", "n2", "n1"⟩, by decide, rfl, rfl⟩⟩
  have hdag : NewDAG twoCycle ["n2", "n1"] 2 =
      some (Outcome.err "cycle detected in workflow DAG") := rfl
  exact ⟨rfl, hc, hdag,
    execute_rejected sampleWorkflows [] cyclicWorkflowId (List.replicate 15 0 ++ [226])
      ["n2", "n1"] 2 (List.replicate 15 0 ++ [193]) ⟨List.replicate 15 0 ++ [193], twoCycle⟩
      "cycle detected in workflow DAG" rfl rfl hdag⟩

/-! ## Stored order of the inputs, and acyclic workflows -/

theorem newDAG_diamond :
    NewDAG diamond ["n3", "n1", "n4", "n2"] 4 = some (Outcome.ok (builtOrEmpty diamond)) := by
  obtain ⟨d, hd, _⟩ := newDAG_ok diamond ["n3", "n1", "n4", "n2"] 4 diamond_valid
    diamond_acyclic diamond_order (by decide)
  have h1 := (newDAG_inv _ _ _ d hd).1
  rw [(builtOrEmpty_spec diamond diamond_valid).1] at h1
  cases h1
  exact hd

/-- C25: for a DAG that `NewDAG` built from a workflow and a node of it all of whose
dependencies have a recorded result, the node's `DependsOn` list holds the sources of the
workflow's edges into the node in the order of the edge list, and `buildInput` returns
the concatenation over that list of the lines "Input i: <output>\n", i counting from 1. -/
theorem c25_input_in_stored_order (w : Workflow) (order : List String) (fuel : Nat)
    (d : DAG) (results : GoMap NodeResult) (nodeID : String)
    (hd : NewDAG w order fuel = some (Outcome.ok d)) (hn : nodeID ∈ w.nodeIds)
    (hrec : ∀ dep ∈ sourcesInto w.Edges nodeID, ∃ r, results dep = some r) :
    (∃ node, d.Nodes nodeID = some node ∧
      node.DependsOn = (w.Edges.filter (fun e => e.Target = nodeID)).map (fun e => e.Source)) ∧
    buildInput d results nodeID =
      Outcome.ok (concatStrings (inputLines 0
        (((w.Edges.filter (fun e => e.Target = nodeID)).map (fun e => e.Source)).map
          (outputOf results)))) := by
  have hb := (buildGraph_inv w d (newDAG_inv w order fuel d hd).1).2
  obtain ⟨⟨node, hnode, _, hdeps, _⟩, _, _⟩ := (hb nodeID).1 hn
  refine ⟨⟨node, hnode, hdeps⟩, ?_⟩
  have h := buildInput_eq d results nodeID node hnode (by rw [hdeps]; exact hrec)
  rw [h, hdeps]
  rfl

/-- Witness of C25 on node n4 of the diamond, whose edges are listed n1→n2, n1→n3,
n2→n4, n3→n4 and whose parents have the outputs "n2-out" and "n3-out": the input of n4 is
"Input 1: n2-out\nInput 2: n3-out\n". -/
theorem c25_input_in_stored_order_witness :
    NewDAG diamond ["n3", "n1", "n4", "n2"] 4 = some (Outcome.ok (builtOrEmpty diamond)) ∧
    "n4" ∈ diamond.nodeIds ∧
    diamond.Edges.map (fun e => (e.Source, e.Target)) =
      [("n1", "n2"), ("n1", "n3"), ("n2", "n4"), ("n3", "n4")] ∧
    (∀ dep ∈ sourcesInto diamond.Edges "n4", ∃ r, diamondResults dep = some r) ∧
    (diamondResults "n2").map (fun r => r.Output) = some "n2-out" ∧
    (diamondResults "n3").map (fun r => r.Output) = some "n3-out" ∧
    ((∃ node, (builtOrEmpty diamond).Nodes "n4" = some node ∧
      node.DependsOn =
        (diamond.Edges.filter (fun e => e.Target = "n4")).map (fun e => e.Source)) ∧
    buildInput (builtOrEmpty diamond) diamondResults "n4" =
      Outcome.ok (concatStrings (inputLines 0
        (((diamond.Edges.filter (fun e => e.Target = "n4")).map (fun e => e.Source)).map
          (outputOf diamondResults))))) ∧
    concatStrings (inputLines 0
        (((diamond.Edges.filter (fun e => e.Target = "n4")).map (fun e => e.Source)).map
          (outputOf diamondResults))) = "Input 1: n2-out\nInput 2: n3-out\n" ∧
    buildInput (builtOrEmpty diamond) diamondResults "n4" =
      Outcome.ok "Input 1: n2-out\nInput 2: n3-out\n" :=
  have hrec : ∀ dep ∈ sourcesInto diamond.Edges "n4", ∃ r, diamondResults dep = some r := by
    intro dep hdep
    have hs : sourcesInto diamond.Edges "n4" = ["n2", "n3"] := by decide
    rw [hs] at hdep
    simp only [List.mem_cons, List.mem_singleton, List.not_mem_nil, or_false] at hdep
    rcases hdep with rfl | rfl
    · exact ⟨_, rfl⟩
    · exact ⟨_, rfl⟩
  ⟨newDAG_diamond, by decide, by decide, hrec, rfl, rfl,
    c25_input_in_stored_order diamond ["n3", "n1", "n4", "n2"] 4 (builtOrEmpty diamond)
      diamondResults "n4" newDAG_diamond (by decide) hrec, by decide, rfl⟩

/-- C26: for a workflow whose edges all reference existing nodes and which has no
directed cycle, cycle detection ends without a false positive: with fuel for one visit
per node and for every iteration order of the node map, `NewDAG` returns a DAG (no error,
no panic), `Validate` on that DAG returns no error, and the DAG holds exactly the nodes of
the workflow, each under its own id. -/
theorem c26_acyclic_accepted (w : Workflow) (order : List String) (fuel : Nat)
    (hv : w.EdgesValid) (hac : ¬ w.HasCycle) (ho : w.IsNodeOrder order)
    (hf : w.Nodes.length ≤ fuel) :
    ∃ d, NewDAG w order fuel = some (Outcome.ok d) ∧
      d.Validate order fuel = some none ∧
      (∀ n ∈ w.Nodes, ∃ node, d.Nodes n.ID = some node ∧ node.ID = n.ID) ∧
      ∀ k, (d.Nodes k).isSome = true ↔ k ∈ w.nodeIds := by
  obtain ⟨d, hd, hb⟩ := newDAG_ok w order fuel hv hac ho hf
  refine ⟨d, hd, (newDAG_inv w order fuel d hd).2, ?_, ?_⟩
  · intro n hn
    have hmem : n.ID ∈ w.nodeIds := List.mem_map.2 ⟨n, hn, rfl⟩
    obtain ⟨⟨node, hnode, hid, _⟩, _⟩ := (hb n.ID).1 hmem
    exact ⟨node, hnode, hid⟩
  · intro k
    by_cases hk : k ∈ w.nodeIds
    · obtain ⟨⟨node, hnode, _⟩, _⟩ := (hb k).1 hk
      simp [hnode, hk]
    · simp [((hb k).2 hk).1, hk]

/-- Witness of C26 on the diamond workflow. -/
theorem c26_acyclic_accepted_witness :
    diamond.EdgesValid ∧ ¬ diamond.HasCycle ∧ diamond.IsNodeOrder ["n3", "n1", "n4", "n2"] ∧
    ∃ d, NewDAG diamond ["n3", "n1", "n4", "n2"] 4 = some (Outcome.ok d) ∧
      d.Validate ["n3", "n1", "n4", "n2"] 4 = some none ∧
      (∀ n ∈ diamond.Nodes, ∃ node, d.Nodes n.ID = some node ∧ node.ID = n.ID) ∧
      ∀ k, (d.Nodes k).isSome = true ↔ k ∈ diamond.nodeIds :=
  ⟨diamond_valid, diamond_acyclic, diamond_order,
    c26_acyclic_accepted diamond ["n3", "n1", "n4", "n2"] 4 diamond_valid diamond_acyclic
      diamond_order (by decide)⟩

end AgentWorkflow
